import Mathlib

/-!
# MiniHTML: scanner, UTF-8 decoder and token stream

A shallow embedding of `ext/minihtml_scanner/minihtml_scanner.c` and
`ext/minihtml_token_stream/minihtml_token_stream.c`.

Conventions of the embedding:

* pointers into the source buffer are byte indices (`Nat`); the buffer is a
  function `mem : Nat → Nat`, and a `uint8_t` load is `mem i % 256`;
* the C `int` code points are `Int` (the EOF sentinel is `-1`); every value the
  decoder computes is below `2 ^ 21`, so no `int` overflow can occur;
* the `long` counters (`idx_cp`, `line`, `col`) are `Nat`: each is bounded by
  the length of the in-memory input plus one;
* Ruby's `nil` in a lookahead slot is `none`; `rb_raise` is `Except.error`;
* loops take a fuel argument and return `none` when it runs out.
-/

namespace MiniHTML

/-! ## Token stream (`minihtml_token_stream.c`) -/

/-- The struct `stream_t`. The element type of the token array is a parameter;
`marks` is the 128-slot array, `marks_idx` the number of slots in use. -/
structure stream_t (α : Type) where
  tokens : List α
  tokens_idx : Nat
  tokens_len : Nat
  look0 : Option α
  look1 : Option α
  marks : List Nat
  marks_idx : Nat
deriving DecidableEq, Repr

/-- The call `rb_ary_entry(tokens, i)` for `i ≥ 0`: the element, or `nil` past the end. -/
def rb_ary_entry {α : Type} (tokens : List α) (i : Nat) : Option α :=
  tokens.get? i

/-- The function `stream_initialize` (after the zeroing `stream_alloc`). -/
def stream_initialize {α : Type} (tokens : List α) : stream_t α :=
  { tokens := tokens
    tokens_idx := 0
    marks_idx := 0
    tokens_len := tokens.length
    look0 := if tokens.length ≥ 1 then rb_ary_entry tokens 0 else none
    look1 := if tokens.length ≥ 2 then rb_ary_entry tokens 1 else none
    marks := List.replicate 128 0 }

/-- The static `rotate` of the token stream. -/
def stream_rotate {α : Type} (s : stream_t α) : stream_t α :=
  { s with
    look0 := s.look1
    look1 := if s.tokens_idx + 1 < s.tokens_len
             then rb_ary_entry s.tokens (s.tokens_idx + 1) else none }

/-- The method `peek`. -/
def stream_peek {α : Type} (s : stream_t α) : Option α := s.look0

/-- The method `peek1` (the spec's `peek_next`). -/
def stream_peek1 {α : Type} (s : stream_t α) : Option α := s.look1

/-- The function `stream_consume_c`. -/
def stream_consume_c {α : Type} (s : stream_t α) : stream_t α :=
  stream_rotate
    (if s.tokens_idx < s.tokens_len ∧ s.tokens_idx + 1 < s.tokens_len
     then { s with tokens_idx := s.tokens_idx + 1 } else s)

/-- The method `consume`: the value returned and the new state. -/
def stream_consume {α : Type} (s : stream_t α) : Option α × stream_t α :=
  (s.look0, stream_consume_c s)

/-- The method `discard`. -/
def stream_discard {α : Type} (s : stream_t α) : stream_t α :=
  stream_consume_c s

/-- The method `mark` (`stream_create_mark`). -/
def stream_create_mark {α : Type} (s : stream_t α) : Except String (stream_t α) :=
  if s.marks_idx ≥ 127 then .error "Too many marks in stream"
  else .ok { s with marks := s.marks.set s.marks_idx s.tokens_idx
                    marks_idx := s.marks_idx + 1 }

/-- The method `restore` (`stream_mark_restore`). -/
def stream_mark_restore {α : Type} (s : stream_t α) : Except String (stream_t α) :=
  if s.marks_idx = 0 then .error "BUG: No mark to restore"
  else
    let mark := s.marks.getD (s.marks_idx - 1) 0
    .ok { s with
          tokens_idx := mark
          look0 := if s.tokens_len > mark then rb_ary_entry s.tokens mark else none
          look1 := if s.tokens_len > mark + 1 then rb_ary_entry s.tokens (mark + 1) else none
          marks_idx := s.marks_idx - 1 }

/-- The method `pop` (`stream_mark_pop`). -/
def stream_mark_pop {α : Type} (s : stream_t α) : Except String (stream_t α) :=
  if s.marks_idx = 0 then .error "BUG: No mark to pop"
  else .ok { s with marks_idx := s.marks_idx - 1 }

/-- The method `empty?` (`stream_is_empty`). -/
def stream_is_empty {α : Type} (s : stream_t α) : Bool :=
  decide (s.tokens_idx ≥ s.tokens_len) || s.look0.isNone

/-- A run of `n` calls of `consume`/`discard` (both advance by `stream_consume_c`). -/
def stream_advance {α : Type} : Nat → stream_t α → stream_t α
  | 0, s => s
  | n + 1, s => stream_advance n (stream_consume_c s)

/-! ## UTF-8 decoder (`next_utf8_cp`) -/

/-- The macro `EOF_CP`. -/
def EOF_CP : Int := -1

/-- Outcome of one decoder call: the `int` returned, the cursor `*p` on return,
and the byte indices that were dereferenced, in order. -/
structure Decoded where
  cp : Int
  p : Nat
  reads : List Nat
deriving DecidableEq, Repr

/-- The function `next_utf8_cp(&p, end)` over the byte memory `mem`. -/
def next_utf8_cp (mem : Nat → Nat) (p end_ : Nat) : Decoded :=
  if p ≥ end_ then ⟨EOF_CP, p, []⟩
  else
    let b0 := mem p % 256
    let p1 := p + 1
    if b0 < 0x80 then ⟨b0, p1, [p]⟩
    else if b0 &&& 0xE0 = 0xC0 then
      -- 2 bytes
      if p1 ≥ end_ then ⟨EOF_CP, p1, [p]⟩
      else
        let b1 := mem p1 % 256
        let p2 := p1 + 1
        if b1 &&& 0xC0 ≠ 0x80 then ⟨0xFFFD, p2, [p, p1]⟩
        else
          let cp := ((b0 &&& 0x1F) <<< 6) ||| (b1 &&& 0x3F)
          ⟨if cp < 0x80 then 0xFFFD else cp, p2, [p, p1]⟩
    else if b0 &&& 0xF0 = 0xE0 then
      -- 3 bytes
      if p1 + 1 ≥ end_ then ⟨EOF_CP, p1, [p]⟩
      else
        let b1 := mem p1 % 256
        let b2 := mem (p1 + 1) % 256
        let p3 := p1 + 2
        if b1 &&& 0xC0 ≠ 0x80 ∨ b2 &&& 0xC0 ≠ 0x80 then ⟨0xFFFD, p3, [p, p1, p1 + 1]⟩
        else
          let cp := ((b0 &&& 0x0F) <<< 12) ||| ((b1 &&& 0x3F) <<< 6) ||| (b2 &&& 0x3F)
          if cp ≥ 0xD800 ∧ cp ≤ 0xDFFF then ⟨0xFFFD, p3, [p, p1, p1 + 1]⟩
          else ⟨if cp < 0x800 then 0xFFFD else cp, p3, [p, p1, p1 + 1]⟩
    else if b0 &&& 0xF8 = 0xF0 then
      -- 4 bytes
      if p1 + 2 ≥ end_ then ⟨EOF_CP, p1, [p]⟩
      else
        let b1 := mem p1 % 256
        let b2 := mem (p1 + 1) % 256
        let b3 := mem (p1 + 2) % 256
        let p4 := p1 + 3
        if b1 &&& 0xC0 ≠ 0x80 ∨ b2 &&& 0xC0 ≠ 0x80 ∨ b3 &&& 0xC0 ≠ 0x80 then
          ⟨0xFFFD, p4, [p, p1, p1 + 1, p1 + 2]⟩
        else
          let cp := ((b0 &&& 0x07) <<< 18) ||| ((b1 &&& 0x3F) <<< 12)
                      ||| ((b2 &&& 0x3F) <<< 6) ||| (b3 &&& 0x3F)
          if cp > 0x10FFFF then ⟨0xFFFD, p4, [p, p1, p1 + 1, p1 + 2]⟩
          else ⟨if cp < 0x10000 then 0xFFFD else cp, p4, [p, p1, p1 + 1, p1 + 2]⟩
    else ⟨0xFFFD, p1, [p]⟩ -- invalid leading byte

/-- A byte list seen as memory: index `i` holds `bytes[i]` (and `0` outside). -/
def memOf (bytes : List Nat) : Nat → Nat := fun i => bytes.getD i 0

/-- Unicode scalar values: `0..0x10FFFF` without the surrogates `0xD800..0xDFFF`. -/
def isScalar (c : Nat) : Prop := c ≤ 0x10FFFF ∧ ¬ (0xD800 ≤ c ∧ c ≤ 0xDFFF)

instance (c : Nat) : Decidable (isScalar c) := by unfold isScalar; infer_instance

/-- Standard (shortest-form) UTF-8 encoding of a code point, RFC 3629 §3. This is the
reference encoder the decoder is compared with; it is not part of the C source. -/
def utf8 (c : Nat) : List Nat :=
  if c < 0x80 then [c]
  else if c < 0x800 then [0xC0 + c / 64, 0x80 + c % 64]
  else if c < 0x10000 then [0xE0 + c / 4096, 0x80 + c / 64 % 64, 0x80 + c % 64]
  else [0xF0 + c / 262144, 0x80 + c / 4096 % 64, 0x80 + c / 64 % 64, 0x80 + c % 64]

/-- The `n` bytes loaded from `mem` starting at index `p`. -/
def bytesAt (mem : Nat → Nat) (p : Nat) : Nat → List Nat
  | 0 => []
  | n + 1 => (mem p % 256) :: bytesAt mem (p + 1) n

/-- A continuation byte: the test `(b & 0xC0) == 0x80` of the decoder, pattern `10xxxxxx`. -/
def isCont (b : Nat) : Prop := b &&& 0xC0 = 0x80

instance (b : Nat) : Decidable (isCont b) := by unfold isCont; infer_instance

/-- The sequence length a lead byte announces, by the decoder's own tests on `b0`
(`0` for an invalid lead byte). -/
def seqLen (b0 : Nat) : Nat :=
  if b0 < 0x80 then 1
  else if b0 &&& 0xE0 = 0xC0 then 2
  else if b0 &&& 0xF0 = 0xE0 then 3
  else if b0 &&& 0xF8 = 0xF0 then 4
  else 0

/-- The payload the decoder assembles from a 2-byte sequence. -/
def payload2 (b0 b1 : Nat) : Nat := ((b0 &&& 0x1F) <<< 6) ||| (b1 &&& 0x3F)

/-- The payload the decoder assembles from a 3-byte sequence. -/
def payload3 (b0 b1 b2 : Nat) : Nat :=
  ((b0 &&& 0x0F) <<< 12) ||| ((b1 &&& 0x3F) <<< 6) ||| (b2 &&& 0x3F)

/-- The payload the decoder assembles from a 4-byte sequence. -/
def payload4 (b0 b1 b2 b3 : Nat) : Nat :=
  ((b0 &&& 0x07) <<< 18) ||| ((b1 &&& 0x3F) <<< 12) ||| ((b2 &&& 0x3F) <<< 6) ||| (b3 &&& 0x3F)

/-! ## Scanner (`minihtml_scanner.c`, `minihtml_scanner.h`) -/

/-- The macro `EOF` of `<stdio.h>`, which the scanner uses interchangeably with `EOF_CP`.
The C library is not part of the repository; `EOF` is `-1` in every C library Ruby
builds against. -/
def EOF : Int := -1

def SPACE : Int := 32
def CARRIAGE_RETURN : Int := 13
def FORM_FEED : Int := 12
def NEWLINE : Int := 0x0A
def HORIZONTAL_TAB : Int := 9
def VERTICAL_TAB : Int := 11
def ANGLED_LEFT : Int := 60
def ANGLED_RIGHT : Int := 62
def SOLIDUS : Int := 47
def CURLY_LEFT : Int := 123
def CURLY_RIGHT : Int := 125
def BANG : Int := 33
def MINUS_HYPHEN : Int := 45
def UNDERSCORE : Int := 95
def EQUAL : Int := 61
def APOSTROPHE : Int := 39
def QUOTE : Int := 34
def INVERTED_SOLIDUS : Int := 92
def PERIOD : Int := 46
def COLON : Int := 58

/-- The token kinds: the symbols `sym_tag_begin`, ... the scanner stores under `:kind`. -/
inductive Kind where
  | tag_begin
  | tag_end
  | tag_closing_start
  | tag_closing_end
  | right_angled
  | attr_key
  | equal
  | attr_value_unquoted
  | string
  | string_interpolation
  | interpolated_executable
  | executable
  | literal
  | tag_comment_end
deriving DecidableEq, Repr

/-- The hash pushed by `scanner_push_token_simple`, with the two keys added later:
`quote_char` (by `scanner_set_string_quote_value`) and `literal` (by
`scanner_hydrate_tokens`); an absent key is `none`. -/
structure Token where
  kind : Kind
  start_line : Nat
  start_column : Nat
  start_offset : Nat
  end_line : Nat
  end_column : Nat
  end_offset : Nat
  quote_char : Option Int
  literal : Option (List Nat)
deriving DecidableEq, Repr

/-- The struct `scanner_t`. `str` holds the bytes of the Ruby string, `p` and `end_`
are byte indices into it. -/
structure scanner_t where
  str : List Nat
  tokens : List Token
  errors : List String
  p : Nat
  end_ : Nat
  idx_cp : Nat
  look0 : Int
  look1 : Int
  look2 : Int
  look3 : Int
  line : Nat
  col : Nat
  start_token_offset : Nat
  start_token_line : Nat
  start_token_column : Nat
deriving DecidableEq, Repr

def scanner_is_letter (v : Int) : Bool :=
  (v ≥ 65 && v ≤ 90) || (v ≥ 97 && v ≤ 122)

def scanner_is_space (v : Int) : Bool :=
  v == SPACE || v == CARRIAGE_RETURN || v == FORM_FEED || v == NEWLINE
    || v == HORIZONTAL_TAB || v == VERTICAL_TAB

/-- The C library's `isdigit` in the "C" locale (not part of the repository): the spec's
"digits" of an identifier. -/
def isdigit (v : Int) : Bool := v ≥ 48 && v ≤ 57

def scanner_is_tag_ident (v : Int) : Bool :=
  v != EOF_CP && (scanner_is_letter v || isdigit v || v == UNDERSCORE || v == PERIOD
    || v == COLON)

/-- The function `scanner_initialize` on the bytes of the source string (after the
zeroing `scanner_alloc`). -/
def scanner_initialize (str : List Nat) : scanner_t :=
  let e := str.length
  let d0 := next_utf8_cp (memOf str) 0 e
  let d1 := next_utf8_cp (memOf str) d0.p e
  let d2 := next_utf8_cp (memOf str) d1.p e
  let d3 := next_utf8_cp (memOf str) d2.p e
  { str := str
    p := d3.p
    end_ := e
    idx_cp := 0
    tokens := []
    errors := []
    line := 1
    col := 1
    look0 := d0.cp
    look1 := d1.cp
    look2 := d2.cp
    look3 := d3.cp
    start_token_offset := 0
    start_token_line := 0
    start_token_column := 0 }

/-- The static `rotate` of the scanner. -/
def scanner_rotate (t : scanner_t) : scanner_t :=
  let d := next_utf8_cp (memOf t.str) t.p t.end_
  { t with look0 := t.look1, look1 := t.look2, look2 := t.look3, look3 := d.cp, p := d.p }

def scanner_start_token (t : scanner_t) : scanner_t :=
  { t with start_token_offset := t.idx_cp
           start_token_line := t.line
           start_token_column := t.col }

def scanner_consume (t : scanner_t) : scanner_t :=
  if t.look0 = EOF_CP then t
  else
    scanner_rotate
      (if t.look0 = NEWLINE then { t with idx_cp := t.idx_cp + 1, line := t.line + 1, col := 1 }
       else { t with idx_cp := t.idx_cp + 1, col := t.col + 1 })

def scanner_consume_tag_ident : Nat → scanner_t → Option scanner_t
  | 0, _ => none
  | fuel + 1, t =>
    if scanner_is_tag_ident t.look0 then scanner_consume_tag_ident fuel (scanner_consume t)
    else some t

/-- Replace the last element of the token array. On an empty array the C code would
write through `nil`; every call site pushes a token first. -/
def amend_last (f : Token → Token) : List Token → List Token
  | [] => []
  | [v] => [f v]
  | v :: w :: rest => v :: amend_last f (w :: rest)

def scanner_amend_last_token_kind (t : scanner_t) (newKind : Kind) : scanner_t :=
  { t with tokens := amend_last (fun v => { v with kind := newKind }) t.tokens }

def scanner_push_token_simple (t : scanner_t) (type : Kind) : scanner_t :=
  { t with tokens := t.tokens ++
      [{ kind := type
         start_line := t.start_token_line
         start_column := t.start_token_column
         start_offset := t.start_token_offset
         end_line := t.line
         end_column := t.col
         end_offset := t.idx_cp
         quote_char := none
         literal := none }] }

def scanner_consume_spaces : Nat → scanner_t → Option scanner_t
  | 0, _ => none
  | fuel + 1, t =>
    if scanner_is_space t.look0 then scanner_consume_spaces fuel (scanner_consume t)
    else some t

/-- The message `snprintf(errStr, 127, "<what> at line %lu, column %lu, offset %lu", ...)`
leaves in `errStr`: at most 126 characters. -/
def errStr (what : String) (t : scanner_t) : String :=
  String.mk ((what.toList ++ " at line ".toList ++ (toString t.line).toList
    ++ ", column ".toList ++ (toString t.col).toList
    ++ ", offset ".toList ++ (toString t.idx_cp).toList).take 126)

/-- The call `rb_ary_push(t->errors, ...)`. -/
def scanner_push_error (t : scanner_t) (what : String) : scanner_t :=
  { t with errors := t.errors ++ [errStr what t] }

/-- The `while` loop of `scanner_consume_executable`; `bracketLevel` is the C `int`
nesting counter (it moves by one per code point, so it stays in range on any text
shorter than `2 ^ 31` code points). -/
def scanner_consume_executable_loop : Nat → Int → scanner_t → Option scanner_t
  | 0, _, _ => none
  | fuel + 1, bracketLevel, t =>
    if t.look0 ≠ EOF_CP then
      if bracketLevel = 0 ∧ t.look0 = CURLY_RIGHT ∧ t.look1 = CURLY_RIGHT then
        some (scanner_consume (scanner_consume (scanner_push_token_simple t Kind.executable)))
      else
        let bracketLevel := if t.look0 = CURLY_LEFT then bracketLevel + 1 else bracketLevel
        let bracketLevel := if t.look0 = CURLY_RIGHT then bracketLevel - 1 else bracketLevel
        scanner_consume_executable_loop fuel bracketLevel (scanner_consume t)
    else
      some (scanner_push_error t "Unmatched \x7b\x7b block")

def scanner_consume_executable (fuel : Nat) (t : scanner_t) : Option scanner_t :=
  scanner_consume_executable_loop fuel 0
    (scanner_start_token (scanner_consume (scanner_consume t)))

/-- The function `scanner_set_string_quote_value`; `(char)quoteChar` is the low byte. -/
def scanner_set_string_quote_value (t : scanner_t) (quoteChar : Int) : scanner_t :=
  let value := quoteChar % 256
  { t with tokens := amend_last (fun v => { v with quote_char := some value }) t.tokens }

/-- The `while` loop of `scanner_consume_string` with the code after it. -/
def scanner_consume_string_loop (quoteChar : Int) : Nat → scanner_t → Option scanner_t
  | 0, _ => none
  | fuel + 1, t =>
    if t.look0 ≠ EOF then
      if t.look0 = INVERTED_SOLIDUS ∧ t.look1 = quoteChar then
        scanner_consume_string_loop quoteChar fuel (scanner_consume (scanner_consume t))
      else if t.look0 = quoteChar then
        some (scanner_consume
          (scanner_set_string_quote_value (scanner_push_token_simple t Kind.string) quoteChar))
      else if t.look0 = CURLY_LEFT ∧ t.look1 = CURLY_LEFT then
        (scanner_consume_executable fuel
          (scanner_set_string_quote_value
            (scanner_push_token_simple t Kind.string_interpolation) quoteChar)).bind
          fun t1 =>
            scanner_consume_string_loop quoteChar fuel
              (scanner_start_token
                (scanner_amend_last_token_kind t1 Kind.interpolated_executable))
      else scanner_consume_string_loop quoteChar fuel (scanner_consume t)
    else
      some (scanner_set_string_quote_value
        (scanner_push_token_simple (scanner_push_error t "Unterminated string value")
          Kind.string) quoteChar)

def scanner_consume_string (fuel : Nat) (t : scanner_t) : Option scanner_t :=
  scanner_consume_string_loop t.look0 fuel (scanner_start_token (scanner_consume t))

def scanner_is_attr_ident (p : Int) : Bool :=
  (p ≥ 65 && p ≤ 90) || (p ≥ 97 && p ≤ 122) || (p ≥ 48 && p ≤ 57)
    || p == 45 || p == 95 || p == 46 || p == 58

def scanner_consume_attr_name : Nat → scanner_t → Option scanner_t
  | 0, _ => none
  | fuel + 1, t =>
    if scanner_is_attr_ident t.look0 then scanner_consume_attr_name fuel (scanner_consume t)
    else some t

/-- The `while` loop of `scanner_consume_unquoted_attr_value`, returning `consumed` too. -/
def scanner_consume_unquoted_attr_value_loop : Nat → Bool → scanner_t → Option (Bool × scanner_t)
  | 0, _, _ => none
  | fuel + 1, consumed, t =>
    if t.look0 ≠ EOF ∧ ¬ scanner_is_space t.look0 ∧ t.look0 ≠ SOLIDUS
        ∧ t.look0 ≠ ANGLED_RIGHT then
      scanner_consume_unquoted_attr_value_loop fuel true (scanner_consume t)
    else some (consumed, t)

def scanner_consume_unquoted_attr_value (fuel : Nat) (t : scanner_t) : Option scanner_t :=
  (scanner_consume_unquoted_attr_value_loop fuel false t).map fun r =>
    if r.1 then scanner_push_token_simple r.2 Kind.attr_value_unquoted else r.2

def scanner_consume_attr (fuel : Nat) (t : scanner_t) : Option scanner_t :=
  (scanner_consume_attr_name fuel (scanner_start_token t)).bind fun t =>
  (scanner_consume_spaces fuel (scanner_push_token_simple t Kind.attr_key)).bind fun t =>
  if t.look0 = EQUAL then
    (scanner_consume_spaces fuel
      (scanner_push_token_simple (scanner_consume (scanner_start_token t)) Kind.equal)).bind
      fun t =>
        if t.look0 = APOSTROPHE ∨ t.look0 = QUOTE then scanner_consume_string fuel t
        else if t.look0 = CURLY_LEFT ∧ t.look1 = CURLY_LEFT then
          scanner_consume_executable fuel t
        else scanner_consume_unquoted_attr_value fuel (scanner_start_token t)
  else some t

/-- The `while` loop of `scanner_consume_comment_tag` with the code after it. -/
def scanner_consume_comment_tag : Nat → scanner_t → Option scanner_t
  | 0, _ => none
  | fuel + 1, t =>
    if t.look0 ≠ EOF then
      if t.look0 = MINUS_HYPHEN ∧ t.look1 = MINUS_HYPHEN ∧ t.look2 = ANGLED_RIGHT then
        some (scanner_push_token_simple
          (scanner_consume (scanner_consume (scanner_consume t))) Kind.tag_comment_end)
      else scanner_consume_comment_tag fuel (scanner_consume t)
    else
      some (scanner_push_token_simple (scanner_push_error t "Unterminated comment tag")
        Kind.tag_comment_end)

/-- The attribute loop of an opening tag in `scanner_scan_open_tag`:
`while (scanner_is_letter(look[0])) { scanner_consume_attr; scanner_consume_spaces; }`. -/
def scanner_scan_open_tag_attrs : Nat → scanner_t → Option scanner_t
  | 0, _ => none
  | fuel + 1, t =>
    if scanner_is_letter t.look0 then
      (scanner_consume_attr fuel t).bind fun t =>
      (scanner_consume_spaces fuel t).bind fun t =>
      scanner_scan_open_tag_attrs fuel t
    else some t

/-- The attribute loop of a closing tag in `scanner_scan_open_tag`:
`while (scanner_is_tag_ident(look[0])) { scanner_consume_attr; scanner_consume_spaces; }`. -/
def scanner_scan_closing_tag_attrs : Nat → scanner_t → Option scanner_t
  | 0, _ => none
  | fuel + 1, t =>
    if scanner_is_tag_ident t.look0 then
      (scanner_consume_attr fuel t).bind fun t =>
      (scanner_consume_spaces fuel t).bind fun t =>
      scanner_scan_closing_tag_attrs fuel t
    else some t

def scanner_scan_open_tag (fuel : Nat) (t : scanner_t) : Option scanner_t :=
  if t.look1 = 33 ∧ t.look2 = 45 ∧ t.look3 = 45 then
    scanner_consume_comment_tag fuel
      (scanner_push_token_simple
        (scanner_consume (scanner_consume (scanner_consume (scanner_consume
          (scanner_start_token t))))) Kind.tag_begin)
  else if scanner_is_letter t.look1 then
    (scanner_consume_tag_ident fuel (scanner_consume (scanner_start_token t))).bind fun t =>
    (scanner_consume_spaces fuel (scanner_push_token_simple t Kind.tag_begin)).bind fun t =>
    scanner_scan_open_tag_attrs fuel t
  else if t.look1 = 47 then
    (let t := scanner_consume (scanner_consume (scanner_start_token t))
     if scanner_is_tag_ident t.look0 then scanner_consume_tag_ident fuel t else some t).bind
      fun t =>
    (scanner_consume_spaces fuel (scanner_push_token_simple t Kind.tag_closing_start)).bind
      fun t =>
    (scanner_scan_closing_tag_attrs fuel t).bind fun t =>
    (scanner_consume_spaces fuel t).bind fun t =>
    if t.look0 = ANGLED_RIGHT then
      some (scanner_push_token_simple (scanner_consume (scanner_start_token t))
        Kind.tag_closing_end)
    else some t
  else some t

/-- The `while (next)` loop of `scanner_consume_literal`. -/
def scanner_consume_literal_loop : Nat → scanner_t → Option scanner_t
  | 0, _ => none
  | fuel + 1, t =>
    if t.look0 = ANGLED_LEFT then some t
    else if t.look0 = CURLY_LEFT then
      if t.look1 = CURLY_LEFT then some t
      else scanner_consume_literal_loop fuel (scanner_consume t)
    else if t.look0 = EOF then some t
    else scanner_consume_literal_loop fuel (scanner_consume t)

def scanner_consume_literal (fuel : Nat) (t : scanner_t) : Option scanner_t :=
  (scanner_consume_literal_loop fuel (scanner_start_token t)).map fun t =>
    scanner_push_token_simple t Kind.literal

def scanner_scan_token (fuel : Nat) (t : scanner_t) : Option scanner_t :=
  if t.look0 = ANGLED_LEFT then scanner_scan_open_tag fuel t
  else if t.look0 = ANGLED_RIGHT then
    some (scanner_push_token_simple (scanner_consume (scanner_start_token t))
      Kind.right_angled)
  else if t.look0 = SOLIDUS then
    if t.look1 = 62 then
      some (scanner_push_token_simple
        (scanner_consume (scanner_consume (scanner_start_token t))) Kind.tag_end)
    else scanner_consume_literal fuel t
  else if t.look0 = CURLY_LEFT then
    if t.look1 = CURLY_LEFT then scanner_consume_executable fuel t
    else scanner_consume_literal fuel t
  else if t.look0 = EOF then some t
  else scanner_consume_literal fuel t

def scanner_tokens (t : scanner_t) : List Token := t.tokens

def scanner_errors (t : scanner_t) : List String := t.errors

/-- The method `stats`: `(line, column, offset)`. -/
def scanner_stats (t : scanner_t) : Nat × Nat × Nat := (t.line, t.col, t.idx_cp)

def scanner_at_eof (t : scanner_t) : Bool := t.look0 == EOF

/-- Modelled from the spec: `rb_str_substr` of the host runtime, which slices the
retained text by character index ("slicing the original text between `start.offset`
and `end.offset`, character-indexed"). `chars` is the text as the list of its
characters. -/
def rb_str_substr (chars : List Nat) (beg len : Nat) : List Nat :=
  (chars.drop beg).take len

/-- The loop of `scanner_hydrate_tokens` over the token array; `chars` are the
characters of `t->str`. A token whose end lies before its start raises. -/
def scanner_hydrate_tokens (chars : List Nat) : List Token → Except String (List Token)
  | [] => .ok []
  | v :: rest =>
    if v.end_offset < v.start_offset then
      .error ("invalid offset boundaries " ++ toString v.start_offset ++ " -> "
        ++ toString v.end_offset)
    else
      match scanner_hydrate_tokens chars rest with
      | .error e => .error e
      | .ok rest1 =>
        let strLen := v.end_offset - v.start_offset
        .ok ({ v with literal := some (rb_str_substr chars v.start_offset strLen) } :: rest1)

/-- The loop `while (t->look[0] != EOF) scanner_scan_token(t);` of `scanner_tokenize`. -/
def scanner_tokenize_loop : Nat → scanner_t → Option scanner_t
  | 0, _ => none
  | fuel + 1, t =>
    if t.look0 ≠ EOF then (scanner_scan_token fuel t).bind (scanner_tokenize_loop fuel)
    else some t

/-- The method `tokenize`: `none` when the fuel runs out, `some (.error _)` when
materialization raises, otherwise the final state with its tokens materialized. -/
def scanner_tokenize (fuel : Nat) (chars : List Nat) (t : scanner_t) :
    Option (Except String scanner_t) :=
  (scanner_tokenize_loop fuel t).map fun t =>
    match scanner_hydrate_tokens chars t.tokens with
    | .error e => .error e
    | .ok toks => .ok { t with tokens := toks }

/-- UTF-8 encoding of a text given as the list of its code points. -/
def utf8Encode : List Nat → List Nat
  | [] => []
  | c :: cs => utf8 c ++ utf8Encode cs

/-- Scan a text given as the list of its code points: `Scanner.new(text).tokenize`. -/
def tokenize_text (fuel : Nat) (text : List Nat) : Option (Except String scanner_t) :=
  scanner_tokenize fuel text ( scanner_initialize (utf8Encode text))

/-- The stream over `[t]` after one `consume` and one `mark`. -/
def exhausted_marked {α : Type} (t : α) : stream_t α :=
  { tokens := [t], tokens_idx := 0, tokens_len := 1, look0 := none, look1 := none
    marks := (List.replicate 128 0).set 0 0, marks_idx := 1 }

/-! ## Canonical scanner states

The state the scanner is in after it has consumed the code points `pre` of the text
`pre ++ rest`, written out field by field. The theorems show that `scanner_initialize`
and `scanner_consume` produce exactly these states. -/

/-- The decoded head of the remaining text: its first code point, or `EOF_CP`. -/
def headCp : List Nat → Int
  | [] => EOF_CP
  | c :: _ => (c : Int)

/-- The `(line, col)` update `scanner_consume` makes for the code point `c`. -/
def posStep (pc : Nat × Nat) (c : Nat) : Nat × Nat :=
  if (c : Int) = NEWLINE then (pc.1 + 1, 1) else (pc.1, pc.2 + 1)

/-- The `(line, col)` reached from `(1, 1)` after the code points `pre`. -/
def posAfter (pre : List Nat) : Nat × Nat := pre.foldl posStep (1, 1)

/-- A text all of whose code points are Unicode scalar values. -/
def Scalars (l : List Nat) : Prop := ∀ c ∈ l, isScalar c

/-- The canonical state after consuming `pre` of the text `pre ++ rest`, with the
pending token start `(so, sl, sc)` and the token and error lists `toks`, `errs`. -/
def stateAt (pre rest : List Nat) (so sl sc : Nat) (toks : List Token)
    (errs : List String) : scanner_t :=
  { str := utf8Encode (pre ++ rest)
    tokens := toks
    errors := errs
    p := (utf8Encode (pre ++ rest.take 4)).length
    end_ := (utf8Encode (pre ++ rest)).length
    idx_cp := pre.length
    look0 := headCp rest
    look1 := headCp (rest.drop 1)
    look2 := headCp (rest.drop 2)
    look3 := headCp (rest.drop 3)
    line := (posAfter pre).1
    col := (posAfter pre).2
    start_token_offset := so
    start_token_line := sl
    start_token_column := sc }

/-- The token `scanner_push_token_simple` pushes in a canonical state. -/
def tokenAt (kind : Kind) (pre : List Nat) (so sl sc : Nat) : Token :=
  { kind := kind
    start_line := sl
    start_column := sc
    start_offset := so
    end_line := (posAfter pre).1
    end_column := (posAfter pre).2
    end_offset := pre.length
    quote_char := none
    literal := none }

/-- Code points of a string literal, for writing concrete texts. -/
def cps (s : String) : List Nat := s.toList.map Char.toNat

/-- The message `scanner_push_error` records in a canonical state. -/
def errAt (what : String) (pre : List Nat) : String :=
  String.mk ((what.toList ++ " at line ".toList ++ (toString (posAfter pre).1).toList
    ++ ", column ".toList ++ (toString (posAfter pre).2).toList
    ++ ", offset ".toList ++ (toString pre.length).toList).take 126)

/-- The common shape of the scanner's skipping loops: `while (P(look[0])) consume`. -/
def consume_while (P : Int → Bool) : Nat → scanner_t → Option scanner_t
  | 0, _ => none
  | fuel + 1, t => if P t.look0 then consume_while P fuel (scanner_consume t) else some t

/-- A string body the string scanner walks through one code point at a time: no code
point of `l` is the quote `q`, starts an escaped quote, or starts `{{`, given that `rest`
follows. -/
def PlainString (q : Int) (rest : List Nat) : List Nat → Prop
  | [] => True
  | c :: l =>
    (c : Int) ≠ q ∧ ¬ ((c : Int) = INVERTED_SOLIDUS ∧ headCp (l ++ rest) = q)
      ∧ ¬ ((c : Int) = CURLY_LEFT ∧ headCp (l ++ rest) = CURLY_LEFT)
      ∧ PlainString q rest l

/-- Nesting level of a run of code points: the number of `{` minus the number of `}`. -/
def netLevel (l : List Nat) : Int := (l.count 123 : Int) - (l.count 125 : Int)

instance (l : List Nat) : Decidable (Scalars l) := by unfold Scalars; infer_instance

/-- The block opened in front of `body` is never closed: wherever `}}` occurs in `body`,
the nesting level of what precedes it is not zero. -/
def NeverCloses (body : List Nat) : Prop :=
  ∀ a b, body = a ++ 125 :: 125 :: b → netLevel a ≠ 0

/-- A tag name: a letter followed by tag-identifier characters. -/
def isTagName : List Nat → Bool
  | [] => false
  | c :: l => scanner_is_letter (c : Int) && l.all fun x => scanner_is_tag_ident (x : Int)

/-- An attribute name: a letter followed by attribute-identifier characters. -/
def isAttrName : List Nat → Bool
  | [] => false
  | c :: l => scanner_is_letter (c : Int) && l.all fun x => scanner_is_attr_ident (x : Int)

/-- A token with its `literal` filled in by `scanner_hydrate_tokens`. -/
def hydrated (chars : List Nat) (v : Token) : Token :=
  let strLen := v.end_offset - v.start_offset
  { v with literal := some (rb_str_substr chars v.start_offset strLen) }

/-- A token with its `quote_char` set by `scanner_set_string_quote_value`. -/
def withQuote (v : Token) (q : Int) : Token := { v with quote_char := some q }

/-- The tokens scanned from `<name key=q s` (string left open), before materialization. -/
def unterminated_tokens (name key s : List Nat) (qc : Nat) : List Token :=
  [tokenAt Kind.tag_begin ([60] ++ name) 0 1 1,
   tokenAt Kind.attr_key ([60] ++ name ++ [32] ++ key)
     ([60] ++ name ++ [32]).length (posAfter ([60] ++ name ++ [32])).1
     (posAfter ([60] ++ name ++ [32])).2,
   tokenAt Kind.equal ([60] ++ name ++ [32] ++ key ++ [61])
     ([60] ++ name ++ [32] ++ key).length
     (posAfter ([60] ++ name ++ [32] ++ key)).1
     (posAfter ([60] ++ name ++ [32] ++ key)).2,
   withQuote (tokenAt Kind.string ([60] ++ name ++ [32] ++ key ++ [61] ++ [qc] ++ s)
     ([60] ++ name ++ [32] ++ key ++ [61] ++ [qc]).length
     (posAfter ([60] ++ name ++ [32] ++ key ++ [61] ++ [qc])).1
     (posAfter ([60] ++ name ++ [32] ++ key ++ [61] ++ [qc])).2) (qc : Int)]

/-- The text `<name key="value">text</name>` as a list of code points. -/
def element_text (name key value text : List Nat) : List Nat :=
  60 :: (name ++ 32 :: (key ++ 61 :: 34 :: (value ++ 34 :: 62 :: (text ++
    60 :: 47 :: (name ++ [62])))))

/-- The tokens scanned from `<name key="value">text</name>`, before materialization. -/
def element_tokens (name key value text : List Nat) : List Token :=
  let p1 := [60] ++ name
  let p2 := p1 ++ [32]
  let p3 := p2 ++ key
  let p4 := p3 ++ [61]
  let p5 := p4 ++ [34]
  let p6 := p5 ++ value
  let p7 := p6 ++ [34]
  let p8 := p7 ++ [62]
  let p9 := p8 ++ text
  let p10 := p9 ++ [60] ++ [47] ++ name
  let p11 := p10 ++ [62]
  [tokenAt Kind.tag_begin p1 0 1 1,
   tokenAt Kind.attr_key p3 p2.length (posAfter p2).1 (posAfter p2).2,
   tokenAt Kind.equal p4 p3.length (posAfter p3).1 (posAfter p3).2,
   withQuote (tokenAt Kind.string p6 p5.length (posAfter p5).1 (posAfter p5).2) 34,
   tokenAt Kind.right_angled p8 p7.length (posAfter p7).1 (posAfter p7).2,
   tokenAt Kind.literal p9 p8.length (posAfter p8).1 (posAfter p8).2,
   tokenAt Kind.tag_closing_start p10 p9.length (posAfter p9).1 (posAfter p9).2,
   tokenAt Kind.tag_closing_end p11 p10.length (posAfter p10).1 (posAfter p10).2]

/-- What the claims say of a token: its kind, its literal and its `quote_char`. -/
def Token.summary (v : Token) : Kind × Option (List Nat) × Option Int :=
  (v.kind, v.literal, v.quote_char)

/-- The code points of `<name key="value">text</name>` in front of the final `>`. -/
def element_head (name key value text : List Nat) : List Nat :=
  [60] ++ name ++ [32] ++ key ++ [61] ++ [34] ++ value ++ [34] ++ [62] ++ text ++ [60] ++ [47]
    ++ name

/-! ## Further token-stream runs -/

/-- A run of `n` consecutive calls of `mark`; the first failure is returned. -/
def stream_mark_n {α : Type} : Nat → stream_t α → Except String (stream_t α)
  | 0, s => .ok s
  | n + 1, s =>
    match stream_create_mark s with
    | .error e => .error e
    | .ok s' => stream_mark_n n s'

/-! ## Reading off a finished scan -/

/-- The token list of a scan that returned normally. -/
def tokens_of (r : Option (Except String scanner_t)) : Option (List Token) :=
  match r with
  | some (.ok t) => some t.tokens
  | _ => none

/-- The error list of a scan that returned normally. -/
def errors_of (r : Option (Except String scanner_t)) : Option (List String) :=
  match r with
  | some (.ok t) => some t.errors
  | _ => none

/-- Kind, offsets and `quote_char` of a token. -/
def Token.span (v : Token) : Kind × Nat × Nat × Option Int :=
  (v.kind, v.start_offset, v.end_offset, v.quote_char)

/-! ## The decoded stream of an arbitrary byte string

The scanner calls the decoder once per lookahead slot it fills: four times in
`scanner_initialize`, once in every effective `scanner_consume`. Call `i` starts where
call `i - 1` stopped, so the values the scanner sees are a function of the bytes alone. -/

/-- Byte index at which the `i`-th decoder call of a scan of `str` starts. -/
def pAt (str : List Nat) : Nat → Nat
  | 0 => 0
  | i + 1 => (next_utf8_cp (memOf str) (pAt str i) str.length).p

/-- The value the `i`-th decoder call of a scan of `str` returns: the code point at
offset `i`, or `EOF_CP`. -/
def cpAt (str : List Nat) (i : Nat) : Int :=
  (next_utf8_cp (memOf str) (pAt str i) str.length).cp

/-- The first `k` decoded values. -/
def decoded (str : List Nat) (k : Nat) : List Int := (List.range k).map (cpAt str)

/-- The `(line, col)` update `scanner_consume` makes for the decoded value `c`. -/
def posStepCp (pc : Nat × Nat) (c : Int) : Nat × Nat :=
  if c = NEWLINE then (pc.1 + 1, 1) else (pc.1, pc.2 + 1)

/-- The `(line, col)` reached from `(1, 1)` after the first `k` decoded values. -/
def posOf (str : List Nat) (k : Nat) : Nat × Nat := (decoded str k).foldl posStepCp (1, 1)

/-- The line of the position after the code points `l`, in the words of the
specification: one more than the number of newlines among them. -/
def line_of (l : List Int) : Nat := 1 + l.count NEWLINE

/-- The column of the position after the code points `l`, in the words of the
specification: one more than the number of code points after the last newline (or since
the start when there is none). -/
def column_of (l : List Int) : Nat := 1 + (l.reverse.takeWhile fun c => c != NEWLINE).length

/-- The scanner state `t` is the one reached on the bytes `str` after `t.idx_cp`
effective `scanner_consume` calls: cursor, lookahead and line/column counters are where
the decoded stream puts them, and no value consumed so far is `EOF_CP`. -/
structure Shape (str : List Nat) (t : scanner_t) : Prop where
  hstr : t.str = str
  hend : t.end_ = str.length
  hp : t.p = pAt str (t.idx_cp + 4)
  h0 : t.look0 = cpAt str t.idx_cp
  h1 : t.look1 = cpAt str (t.idx_cp + 1)
  h2 : t.look2 = cpAt str (t.idx_cp + 2)
  h3 : t.look3 = cpAt str (t.idx_cp + 3)
  hline : t.line = (posOf str t.idx_cp).1
  hcol : t.col = (posOf str t.idx_cp).2
  valid : ∀ i, i < t.idx_cp → cpAt str i ≠ EOF_CP

/-- Where the literal scanner stops: at `<`, at the end of input, or at `{{`. -/
def LitStop (str : List Nat) (i : Nat) : Prop :=
  cpAt str i = ANGLED_LEFT ∨ cpAt str i = EOF_CP
    ∨ (cpAt str i = CURLY_LEFT ∧ cpAt str (i + 1) = CURLY_LEFT)

/-- The offsets `[s, e)` hold a well-formed literal: non-empty, no `<` and no `{{` inside,
and something the literal scanner stops at right after. -/
def LitOK (str : List Nat) (s e : Nat) : Prop :=
  s < e
    ∧ (∀ i, s ≤ i → i < e →
        cpAt str i ≠ ANGLED_LEFT ∧ cpAt str i ≠ EOF_CP
          ∧ ¬ (cpAt str i = CURLY_LEFT ∧ cpAt str (i + 1) = CURLY_LEFT))
    ∧ LitStop str e

/-- What holds of every token in the token array during a scan of `str`. -/
structure TokOK (str : List Nat) (v : Token) : Prop where
  ordered : v.start_offset ≤ v.end_offset
  start_line : v.start_line = (posOf str v.start_offset).1
  start_column : v.start_column = (posOf str v.start_offset).2
  end_line : v.end_line = (posOf str v.end_offset).1
  end_column : v.end_column = (posOf str v.end_offset).2
  lit : v.kind = Kind.literal → LitOK str v.start_offset v.end_offset
  real : ∀ i, i < v.end_offset → cpAt str i ≠ EOF_CP

/-- The error message of an executable block that is never closed. -/
def Unmatched (e : String) : Prop := "Unmatched \x7b\x7b block".toList <+: e.toList

/-- Unless an unclosed block was reported, `quote_char` sits on `string` and
`string_interpolation` tokens only. -/
def QuoteOK (toks : List Token) (errs : List String) : Prop :=
  (∀ e ∈ errs, ¬ Unmatched e) →
    ∀ v ∈ toks, v.quote_char ≠ none →
      v.kind = Kind.string ∨ v.kind = Kind.string_interpolation

/-- The invariant of a scan of the bytes `str`. -/
structure Inv (str : List Nat) (t : scanner_t) : Prop where
  shape : Shape str t
  toks : ∀ v ∈ t.tokens, TokOK str v
  quote : QuoteOK t.tokens t.errors

/-- The pending token start is a position of the scan, not after the cursor. -/
structure Started (str : List Nat) (t : scanner_t) : Prop where
  le : t.start_token_offset ≤ t.idx_cp
  line : t.start_token_line = (posOf str t.start_token_offset).1
  column : t.start_token_column = (posOf str t.start_token_offset).2

/-- From `t` to `t1` the cursor did not move back and tokens were only added. -/
def Ext (t t1 : scanner_t) : Prop :=
  t.idx_cp ≤ t1.idx_cp ∧ ∃ X, t1.tokens = t.tokens ++ X

/-- From `t` to `t1` the pending token start, the tokens and the errors are the same. -/
structure Keeps (t t1 : scanner_t) : Prop where
  offset : t1.start_token_offset = t.start_token_offset
  line : t1.start_token_line = t.start_token_line
  column : t1.start_token_column = t.start_token_column
  tokens : t1.tokens = t.tokens
  errors : t1.errors = t.errors

/-- The token `scanner_push_token_simple` makes in the state `t`, with `quote_char` `q`. -/
def pushedToken (t : scanner_t) (kind : Kind) (q : Option Int) : Token :=
  { kind := kind
    start_line := t.start_token_line
    start_column := t.start_token_column
    start_offset := t.start_token_offset
    end_line := t.line
    end_column := t.col
    end_offset := t.idx_cp
    quote_char := q
    literal := none }

/-- What `scanner_consume_executable` leaves for the amend that follows it: a token just
pushed (without `quote_char`), or the report of an unclosed block. -/
def ExecPost (t : scanner_t) : Prop :=
  (∃ l v, t.tokens = l ++ [v] ∧ v.quote_char = none) ∨ ∃ e ∈ t.errors, Unmatched e

/-- The recorded position `(line, column, offset)` is consistent with the decoded input:
the first `offset` decoded values are code points (none is the end-of-input sentinel),
`line` is one more than the number of newlines among them, and `column` is one more than
the number of code points after the last of these newlines. -/
def PositionAt (str : List Nat) (line column offset : Nat) : Prop :=
  (∀ i, i < offset → cpAt str i ≠ EOF_CP)
    ∧ line = line_of (decoded str offset) ∧ column = column_of (decoded str offset)

/-- A body whose braces are balanced: every prefix has at least as many `{` as `}`, and
the totals are equal. -/
def Balanced (body : List Nat) : Prop :=
  (∀ n, n ≤ body.length → (body.take n).count 125 ≤ (body.take n).count 123)
    ∧ body.count 123 = body.count 125

instance (body : List Nat) : Decidable (Balanced body) := by unfold Balanced; infer_instance

/-- The two tokens scanned from a comment that starts the text, before materialization:
`tag_begin` over `<!--`, offsets `[0, 4)`, and `tag_comment_end` from the position of the
`<` to the end of `pre`, the text consumed when the comment scan stops. -/
def comment_tokens (pre : List Nat) : List Token :=
  [{ kind := Kind.tag_begin
     start_line := 1
     start_column := 1
     start_offset := 0
     end_line := 1
     end_column := 5
     end_offset := 4
     quote_char := none
     literal := none },
   { kind := Kind.tag_comment_end
     start_line := 1
     start_column := 1
     start_offset := 0
     end_line := (posAfter pre).1
     end_column := (posAfter pre).2
     end_offset := pre.length
     quote_char := none
     literal := none }]

/-! ## Reachable token-stream states -/

/-- The states of a stream over `L` reachable from construction by the public methods:
`consume`/`discard` (both run `stream_consume_c`), and `mark`, `restore`, `pop` when they
return; `peek` and the other readers do not change the state. -/
inductive Reachable {α : Type} (L : List α) : stream_t α → Prop
  | init : Reachable L ( stream_initialize L)
  | consume (s : stream_t α) : Reachable L s → Reachable L (stream_consume_c s)
  | mark (s s1 : stream_t α) : Reachable L s → stream_create_mark s = .ok s1 → Reachable L s1
  | restore (s s1 : stream_t α) : Reachable L s → stream_mark_restore s = .ok s1 → Reachable L s1
  | pop (s s1 : stream_t α) : Reachable L s → stream_mark_pop s = .ok s1 → Reachable L s1

/-- What holds in every reachable state of a stream over `L`: the cursor is at most
`|L| - 1` (so `0` on the empty list), so is every saved mark, and the lookahead either
mirrors the tokens at the cursor or is empty with the cursor on the last token. -/
structure StreamInv {α : Type} (L : List α) (s : stream_t α) : Prop where
  tokens : s.tokens = L
  len : s.tokens_len = L.length
  idx : s.tokens_idx ≤ L.length - 1
  marks_len : s.marks.length = 128
  depth : s.marks_idx ≤ 127
  saved : ∀ i, i < s.marks_idx → s.marks.getD i 0 ≤ L.length - 1
  look : (s.look0 = L.get? s.tokens_idx ∧ s.look1 = L.get? (s.tokens_idx + 1))
    ∨ (s.look0 = none ∧ s.look1 = none ∧ L.length ≤ s.tokens_idx + 1)

/-- The call sequence `mark(); a × consume; mark(); b × consume; pop(); restore()`; the
first failure is returned. -/
def stream_nested_marks {α : Type} (a b : Nat) (s : stream_t α) : Except String (stream_t α) :=
  match stream_create_mark s with
  | .error e => .error e
  | .ok s1 =>
    match stream_create_mark (stream_advance a s1) with
    | .error e => .error e
    | .ok s2 =>
      match stream_mark_pop (stream_advance b s2) with
      | .error e => .error e
      | .ok s3 => stream_mark_restore s3

/-! ## The error list of a scan -/

/-- The error list of `t` holds exactly the messages for `whats`, in order, each with the
line, column and offset `t` is at now; and if there is any, `look[0]` is the end-of-input
sentinel. -/
def ErrorsAre (t : scanner_t) (whats : List String) : Prop :=
  t.errors = whats.map (fun w => errStr w t) ∧ (whats ≠ [] → t.look0 = EOF_CP)

/-- The runs of errors a scan can record. -/
def error_runs : List (List String) :=
  [[], ["Unmatched \x7b\x7b block"], ["Unterminated string value"],
   ["Unterminated comment tag"], ["Unmatched \x7b\x7b block", "Unterminated string value"]]

/-- The error list of `t` is one of the runs of `error_runs`. -/
def ErrShape (t : scanner_t) : Prop := ∃ ws, ws ∈ error_runs ∧ ErrorsAre t ws

/-! ## Theorems -/

/-! ### The token stream -/

theorem stream_advance_single {α : Type} (n : Nat) :
    ∀ s : stream_t α, s.tokens_len = 1 → s.tokens_idx = 0 →
      (stream_advance n s).tokens = s.tokens ∧ (stream_advance n s).tokens_len = 1
        ∧ (stream_advance n s).tokens_idx = 0 ∧ (stream_advance n s).marks = s.marks
        ∧ (stream_advance n s).marks_idx = s.marks_idx := by
  induction n with
  | zero => intro s h1 h2; exact ⟨rfl, h1, h2, rfl, rfl⟩
  | succ n ih =>
    intro s h1 h2
    have h := ih (stream_consume_c s)
      (by simp [stream_consume_c, stream_rotate, h1, h2])
      (by simp [stream_consume_c, stream_rotate, h1, h2])
    simp only [stream_advance]
    refine ⟨h.1.trans ?_, h.2.1, h.2.2.1, h.2.2.2.1.trans ?_, h.2.2.2.2.trans ?_⟩ <;>
      simp [stream_consume_c, stream_rotate, h1, h2]

/-- Claim C1 (failing input). On the one-token list `[t]`, one `consume` exhausts the
stream; `mark()` then succeeds and `peek()` and `peek_next()` return no value. After any
number `n` of further `consume`/`discard` calls, `restore()` succeeds and `peek()` returns
`t`: the token consumed before the mark is back, so the lookahead is not what it was
right after `mark()`. -/
theorem stream_restore_after_exhaustion (α : Type) (t : α) (n : Nat) :
    stream_create_mark (stream_consume ( stream_initialize [t])).2 = .ok (exhausted_marked t)
      ∧ stream_peek (exhausted_marked t) = none
      ∧ stream_peek1 (exhausted_marked t) = none
      ∧ (stream_mark_restore (stream_advance n (exhausted_marked t))).map stream_peek
          = .ok (some t) := by
  refine ⟨rfl, rfl, rfl, ?_⟩
  obtain ⟨h1, h2, h3, h4, h5⟩ := stream_advance_single n (exhausted_marked t) rfl rfl
  simp only [stream_mark_restore, h1, h2, h3, h4, h5]
  rfl

/-! ### Bit-level facts about bytes -/

set_option maxRecDepth 100000 in
theorem land_E0_aux : ∀ b, b < 256 → ((b &&& 0xE0 = 0xC0) ↔ (192 ≤ b ∧ b < 224)) := by decide

set_option maxRecDepth 100000 in
theorem land_F0_aux : ∀ b, b < 256 → ((b &&& 0xF0 = 0xE0) ↔ (224 ≤ b ∧ b < 240)) := by decide

set_option maxRecDepth 100000 in
theorem land_F8_aux : ∀ b, b < 256 → ((b &&& 0xF8 = 0xF0) ↔ (240 ≤ b ∧ b < 248)) := by decide

set_option maxRecDepth 100000 in
theorem land_C0_aux : ∀ b, b < 256 → ((b &&& 0xC0 = 0x80) ↔ (128 ≤ b ∧ b < 192)) := by decide

theorem land_E0 (x : Nat) : ((x % 256) &&& 0xE0 = 0xC0) ↔ (192 ≤ x % 256 ∧ x % 256 < 224) :=
  land_E0_aux _ (Nat.mod_lt _ (by decide))

theorem land_F0 (x : Nat) : ((x % 256) &&& 0xF0 = 0xE0) ↔ (224 ≤ x % 256 ∧ x % 256 < 240) :=
  land_F0_aux _ (Nat.mod_lt _ (by decide))

theorem land_F8 (x : Nat) : ((x % 256) &&& 0xF8 = 0xF0) ↔ (240 ≤ x % 256 ∧ x % 256 < 248) :=
  land_F8_aux _ (Nat.mod_lt _ (by decide))

theorem land_C0 (x : Nat) : ((x % 256) &&& 0xC0 = 0x80) ↔ (128 ≤ x % 256 ∧ x % 256 < 192) :=
  land_C0_aux _ (Nat.mod_lt _ (by decide))

theorem land_1F (b : Nat) : b &&& 0x1F = b % 32 := Nat.and_pow_two_sub_one_eq_mod b 5

theorem land_3F (b : Nat) : b &&& 0x3F = b % 64 := Nat.and_pow_two_sub_one_eq_mod b 6

theorem land_0F (b : Nat) : b &&& 0x0F = b % 16 := Nat.and_pow_two_sub_one_eq_mod b 4

theorem land_07 (b : Nat) : b &&& 0x07 = b % 8 := Nat.and_pow_two_sub_one_eq_mod b 3

theorem cp2_eq (b0 b1 : Nat) :
    ((b0 &&& 0x1F) <<< 6) ||| (b1 &&& 0x3F) = b0 % 32 * 64 + b1 % 64 := by
  rw [land_1F, land_3F, Nat.shiftLeft_eq]
  have h : b1 % 64 < 2 ^ 6 := by omega
  have := Nat.mul_add_lt_is_or h (b0 % 32)
  rw [show b0 % 32 * 2 ^ 6 = 2 ^ 6 * (b0 % 32) by ring, ← this]
  ring

theorem cp3_eq (b0 b1 b2 : Nat) :
    ((b0 &&& 0x0F) <<< 12) ||| ((b1 &&& 0x3F) <<< 6) ||| (b2 &&& 0x3F)
      = b0 % 16 * 4096 + b1 % 64 * 64 + b2 % 64 := by
  rw [land_0F, land_3F, land_3F, Nat.shiftLeft_eq, Nat.shiftLeft_eq]
  have h2 : b2 % 64 < 2 ^ 6 := by omega
  have h1 : b1 % 64 * 2 ^ 6 < 2 ^ 12 := by omega
  have e1 := Nat.mul_add_lt_is_or h1 (b0 % 16)
  have e2 := Nat.mul_add_lt_is_or h2 (b0 % 16 * 64 + b1 % 64)
  rw [show b0 % 16 * 2 ^ 12 = 2 ^ 12 * (b0 % 16) by ring, ← e1]
  rw [show 2 ^ 12 * (b0 % 16) + b1 % 64 * 2 ^ 6 = 2 ^ 6 * (b0 % 16 * 64 + b1 % 64) by ring, ← e2]
  ring

theorem cp4_eq (b0 b1 b2 b3 : Nat) :
    ((b0 &&& 0x07) <<< 18) ||| ((b1 &&& 0x3F) <<< 12) ||| ((b2 &&& 0x3F) <<< 6) ||| (b3 &&& 0x3F)
      = b0 % 8 * 262144 + b1 % 64 * 4096 + b2 % 64 * 64 + b3 % 64 := by
  rw [land_07, land_3F, land_3F, land_3F, Nat.shiftLeft_eq, Nat.shiftLeft_eq, Nat.shiftLeft_eq]
  have h3 : b3 % 64 < 2 ^ 6 := by omega
  have h2 : b2 % 64 * 2 ^ 6 < 2 ^ 12 := by omega
  have h1 : b1 % 64 * 2 ^ 12 < 2 ^ 18 := by omega
  have e1 := Nat.mul_add_lt_is_or h1 (b0 % 8)
  have e2 := Nat.mul_add_lt_is_or h2 (b0 % 8 * 64 + b1 % 64)
  have e3 := Nat.mul_add_lt_is_or h3 (b0 % 8 * 4096 + b1 % 64 * 64 + b2 % 64)
  rw [show b0 % 8 * 2 ^ 18 = 2 ^ 18 * (b0 % 8) by ring, ← e1]
  rw [show 2 ^ 18 * (b0 % 8) + b1 % 64 * 2 ^ 12 = 2 ^ 12 * (b0 % 8 * 64 + b1 % 64) by ring, ← e2]
  rw [show 2 ^ 12 * (b0 % 8 * 64 + b1 % 64) + b2 % 64 * 2 ^ 6
        = 2 ^ 6 * (b0 % 8 * 4096 + b1 % 64 * 64 + b2 % 64) by ring, ← e3]
  ring

/-- The decoder with its masks and shifts rewritten as comparisons, `%` and `*`. -/
theorem next_utf8_cp_arith (mem : Nat → Nat) (p e : Nat) :
    next_utf8_cp mem p e =
      if e ≤ p then ⟨EOF_CP, p, []⟩
      else if mem p % 256 < 128 then ⟨(mem p % 256 : Nat), p + 1, [p]⟩
      else if 192 ≤ mem p % 256 ∧ mem p % 256 < 224 then
        if e ≤ p + 1 then ⟨EOF_CP, p + 1, [p]⟩
        else if ¬ (128 ≤ mem (p + 1) % 256 ∧ mem (p + 1) % 256 < 192) then
          ⟨0xFFFD, p + 2, [p, p + 1]⟩
        else
          ⟨if mem p % 256 % 32 * 64 + mem (p + 1) % 256 % 64 < 128 then 0xFFFD
            else (mem p % 256 % 32 * 64 + mem (p + 1) % 256 % 64 : Nat), p + 2, [p, p + 1]⟩
      else if 224 ≤ mem p % 256 ∧ mem p % 256 < 240 then
        if e ≤ p + 2 then ⟨EOF_CP, p + 1, [p]⟩
        else if ¬ (128 ≤ mem (p + 1) % 256 ∧ mem (p + 1) % 256 < 192)
              ∨ ¬ (128 ≤ mem (p + 2) % 256 ∧ mem (p + 2) % 256 < 192) then
          ⟨0xFFFD, p + 3, [p, p + 1, p + 2]⟩
        else if 0xD800 ≤ mem p % 256 % 16 * 4096 + mem (p + 1) % 256 % 64 * 64
                    + mem (p + 2) % 256 % 64
              ∧ mem p % 256 % 16 * 4096 + mem (p + 1) % 256 % 64 * 64
                    + mem (p + 2) % 256 % 64 ≤ 0xDFFF then
          ⟨0xFFFD, p + 3, [p, p + 1, p + 2]⟩
        else
          ⟨if mem p % 256 % 16 * 4096 + mem (p + 1) % 256 % 64 * 64
                + mem (p + 2) % 256 % 64 < 0x800 then 0xFFFD
            else (mem p % 256 % 16 * 4096 + mem (p + 1) % 256 % 64 * 64
                + mem (p + 2) % 256 % 64 : Nat), p + 3, [p, p + 1, p + 2]⟩
      else if 240 ≤ mem p % 256 ∧ mem p % 256 < 248 then
        if e ≤ p + 3 then ⟨EOF_CP, p + 1, [p]⟩
        else if ¬ (128 ≤ mem (p + 1) % 256 ∧ mem (p + 1) % 256 < 192)
              ∨ ¬ (128 ≤ mem (p + 2) % 256 ∧ mem (p + 2) % 256 < 192)
              ∨ ¬ (128 ≤ mem (p + 3) % 256 ∧ mem (p + 3) % 256 < 192) then
          ⟨0xFFFD, p + 4, [p, p + 1, p + 2, p + 3]⟩
        else if 0x10FFFF < mem p % 256 % 8 * 262144 + mem (p + 1) % 256 % 64 * 4096
                      + mem (p + 2) % 256 % 64 * 64 + mem (p + 3) % 256 % 64 then
          ⟨0xFFFD, p + 4, [p, p + 1, p + 2, p + 3]⟩
        else
          ⟨if mem p % 256 % 8 * 262144 + mem (p + 1) % 256 % 64 * 4096
                + mem (p + 2) % 256 % 64 * 64 + mem (p + 3) % 256 % 64 < 0x10000 then 0xFFFD
            else (mem p % 256 % 8 * 262144 + mem (p + 1) % 256 % 64 * 4096
                + mem (p + 2) % 256 % 64 * 64 + mem (p + 3) % 256 % 64 : Nat),
            p + 4, [p, p + 1, p + 2, p + 3]⟩
      else ⟨0xFFFD, p + 1, [p]⟩ := by
  simp only [next_utf8_cp, land_E0, land_F0, land_F8, land_C0, cp2_eq, cp3_eq, cp4_eq,
    ge_iff_le, gt_iff_lt, ne_eq, Nat.add_assoc, Nat.reduceAdd]


/-! ### The decoder: cursor bounds, round trip, rejected sequences -/

theorem memOf_append_mid (pre l r : List Nat) (k : Nat) (hk : k < l.length) :
    memOf (pre ++ l ++ r) (pre.length + k) = l.getD k 0 := by
  unfold memOf
  rw [List.append_assoc, List.getD_append_right _ _ _ _ (by omega)]
  simp [List.getElem?_append_left hk]

theorem utf8_length (c : Nat) : 1 ≤ (utf8 c).length ∧ (utf8 c).length ≤ 4 := by
  unfold utf8; split_ifs <;> simp

theorem next_utf8_cp_end (mem : Nat → Nat) (p e : Nat) (h : e ≤ p) :
    next_utf8_cp mem p e = ⟨EOF_CP, p, []⟩ := by
  simp only [next_utf8_cp, ge_iff_le, h, if_true]

/-- Case analysis on the path the decoder takes. `b k` abbreviates the byte at `p + k`. -/
theorem next_utf8_cp_cases (mem : Nat → Nat) (p e : Nat) (P : Decoded → Prop)
    (h_end : e ≤ p → P ⟨EOF_CP, p, []⟩)
    (h_ascii : p < e → mem p % 256 < 128 → P ⟨(mem p % 256 : Nat), p + 1, [p]⟩)
    (h_lead : p < e → (128 ≤ mem p % 256 ∧ mem p % 256 < 192) ∨ 248 ≤ mem p % 256 →
      P ⟨0xFFFD, p + 1, [p]⟩)
    (h2_cut : p < e → 192 ≤ mem p % 256 → mem p % 256 < 224 → e ≤ p + 1 →
      P ⟨EOF_CP, p + 1, [p]⟩)
    (h2_bad : p + 1 < e → 192 ≤ mem p % 256 → mem p % 256 < 224 →
      ¬ (128 ≤ mem (p + 1) % 256 ∧ mem (p + 1) % 256 < 192) →
      P ⟨0xFFFD, p + 2, [p, p + 1]⟩)
    (h2_ok : p + 1 < e → 192 ≤ mem p % 256 → mem p % 256 < 224 →
      128 ≤ mem (p + 1) % 256 → mem (p + 1) % 256 < 192 →
      P ⟨if mem p % 256 % 32 * 64 + mem (p + 1) % 256 % 64 < 128 then 0xFFFD
          else (mem p % 256 % 32 * 64 + mem (p + 1) % 256 % 64 : Nat), p + 2, [p, p + 1]⟩)
    (h3_cut : p < e → 224 ≤ mem p % 256 → mem p % 256 < 240 → e ≤ p + 2 →
      P ⟨EOF_CP, p + 1, [p]⟩)
    (h3_bad : p + 2 < e → 224 ≤ mem p % 256 → mem p % 256 < 240 →
      (¬ (128 ≤ mem (p + 1) % 256 ∧ mem (p + 1) % 256 < 192)
        ∨ ¬ (128 ≤ mem (p + 2) % 256 ∧ mem (p + 2) % 256 < 192)) →
      P ⟨0xFFFD, p + 3, [p, p + 1, p + 2]⟩)
    (h3_sur : p + 2 < e → 224 ≤ mem p % 256 → mem p % 256 < 240 →
      128 ≤ mem (p + 1) % 256 → mem (p + 1) % 256 < 192 →
      128 ≤ mem (p + 2) % 256 → mem (p + 2) % 256 < 192 →
      0xD800 ≤ mem p % 256 % 16 * 4096 + mem (p + 1) % 256 % 64 * 64 + mem (p + 2) % 256 % 64 →
      mem p % 256 % 16 * 4096 + mem (p + 1) % 256 % 64 * 64 + mem (p + 2) % 256 % 64 ≤ 0xDFFF →
      P ⟨0xFFFD, p + 3, [p, p + 1, p + 2]⟩)
    (h3_ok : p + 2 < e → 224 ≤ mem p % 256 → mem p % 256 < 240 →
      128 ≤ mem (p + 1) % 256 → mem (p + 1) % 256 < 192 →
      128 ≤ mem (p + 2) % 256 → mem (p + 2) % 256 < 192 →
      ¬ (0xD800 ≤ mem p % 256 % 16 * 4096 + mem (p + 1) % 256 % 64 * 64 + mem (p + 2) % 256 % 64
        ∧ mem p % 256 % 16 * 4096 + mem (p + 1) % 256 % 64 * 64 + mem (p + 2) % 256 % 64
            ≤ 0xDFFF) →
      P ⟨if mem p % 256 % 16 * 4096 + mem (p + 1) % 256 % 64 * 64
              + mem (p + 2) % 256 % 64 < 0x800 then 0xFFFD
          else (mem p % 256 % 16 * 4096 + mem (p + 1) % 256 % 64 * 64
              + mem (p + 2) % 256 % 64 : Nat), p + 3, [p, p + 1, p + 2]⟩)
    (h4_cut : p < e → 240 ≤ mem p % 256 → mem p % 256 < 248 → e ≤ p + 3 →
      P ⟨EOF_CP, p + 1, [p]⟩)
    (h4_bad : p + 3 < e → 240 ≤ mem p % 256 → mem p % 256 < 248 →
      (¬ (128 ≤ mem (p + 1) % 256 ∧ mem (p + 1) % 256 < 192)
        ∨ ¬ (128 ≤ mem (p + 2) % 256 ∧ mem (p + 2) % 256 < 192)
        ∨ ¬ (128 ≤ mem (p + 3) % 256 ∧ mem (p + 3) % 256 < 192)) →
      P ⟨0xFFFD, p + 4, [p, p + 1, p + 2, p + 3]⟩)
    (h4_big : p + 3 < e → 240 ≤ mem p % 256 → mem p % 256 < 248 →
      128 ≤ mem (p + 1) % 256 → mem (p + 1) % 256 < 192 →
      128 ≤ mem (p + 2) % 256 → mem (p + 2) % 256 < 192 →
      128 ≤ mem (p + 3) % 256 → mem (p + 3) % 256 < 192 →
      0x10FFFF < mem p % 256 % 8 * 262144 + mem (p + 1) % 256 % 64 * 4096
                  + mem (p + 2) % 256 % 64 * 64 + mem (p + 3) % 256 % 64 →
      P ⟨0xFFFD, p + 4, [p, p + 1, p + 2, p + 3]⟩)
    (h4_ok : p + 3 < e → 240 ≤ mem p % 256 → mem p % 256 < 248 →
      128 ≤ mem (p + 1) % 256 → mem (p + 1) % 256 < 192 →
      128 ≤ mem (p + 2) % 256 → mem (p + 2) % 256 < 192 →
      128 ≤ mem (p + 3) % 256 → mem (p + 3) % 256 < 192 →
      mem p % 256 % 8 * 262144 + mem (p + 1) % 256 % 64 * 4096
          + mem (p + 2) % 256 % 64 * 64 + mem (p + 3) % 256 % 64 ≤ 0x10FFFF →
      P ⟨if mem p % 256 % 8 * 262144 + mem (p + 1) % 256 % 64 * 4096
              + mem (p + 2) % 256 % 64 * 64 + mem (p + 3) % 256 % 64 < 0x10000 then 0xFFFD
          else (mem p % 256 % 8 * 262144 + mem (p + 1) % 256 % 64 * 4096
              + mem (p + 2) % 256 % 64 * 64 + mem (p + 3) % 256 % 64 : Nat),
          p + 4, [p, p + 1, p + 2, p + 3]⟩) :
    P (next_utf8_cp mem p e) := by
  rw [next_utf8_cp_arith]
  by_cases c0 : e ≤ p
  · rw [if_pos c0]; exact h_end c0
  rw [if_neg c0]
  by_cases c1 : mem p % 256 < 128
  · rw [if_pos c1]; exact h_ascii (by omega) c1
  rw [if_neg c1]
  by_cases c2 : 192 ≤ mem p % 256 ∧ mem p % 256 < 224
  · rw [if_pos c2]
    by_cases d0 : e ≤ p + 1
    · rw [if_pos d0]; exact h2_cut (by omega) c2.1 c2.2 d0
    rw [if_neg d0]
    by_cases d1 : ¬ (128 ≤ mem (p + 1) % 256 ∧ mem (p + 1) % 256 < 192)
    · rw [if_pos d1]; exact h2_bad (by omega) c2.1 c2.2 d1
    rw [if_neg d1]
    exact h2_ok (by omega) c2.1 c2.2 (by omega) (by omega)
  rw [if_neg c2]
  by_cases c3 : 224 ≤ mem p % 256 ∧ mem p % 256 < 240
  · rw [if_pos c3]
    by_cases d0 : e ≤ p + 2
    · rw [if_pos d0]; exact h3_cut (by omega) c3.1 c3.2 d0
    rw [if_neg d0]
    by_cases d1 : ¬ (128 ≤ mem (p + 1) % 256 ∧ mem (p + 1) % 256 < 192)
              ∨ ¬ (128 ≤ mem (p + 2) % 256 ∧ mem (p + 2) % 256 < 192)
    · rw [if_pos d1]; exact h3_bad (by omega) c3.1 c3.2 d1
    rw [if_neg d1]
    by_cases d2 : 0xD800 ≤ mem p % 256 % 16 * 4096 + mem (p + 1) % 256 % 64 * 64
                    + mem (p + 2) % 256 % 64
              ∧ mem p % 256 % 16 * 4096 + mem (p + 1) % 256 % 64 * 64
                    + mem (p + 2) % 256 % 64 ≤ 0xDFFF
    · rw [if_pos d2]
      exact h3_sur (by omega) c3.1 c3.2 (by omega) (by omega) (by omega) (by omega) d2.1 d2.2
    · rw [if_neg d2]
      exact h3_ok (by omega) c3.1 c3.2 (by omega) (by omega) (by omega) (by omega) d2
  rw [if_neg c3]
  by_cases c4 : 240 ≤ mem p % 256 ∧ mem p % 256 < 248
  · rw [if_pos c4]
    by_cases d0 : e ≤ p + 3
    · rw [if_pos d0]; exact h4_cut (by omega) c4.1 c4.2 d0
    rw [if_neg d0]
    by_cases d1 : ¬ (128 ≤ mem (p + 1) % 256 ∧ mem (p + 1) % 256 < 192)
              ∨ ¬ (128 ≤ mem (p + 2) % 256 ∧ mem (p + 2) % 256 < 192)
              ∨ ¬ (128 ≤ mem (p + 3) % 256 ∧ mem (p + 3) % 256 < 192)
    · rw [if_pos d1]; exact h4_bad (by omega) c4.1 c4.2 d1
    rw [if_neg d1]
    by_cases d2 : 0x10FFFF < mem p % 256 % 8 * 262144 + mem (p + 1) % 256 % 64 * 4096
                      + mem (p + 2) % 256 % 64 * 64 + mem (p + 3) % 256 % 64
    · rw [if_pos d2]
      exact h4_big (by omega) c4.1 c4.2 (by omega) (by omega) (by omega) (by omega)
        (by omega) (by omega) d2
    · rw [if_neg d2]
      exact h4_ok (by omega) c4.1 c4.2 (by omega) (by omega) (by omega) (by omega)
        (by omega) (by omega) (by omega)
  rw [if_neg c4]
  exact h_lead (by omega) (by omega)


/-- The decoder's outcome depends only on the bytes stored below `e`. -/
theorem next_utf8_cp_congr (mem mem' : Nat → Nat) (p e : Nat)
    (hm : ∀ i, i < e → mem' i = mem i) :
    next_utf8_cp mem' p e = next_utf8_cp mem p e := by
  rw [next_utf8_cp_arith, next_utf8_cp_arith]
  by_cases c0 : e ≤ p
  · rw [if_pos c0, if_pos c0]
  rw [if_neg c0, if_neg c0, hm p (by omega)]
  by_cases c1 : e ≤ p + 1
  · have c2 : e ≤ p + 2 := by omega
    have c3 : e ≤ p + 3 := by omega
    simp only [c1, c2, c3, if_true]
  rw [hm (p + 1) (by omega)]
  by_cases c2 : e ≤ p + 2
  · have c3 : e ≤ p + 3 := by omega
    simp only [c2, c3, if_true]
  rw [hm (p + 2) (by omega)]
  by_cases c3 : e ≤ p + 3
  · simp only [c3, if_true]
  rw [hm (p + 3) (by omega)]

/-- Claim C6. For every byte memory and every cursor `p ≤ e`, one call of `next_utf8_cp`
leaves the cursor at a position `p'` with `p ≤ p' ≤ e`, dereferences only indices
strictly below `e`, and its outcome is the same for any other memory holding the same
bytes below `e`. -/
theorem next_utf8_cp_stays_in_bounds (mem : Nat → Nat) (p e : Nat) (h : p ≤ e) :
    p ≤ (next_utf8_cp mem p e).p ∧ (next_utf8_cp mem p e).p ≤ e
      ∧ (∀ i ∈ (next_utf8_cp mem p e).reads, i < e)
      ∧ ∀ mem' : Nat → Nat, (∀ i, i < e → mem' i = mem i) →
          next_utf8_cp mem' p e = next_utf8_cp mem p e := by
  refine ⟨?_, ?_, ?_, fun mem' hm => next_utf8_cp_congr mem mem' p e hm⟩
  · apply next_utf8_cp_cases mem p e (fun d => p ≤ d.p) <;> intros <;> dsimp only <;> omega
  · apply next_utf8_cp_cases mem p e (fun d => d.p ≤ e) <;> intros <;> dsimp only <;> omega
  · apply next_utf8_cp_cases mem p e (fun d => ∀ i ∈ d.reads, i < e) <;>
      simp only [List.mem_cons, List.mem_singleton, List.not_mem_nil, forall_eq_or_imp,
        forall_eq, false_implies, implies_true, and_true, or_false] <;> intros <;> omega

/-- Witness for C6: the truncated three-byte lead `E2 82` at the end of a buffer; the
call returns `EOF_CP` with the cursor at 1, having read index 0 only. -/
theorem next_utf8_cp_stays_in_bounds_witness :
    (0 : Nat) ≤ 2
      ∧ 0 ≤ (next_utf8_cp (memOf [0xE2, 0x82]) 0 2).p
      ∧ (next_utf8_cp (memOf [0xE2, 0x82]) 0 2).p ≤ 2
      ∧ ∀ i ∈ (next_utf8_cp (memOf [0xE2, 0x82]) 0 2).reads, i < 2 :=
  ⟨by decide, (next_utf8_cp_stays_in_bounds (memOf [0xE2, 0x82]) 0 2 (by decide)).1,
    (next_utf8_cp_stays_in_bounds (memOf [0xE2, 0x82]) 0 2 (by decide)).2.1,
    (next_utf8_cp_stays_in_bounds (memOf [0xE2, 0x82]) 0 2 (by decide)).2.2.1⟩

/-- Decoding at a position where the bytes of `utf8 c` are stored, all below `e`. -/
theorem next_utf8_cp_of_bytesAt (mem : Nat → Nat) (p e c : Nat) (hc : isScalar c)
    (hb : bytesAt mem p (utf8 c).length = utf8 c) (he : p + (utf8 c).length ≤ e) :
    (next_utf8_cp mem p e).cp = c ∧ (next_utf8_cp mem p e).p = p + (utf8 c).length := by
  obtain ⟨hc1, hc2⟩ := hc
  unfold utf8 at hb he ⊢
  by_cases h1 : c < 0x80
  · simp only [h1, if_true, List.length_cons, List.length_nil, bytesAt, List.cons.injEq,
      and_true] at hb he ⊢
    apply next_utf8_cp_cases mem p e (fun d => d.cp = (c : Int) ∧ d.p = p + (0 + 1)) <;>
      intros <;> dsimp only <;> omega
  by_cases h2 : c < 0x800
  · simp only [h1, h2, if_true, if_false, List.length_cons, List.length_nil, bytesAt,
      List.cons.injEq, and_true] at hb he ⊢
    obtain ⟨hb0, hb1⟩ := hb
    apply next_utf8_cp_cases mem p e (fun d => d.cp = (c : Int) ∧ d.p = p + (0 + 1 + 1)) <;>
      intros <;> dsimp only <;> omega
  by_cases h3 : c < 0x10000
  · simp only [h1, h2, h3, if_true, if_false, List.length_cons, List.length_nil, bytesAt,
      List.cons.injEq, and_true, Nat.add_assoc, Nat.reduceAdd] at hb he ⊢
    obtain ⟨hb0, hb1, hb2⟩ := hb
    apply next_utf8_cp_cases mem p e (fun d => d.cp = (c : Int) ∧ d.p = p + 3) <;>
      intros <;> dsimp only <;> omega
  · simp only [h1, h2, h3, if_true, if_false, List.length_cons, List.length_nil, bytesAt,
      List.cons.injEq, and_true, Nat.add_assoc, Nat.reduceAdd] at hb he ⊢
    obtain ⟨hb0, hb1, hb2, hb3⟩ := hb
    apply next_utf8_cp_cases mem p e (fun d => d.cp = (c : Int) ∧ d.p = p + 4) <;>
      intros <;> dsimp only <;> omega


theorem utf8_byte_lt (c : Nat) (hc : c ≤ 0x10FFFF) : ∀ b ∈ utf8 c, b < 256 := by
  unfold utf8
  split_ifs <;>
    simp only [List.mem_cons, List.mem_singleton, List.not_mem_nil, forall_eq_or_imp,
      forall_eq, false_implies, implies_true, and_true, or_false] <;> omega

theorem bytesAt_memOf (l : List Nat) (hl : ∀ b ∈ l, b < 256) :
    ∀ pre r : List Nat, bytesAt (memOf (pre ++ l ++ r)) pre.length l.length = l := by
  induction l with
  | nil => intro pre r; rfl
  | cons a l ih =>
    intro pre r
    have ha : a < 256 := hl a (List.mem_cons_self _ _)
    have h0 : memOf (pre ++ a :: l ++ r) pre.length = a := by
      have := memOf_append_mid pre (a :: l) r 0 (by simp)
      simpa using this
    have ih' := ih (fun b hb => hl b (List.mem_cons_of_mem _ hb)) (pre ++ [a]) r
    simp only [List.length_append, List.length_singleton, List.append_assoc,
      List.singleton_append] at ih'
    simp only [List.append_assoc, List.cons_append] at h0 ih' ⊢
    simp only [List.length_cons, bytesAt, h0, ih', Nat.mod_eq_of_lt ha]

/-- Claim C7. Decode undoes encode: for every Unicode scalar value `c` and all byte lists
`pre` and `r`, the decoder called at the start of `utf8 c` inside the buffer
`pre ++ utf8 c ++ r` returns `c` and advances the cursor by exactly the length of
`utf8 c`, which is 1, 2, 3 or 4 bytes. -/
theorem next_utf8_cp_utf8 (c : Nat) (hc : isScalar c) (pre r : List Nat) :
    (next_utf8_cp (memOf (pre ++ utf8 c ++ r)) pre.length (pre ++ utf8 c ++ r).length).cp = c
      ∧ (next_utf8_cp (memOf (pre ++ utf8 c ++ r)) pre.length (pre ++ utf8 c ++ r).length).p
          = pre.length + (utf8 c).length
      ∧ 1 ≤ (utf8 c).length ∧ (utf8 c).length ≤ 4 := by
  have h := next_utf8_cp_of_bytesAt (memOf (pre ++ utf8 c ++ r)) pre.length
    (pre ++ utf8 c ++ r).length c hc (bytesAt_memOf _ (utf8_byte_lt c hc.1) pre r)
    (by simp only [List.length_append]; omega)
  exact ⟨h.1, h.2, utf8_length c⟩

/-- Witness for C7: U+20AC (the euro sign, bytes `E2 82 AC`) between `a` and `b`. -/
theorem next_utf8_cp_utf8_witness :
    isScalar 0x20AC
      ∧ (next_utf8_cp (memOf ([0x61] ++ utf8 0x20AC ++ [0x62])) 1 5).cp = 0x20AC
      ∧ (next_utf8_cp (memOf ([0x61] ++ utf8 0x20AC ++ [0x62])) 1 5).p = 4 :=
  ⟨by decide, (next_utf8_cp_utf8 0x20AC (by decide) [0x61] [0x62]).1,
    (next_utf8_cp_utf8 0x20AC (by decide) [0x61] [0x62]).2.1⟩


theorem seqLen_mod (x : Nat) :
    seqLen (x % 256) =
      if x % 256 < 128 then 1
      else if 192 ≤ x % 256 ∧ x % 256 < 224 then 2
      else if 224 ≤ x % 256 ∧ x % 256 < 240 then 3
      else if 240 ≤ x % 256 ∧ x % 256 < 248 then 4
      else 0 := by
  simp only [seqLen, land_E0, land_F0, land_F8]

theorem seqLen_eq_two (x : Nat) : seqLen (x % 256) = 2 ↔ (192 ≤ x % 256 ∧ x % 256 < 224) := by
  rw [seqLen_mod]; split_ifs <;> constructor <;> intro _ <;> first | contradiction | omega

theorem seqLen_eq_three (x : Nat) :
    seqLen (x % 256) = 3 ↔ (224 ≤ x % 256 ∧ x % 256 < 240) := by
  rw [seqLen_mod]; split_ifs <;> constructor <;> intro _ <;> first | contradiction | omega

theorem seqLen_eq_four (x : Nat) : seqLen (x % 256) = 4 ↔ (240 ≤ x % 256 ∧ x % 256 < 248) := by
  rw [seqLen_mod]; split_ifs <;> constructor <;> intro _ <;> first | contradiction | omega

theorem seqLen_eq_zero (x : Nat) :
    seqLen (x % 256) = 0 ↔ ((128 ≤ x % 256 ∧ x % 256 < 192) ∨ 248 ≤ x % 256) := by
  rw [seqLen_mod]; split_ifs <;> constructor <;> intro _ <;> first | contradiction | omega

theorem isCont_mod (x : Nat) : isCont (x % 256) ↔ (128 ≤ x % 256 ∧ x % 256 < 192) := by
  simp only [isCont, land_C0]

theorem payload2_eq (b0 b1 : Nat) : payload2 b0 b1 = b0 % 32 * 64 + b1 % 64 := cp2_eq b0 b1

theorem payload3_eq (b0 b1 b2 : Nat) :
    payload3 b0 b1 b2 = b0 % 16 * 4096 + b1 % 64 * 64 + b2 % 64 := cp3_eq b0 b1 b2

theorem payload4_eq (b0 b1 b2 b3 : Nat) :
    payload4 b0 b1 b2 b3 = b0 % 8 * 262144 + b1 % 64 * 4096 + b2 % 64 * 64 + b3 % 64 :=
  cp4_eq b0 b1 b2 b3

/-- Claim C8. For every byte memory and cursor, the decoder's result is never in the
surrogate range `0xD800..0xDFFF` and never above `0x10FFFF`. In particular, when the
bytes the announced length requires are present, a 3-byte sequence whose payload is a
surrogate, a 4-byte sequence whose payload exceeds `0x10FFFF`, and any lead byte
`0xF8..0xFF` decode to the replacement character `0xFFFD`. -/
theorem next_utf8_cp_no_surrogate_no_overflow (mem : Nat → Nat) (p e : Nat) :
    (¬ (0xD800 ≤ (next_utf8_cp mem p e).cp ∧ (next_utf8_cp mem p e).cp ≤ 0xDFFF)
      ∧ (next_utf8_cp mem p e).cp ≤ 0x10FFFF)
    ∧ (seqLen (mem p % 256) = 3 → p + 3 ≤ e →
        0xD800 ≤ payload3 (mem p % 256) (mem (p + 1) % 256) (mem (p + 2) % 256) →
        payload3 (mem p % 256) (mem (p + 1) % 256) (mem (p + 2) % 256) ≤ 0xDFFF →
        (next_utf8_cp mem p e).cp = 0xFFFD)
    ∧ (seqLen (mem p % 256) = 4 → p + 4 ≤ e →
        0x10FFFF < payload4 (mem p % 256) (mem (p + 1) % 256) (mem (p + 2) % 256)
                    (mem (p + 3) % 256) →
        (next_utf8_cp mem p e).cp = 0xFFFD)
    ∧ (0xF8 ≤ mem p % 256 → p < e → (next_utf8_cp mem p e).cp = 0xFFFD) := by
  refine ⟨?_, ?_, ?_, ?_⟩
  · apply next_utf8_cp_cases mem p e
      (fun d => ¬ (0xD800 ≤ d.cp ∧ d.cp ≤ 0xDFFF) ∧ d.cp ≤ 0x10FFFF) <;>
      intros <;> simp only [EOF_CP] <;> omega
  · intro h3 he h1 h2
    rw [seqLen_eq_three] at h3
    simp only [payload3_eq] at h1 h2
    apply next_utf8_cp_cases mem p e (fun d => d.cp = 0xFFFD) <;>
      intros <;> dsimp only [EOF_CP] <;> omega
  · intro h4 he h1
    rw [seqLen_eq_four] at h4
    simp only [payload4_eq] at h1
    apply next_utf8_cp_cases mem p e (fun d => d.cp = 0xFFFD) <;>
      intros <;> dsimp only [EOF_CP] <;> omega
  · intro h he
    apply next_utf8_cp_cases mem p e (fun d => d.cp = 0xFFFD) <;>
      intros <;> dsimp only [EOF_CP] <;> omega

/-- Witness for C8: `ED A0 80` (the surrogate U+D800), `F4 90 80 80` (payload 0x110000)
and the lead byte `F8` all decode to `0xFFFD`. -/
theorem next_utf8_cp_no_surrogate_no_overflow_witness :
    (next_utf8_cp (memOf [0xED, 0xA0, 0x80]) 0 3).cp = 0xFFFD
      ∧ (next_utf8_cp (memOf [0xF4, 0x90, 0x80, 0x80]) 0 4).cp = 0xFFFD
      ∧ (next_utf8_cp (memOf [0xF8]) 0 1).cp = 0xFFFD :=
  ⟨(next_utf8_cp_no_surrogate_no_overflow (memOf [0xED, 0xA0, 0x80]) 0 3).2.1
      (by decide) (by decide) (by decide) (by decide),
    (next_utf8_cp_no_surrogate_no_overflow (memOf [0xF4, 0x90, 0x80, 0x80]) 0 4).2.2.1
      (by decide) (by decide) (by decide),
    (next_utf8_cp_no_surrogate_no_overflow (memOf [0xF8]) 0 1).2.2.2 (by decide) (by decide)⟩


/-- Whatever the decoder accepts is stored in shortest form: when the result is neither
`0xFFFD` nor `EOF_CP`, the bytes consumed are the `utf8` encoding of the result. -/
theorem next_utf8_cp_shortest (mem : Nat → Nat) (p e : Nat)
    (h1 : (next_utf8_cp mem p e).cp ≠ 0xFFFD) (h2 : (next_utf8_cp mem p e).cp ≠ EOF_CP) :
    bytesAt mem p ((next_utf8_cp mem p e).p - p) = utf8 (next_utf8_cp mem p e).cp.toNat := by
  revert h1 h2
  apply next_utf8_cp_cases mem p e
    (fun d => d.cp ≠ 0xFFFD → d.cp ≠ EOF_CP → bytesAt mem p (d.p - p) = utf8 d.cp.toNat)
  case h_end => intros; simp_all
  case h_lead => intros; simp_all
  case h2_cut => intros; simp_all
  case h3_cut => intros; simp_all
  case h4_cut => intros; simp_all
  case h2_bad => intros; simp_all
  case h3_bad => intros; simp_all
  case h4_bad => intros; simp_all
  case h3_sur => intros; simp_all
  case h4_big => intros; simp_all
  case h_ascii =>
    intro _ hb _ _
    simp only [Nat.add_sub_cancel_left, bytesAt, Int.toNat_ofNat, utf8, hb, if_true]
  case h2_ok =>
    intro _ _ _ _ _ hne _
    by_cases hlt : mem p % 256 % 32 * 64 + mem (p + 1) % 256 % 64 < 128
    · simp only [hlt, if_true, ne_eq, not_true_eq_false] at hne
    simp only [hlt, if_false, Nat.add_sub_cancel_left, bytesAt, Int.toNat_ofNat, utf8]
    rw [if_pos (by omega)]
    congr 1
    · omega
    · congr 1; omega
  case h3_ok =>
    intro _ _ _ _ _ _ _ _ hne _
    by_cases hlt : mem p % 256 % 16 * 4096 + mem (p + 1) % 256 % 64 * 64
        + mem (p + 2) % 256 % 64 < 0x800
    · simp only [hlt, if_true, ne_eq, not_true_eq_false] at hne
    simp only [hlt, if_false, Nat.add_sub_cancel_left, bytesAt, Int.toNat_ofNat, utf8,
      Nat.add_assoc, Nat.reduceAdd]
    rw [if_neg (by omega), if_neg (by omega), if_pos (by omega)]
    congr 1
    · omega
    · congr 1
      · omega
      · congr 1; omega
  case h4_ok =>
    intro _ _ _ _ _ _ _ _ _ _ hne _
    by_cases hlt : mem p % 256 % 8 * 262144 + mem (p + 1) % 256 % 64 * 4096
        + mem (p + 2) % 256 % 64 * 64 + mem (p + 3) % 256 % 64 < 0x10000
    · simp only [hlt, if_true, ne_eq, not_true_eq_false] at hne
    simp only [hlt, if_false, Nat.add_sub_cancel_left, bytesAt, Int.toNat_ofNat, utf8,
      Nat.add_assoc, Nat.reduceAdd]
    rw [if_neg (by omega), if_neg (by omega), if_neg (by omega)]
    congr 1
    · omega
    · congr 1
      · omega
      · congr 1
        · omega
        · congr 1; omega


/-- Claim C9. Overlong encodings are rejected: a 2-, 3- or 4-byte sequence with well-formed
continuation bytes whose payload is below `0x80`, `0x800`, `0x10000` respectively decodes
to `0xFFFD`; and whenever the decoder returns a value other than `0xFFFD` and `EOF_CP`,
the bytes it consumed are the shortest-form UTF-8 encoding `utf8` of that value. -/
theorem next_utf8_cp_rejects_overlong (mem : Nat → Nat) (p e : Nat) :
    (seqLen (mem p % 256) = 2 → p + 2 ≤ e → isCont (mem (p + 1) % 256) →
        payload2 (mem p % 256) (mem (p + 1) % 256) < 0x80 →
        (next_utf8_cp mem p e).cp = 0xFFFD)
    ∧ (seqLen (mem p % 256) = 3 → p + 3 ≤ e →
        isCont (mem (p + 1) % 256) → isCont (mem (p + 2) % 256) →
        payload3 (mem p % 256) (mem (p + 1) % 256) (mem (p + 2) % 256) < 0x800 →
        (next_utf8_cp mem p e).cp = 0xFFFD)
    ∧ (seqLen (mem p % 256) = 4 → p + 4 ≤ e →
        isCont (mem (p + 1) % 256) → isCont (mem (p + 2) % 256) →
        isCont (mem (p + 3) % 256) →
        payload4 (mem p % 256) (mem (p + 1) % 256) (mem (p + 2) % 256) (mem (p + 3) % 256)
          < 0x10000 →
        (next_utf8_cp mem p e).cp = 0xFFFD)
    ∧ ((next_utf8_cp mem p e).cp ≠ 0xFFFD → (next_utf8_cp mem p e).cp ≠ EOF_CP →
        bytesAt mem p ((next_utf8_cp mem p e).p - p) = utf8 (next_utf8_cp mem p e).cp.toNat) := by
  refine ⟨?_, ?_, ?_, next_utf8_cp_shortest mem p e⟩
  · intro hl he c1 hp
    rw [seqLen_eq_two] at hl
    rw [isCont_mod] at c1
    rw [payload2_eq] at hp
    apply next_utf8_cp_cases mem p e (fun d => d.cp = 0xFFFD) <;>
      intros <;> dsimp only [EOF_CP] <;> omega
  · intro hl he c1 c2 hp
    rw [seqLen_eq_three] at hl
    rw [isCont_mod] at c1 c2
    rw [payload3_eq] at hp
    apply next_utf8_cp_cases mem p e (fun d => d.cp = 0xFFFD) <;>
      intros <;> dsimp only [EOF_CP] <;> omega
  · intro hl he c1 c2 c3 hp
    rw [seqLen_eq_four] at hl
    rw [isCont_mod] at c1 c2 c3
    rw [payload4_eq] at hp
    apply next_utf8_cp_cases mem p e (fun d => d.cp = 0xFFFD) <;>
      intros <;> dsimp only [EOF_CP] <;> omega

/-- Witness for C9: the overlong forms `C0 80`, `E0 80 80`, `F0 80 80 80` of U+0000 are
rejected, and the accepted `C3 A9` is the shortest form of its result (U+00E9). -/
theorem next_utf8_cp_rejects_overlong_witness :
    (next_utf8_cp (memOf [0xC0, 0x80]) 0 2).cp = 0xFFFD
      ∧ (next_utf8_cp (memOf [0xE0, 0x80, 0x80]) 0 3).cp = 0xFFFD
      ∧ (next_utf8_cp (memOf [0xF0, 0x80, 0x80, 0x80]) 0 4).cp = 0xFFFD
      ∧ bytesAt (memOf [0xC3, 0xA9]) 0 ((next_utf8_cp (memOf [0xC3, 0xA9]) 0 2).p - 0)
          = utf8 (next_utf8_cp (memOf [0xC3, 0xA9]) 0 2).cp.toNat :=
  ⟨(next_utf8_cp_rejects_overlong (memOf [0xC0, 0x80]) 0 2).1
      (by decide) (by decide) (by decide) (by decide),
    (next_utf8_cp_rejects_overlong (memOf [0xE0, 0x80, 0x80]) 0 3).2.1
      (by decide) (by decide) (by decide) (by decide) (by decide),
    (next_utf8_cp_rejects_overlong (memOf [0xF0, 0x80, 0x80, 0x80]) 0 4).2.2.1
      (by decide) (by decide) (by decide) (by decide) (by decide) (by decide),
    (next_utf8_cp_rejects_overlong (memOf [0xC3, 0xA9]) 0 2).2.2.2 (by decide) (by decide)⟩

/-- Claim C10. Malformed sequences cost exactly their announced length: when the lead
byte announces an `n`-byte sequence (`n = 2, 3, 4`), at least `n` bytes remain and one
of the `n - 1` continuation bytes does not match `10xxxxxx`, the decoder returns
`0xFFFD` and advances the cursor by exactly `n`; for an invalid lead byte it returns
`0xFFFD` and advances by exactly 1. -/
theorem next_utf8_cp_malformed_cost (mem : Nat → Nat) (p e : Nat) :
    (seqLen (mem p % 256) = 2 → p + 2 ≤ e → ¬ isCont (mem (p + 1) % 256) →
        (next_utf8_cp mem p e).cp = 0xFFFD ∧ (next_utf8_cp mem p e).p = p + 2)
    ∧ (seqLen (mem p % 256) = 3 → p + 3 ≤ e →
        ¬ isCont (mem (p + 1) % 256) ∨ ¬ isCont (mem (p + 2) % 256) →
        (next_utf8_cp mem p e).cp = 0xFFFD ∧ (next_utf8_cp mem p e).p = p + 3)
    ∧ (seqLen (mem p % 256) = 4 → p + 4 ≤ e →
        ¬ isCont (mem (p + 1) % 256) ∨ ¬ isCont (mem (p + 2) % 256)
          ∨ ¬ isCont (mem (p + 3) % 256) →
        (next_utf8_cp mem p e).cp = 0xFFFD ∧ (next_utf8_cp mem p e).p = p + 4)
    ∧ (seqLen (mem p % 256) = 0 → p < e →
        (next_utf8_cp mem p e).cp = 0xFFFD ∧ (next_utf8_cp mem p e).p = p + 1) := by
  refine ⟨?_, ?_, ?_, ?_⟩
  · intro hl he c
    rw [seqLen_eq_two] at hl
    rw [isCont_mod] at c
    apply next_utf8_cp_cases mem p e (fun d => d.cp = 0xFFFD ∧ d.p = p + 2) <;>
      intros <;> dsimp only [EOF_CP] <;> omega
  · intro hl he c
    rw [seqLen_eq_three] at hl
    rw [isCont_mod, isCont_mod] at c
    apply next_utf8_cp_cases mem p e (fun d => d.cp = 0xFFFD ∧ d.p = p + 3) <;>
      intros <;> dsimp only [EOF_CP] <;> omega
  · intro hl he c
    rw [seqLen_eq_four] at hl
    rw [isCont_mod, isCont_mod, isCont_mod] at c
    apply next_utf8_cp_cases mem p e (fun d => d.cp = 0xFFFD ∧ d.p = p + 4) <;>
      intros <;> dsimp only [EOF_CP] <;> omega
  · intro hl he
    rw [seqLen_eq_zero] at hl
    apply next_utf8_cp_cases mem p e (fun d => d.cp = 0xFFFD ∧ d.p = p + 1) <;>
      intros <;> dsimp only [EOF_CP] <;> omega

/-- Witness for C10: `C3 28`, `E2 28 A1`, `F0 28 8C BC` (a bad continuation byte) and
the stray continuation byte `80` as lead. -/
theorem next_utf8_cp_malformed_cost_witness :
    ((next_utf8_cp (memOf [0xC3, 0x28]) 0 2).cp = 0xFFFD
        ∧ (next_utf8_cp (memOf [0xC3, 0x28]) 0 2).p = 0 + 2)
      ∧ ((next_utf8_cp (memOf [0xE2, 0x28, 0xA1]) 0 3).cp = 0xFFFD
        ∧ (next_utf8_cp (memOf [0xE2, 0x28, 0xA1]) 0 3).p = 0 + 3)
      ∧ ((next_utf8_cp (memOf [0xF0, 0x28, 0x8C, 0xBC, 0x41]) 0 5).cp = 0xFFFD
        ∧ (next_utf8_cp (memOf [0xF0, 0x28, 0x8C, 0xBC, 0x41]) 0 5).p = 0 + 4)
      ∧ ((next_utf8_cp (memOf [0x80, 0x41]) 0 2).cp = 0xFFFD
        ∧ (next_utf8_cp (memOf [0x80, 0x41]) 0 2).p = 0 + 1) :=
  ⟨(next_utf8_cp_malformed_cost (memOf [0xC3, 0x28]) 0 2).1
      (by decide) (by decide) (by decide),
    (next_utf8_cp_malformed_cost (memOf [0xE2, 0x28, 0xA1]) 0 3).2.1
      (by decide) (by decide) (by decide),
    (next_utf8_cp_malformed_cost (memOf [0xF0, 0x28, 0x8C, 0xBC, 0x41]) 0 5).2.2.1
      (by decide) (by decide) (by decide),
    (next_utf8_cp_malformed_cost (memOf [0x80, 0x41]) 0 2).2.2.2 (by decide) (by decide)⟩

/-! ### The scanner on canonical states -/

theorem utf8Encode_append (a b : List Nat) :
    utf8Encode (a ++ b) = utf8Encode a ++ utf8Encode b := by
  induction a with
  | nil => rfl
  | cons c a ih =>
    rw [List.cons_append, utf8Encode, utf8Encode, ih, List.append_assoc]

theorem Scalars_append {a b : List Nat} : Scalars (a ++ b) ↔ Scalars a ∧ Scalars b := by
  simp only [Scalars, List.mem_append]
  constructor
  · intro h; exact ⟨fun c hc => h c (Or.inl hc), fun c hc => h c (Or.inr hc)⟩
  · rintro ⟨h1, h2⟩ c (hc | hc)
    · exact h1 c hc
    · exact h2 c hc

theorem Scalars_cons {c : Nat} {l : List Nat} : Scalars (c :: l) ↔ isScalar c ∧ Scalars l := by
  simp only [Scalars, List.mem_cons, forall_eq_or_imp]

theorem Scalars_nil : Scalars [] := by
  intro c hc; cases hc

theorem headCp_ne_EOF_CP (c : Nat) (l : List Nat) : headCp (c :: l) ≠ EOF_CP := by
  simp only [headCp, EOF_CP]; omega

/-- One decoder call at a code-point boundary of an encoded text. -/
theorem next_utf8_cp_at_boundary (X Y : List Nat) (hY : Scalars Y) :
    (next_utf8_cp (memOf (utf8Encode (X ++ Y))) (utf8Encode X).length
        (utf8Encode (X ++ Y)).length).cp = headCp Y
      ∧ (next_utf8_cp (memOf (utf8Encode (X ++ Y))) (utf8Encode X).length
          (utf8Encode (X ++ Y)).length).p = (utf8Encode (X ++ Y.take 1)).length := by
  cases Y with
  | nil =>
    simp only [List.append_nil, List.take_nil]
    rw [next_utf8_cp_end _ _ _ (le_refl _)]
    exact ⟨rfl, rfl⟩
  | cons c Y =>
    have hc : isScalar c := (Scalars_cons.mp hY).1
    have e1 : utf8Encode (X ++ c :: Y) = utf8Encode X ++ utf8 c ++ utf8Encode Y := by
      rw [utf8Encode_append, utf8Encode, List.append_assoc]
    have h := next_utf8_cp_of_bytesAt (memOf (utf8Encode X ++ utf8 c ++ utf8Encode Y))
      (utf8Encode X).length (utf8Encode X ++ utf8 c ++ utf8Encode Y).length c hc
      (bytesAt_memOf _ (utf8_byte_lt c hc.1) _ _)
      (by simp only [List.length_append]; omega)
    rw [e1]
    refine ⟨h.1, h.2.trans ?_⟩
    simp [utf8Encode_append, utf8Encode]

theorem Scalars_drop {l : List Nat} (h : Scalars l) (n : Nat) : Scalars (l.drop n) :=
  fun c hc => h c (List.mem_of_mem_drop hc)

theorem posAfter_snoc (pre : List Nat) (c : Nat) :
    posAfter (pre ++ [c]) = posStep (posAfter pre) c := by
  simp only [posAfter, List.foldl_append, List.foldl_cons, List.foldl_nil]

/-- The decoder call of `rotate` in a canonical state. -/
theorem next_utf8_cp_stateAt (pre rest : List Nat) (hs : Scalars rest) :
    (next_utf8_cp (memOf (utf8Encode (pre ++ rest))) (utf8Encode (pre ++ rest.take 4)).length
        (utf8Encode (pre ++ rest)).length).cp = headCp (rest.drop 4)
      ∧ (next_utf8_cp (memOf (utf8Encode (pre ++ rest)))
          (utf8Encode (pre ++ rest.take 4)).length
          (utf8Encode (pre ++ rest)).length).p = (utf8Encode (pre ++ rest.take 5)).length := by
  have hd := next_utf8_cp_at_boundary (pre ++ rest.take 4) (rest.drop 4) (Scalars_drop hs 4)
  have e1 : pre ++ rest.take 4 ++ rest.drop 4 = pre ++ rest := by
    rw [List.append_assoc, List.take_append_drop]
  have e2 : pre ++ rest.take 4 ++ (rest.drop 4).take 1 = pre ++ rest.take 5 := by
    rw [List.append_assoc, ← List.take_add]
  rw [e1, e2] at hd
  exact hd

theorem headCp_cons (c : Nat) (l : List Nat) : headCp (c :: l) = (c : Int) := rfl

theorem scanner_consume_stateAt (pre : List Nat) (c : Nat) (rest : List Nat)
    (hs : Scalars (c :: rest)) (so sl sc : Nat) (toks : List Token) (errs : List String) :
    scanner_consume (stateAt pre (c :: rest) so sl sc toks errs)
      = stateAt (pre ++ [c]) rest so sl sc toks errs := by
  obtain ⟨h1, h2⟩ := next_utf8_cp_stateAt pre (c :: rest) hs
  have hne : (c : Int) ≠ EOF_CP := by simp only [EOF_CP]; omega
  have e3 : pre ++ [c] ++ rest = pre ++ c :: rest := by simp
  have e4 : pre ++ [c] ++ rest.take 4 = pre ++ (c :: rest).take 5 := by simp
  simp only [scanner_consume, stateAt, headCp_cons, hne, if_false]
  by_cases hnl : (c : Int) = NEWLINE
  · simp only [hnl, if_true, scanner_rotate, h1, h2, posAfter_snoc, posStep, e3, e4,
      List.length_append, List.length_singleton, List.drop_succ_cons, List.drop_zero]
  · simp only [hnl, if_false, scanner_rotate, h1, h2, posAfter_snoc, posStep, e3, e4,
      List.length_append, List.length_singleton, List.drop_succ_cons, List.drop_zero]

theorem scanner_initialize_stateAt (cs : List Nat) (hs : Scalars cs) :
    scanner_initialize (utf8Encode cs) = stateAt [] cs 0 0 0 [] [] := by
  have a0 := next_utf8_cp_at_boundary [] cs hs
  have a1 := next_utf8_cp_at_boundary (cs.take 1) (cs.drop 1) (Scalars_drop hs 1)
  have a2 := next_utf8_cp_at_boundary (cs.take 2) (cs.drop 2) (Scalars_drop hs 2)
  have a3 := next_utf8_cp_at_boundary (cs.take 3) (cs.drop 3) (Scalars_drop hs 3)
  have t1 : cs.take 1 ++ (cs.drop 1).take 1 = cs.take 2 := (List.take_add cs 1 1).symm
  have t2 : cs.take 2 ++ (cs.drop 2).take 1 = cs.take 3 := (List.take_add cs 2 1).symm
  have t3 : cs.take 3 ++ (cs.drop 3).take 1 = cs.take 4 := (List.take_add cs 3 1).symm
  simp only [List.take_append_drop, List.nil_append, t1, t2, t3] at a0 a1 a2 a3
  have z : (utf8Encode []).length = 0 := rfl
  rw [z] at a0
  simp only [ scanner_initialize, stateAt, a0, a1, a2, a3, List.nil_append, posAfter,
    List.foldl_nil, List.length_nil, List.drop_zero]

theorem scanner_consume_stateAt_nil (pre : List Nat) (so sl sc : Nat) (toks : List Token)
    (errs : List String) :
    scanner_consume (stateAt pre [] so sl sc toks errs) = stateAt pre [] so sl sc toks errs := by
  simp only [scanner_consume, stateAt, headCp, if_true]

theorem scanner_start_token_stateAt (pre rest : List Nat) (so sl sc : Nat)
    (toks : List Token) (errs : List String) :
    scanner_start_token (stateAt pre rest so sl sc toks errs)
      = stateAt pre rest pre.length (posAfter pre).1 (posAfter pre).2 toks errs := rfl

theorem scanner_push_token_simple_stateAt (pre rest : List Nat) (so sl sc : Nat)
    (toks : List Token) (errs : List String) (kind : Kind) :
    scanner_push_token_simple (stateAt pre rest so sl sc toks errs) kind
      = stateAt pre rest so sl sc (toks ++ [tokenAt kind pre so sl sc]) errs := rfl

theorem scanner_push_error_stateAt (pre rest : List Nat) (so sl sc : Nat)
    (toks : List Token) (errs : List String) (what : String) :
    scanner_push_error (stateAt pre rest so sl sc toks errs) what
      = stateAt pre rest so sl sc toks (errs ++ [errAt what pre]) := rfl

theorem amend_last_snoc (f : Token → Token) (l : List Token) (v : Token) :
    amend_last f (l ++ [v]) = l ++ [f v] := by
  induction l with
  | nil => rfl
  | cons a l ih =>
    cases l with
    | nil => rfl
    | cons b l =>
      exact congrArg (a :: ·) ih

theorem scanner_set_string_quote_value_stateAt (pre rest : List Nat) (so sl sc : Nat)
    (toks : List Token) (v : Token) (errs : List String) (q : Int) :
    scanner_set_string_quote_value (stateAt pre rest so sl sc (toks ++ [v]) errs) q
      = stateAt pre rest so sl sc (toks ++ [withQuote v (q % 256)]) errs := by
  simp only [scanner_set_string_quote_value, stateAt, amend_last_snoc, withQuote]

theorem stateAt_look0 (pre rest : List Nat) (so sl sc : Nat) (toks : List Token)
    (errs : List String) : (stateAt pre rest so sl sc toks errs).look0 = headCp rest := rfl

theorem stateAt_look1 (pre rest : List Nat) (so sl sc : Nat) (toks : List Token)
    (errs : List String) :
    (stateAt pre rest so sl sc toks errs).look1 = headCp (rest.drop 1) := rfl

theorem stateAt_look2 (pre rest : List Nat) (so sl sc : Nat) (toks : List Token)
    (errs : List String) :
    (stateAt pre rest so sl sc toks errs).look2 = headCp (rest.drop 2) := rfl

theorem stateAt_look3 (pre rest : List Nat) (so sl sc : Nat) (toks : List Token)
    (errs : List String) :
    (stateAt pre rest so sl sc toks errs).look3 = headCp (rest.drop 3) := rfl

theorem scanner_consume_tag_ident_eq :
    scanner_consume_tag_ident = consume_while scanner_is_tag_ident := by
  funext fuel
  induction fuel with
  | zero => rfl
  | succ n ih => funext t; simp only [scanner_consume_tag_ident, consume_while, ih]

theorem scanner_consume_spaces_eq : scanner_consume_spaces = consume_while scanner_is_space := by
  funext fuel
  induction fuel with
  | zero => rfl
  | succ n ih => funext t; simp only [scanner_consume_spaces, consume_while, ih]

theorem scanner_consume_attr_name_eq :
    scanner_consume_attr_name = consume_while scanner_is_attr_ident := by
  funext fuel
  induction fuel with
  | zero => rfl
  | succ n ih => funext t; simp only [scanner_consume_attr_name, consume_while, ih]

/-- A skipping loop consumes the run `l` and stops in front of `rest`. -/
theorem consume_while_stateAt (P : Int → Bool) (l : List Nat) :
    ∀ (pre rest : List Nat) (fuel so sl sc : Nat) (toks : List Token) (errs : List String),
      Scalars (l ++ rest) → (∀ c ∈ l, P (c : Int) = true) → P (headCp rest) = false →
      l.length < fuel →
      consume_while P fuel (stateAt pre (l ++ rest) so sl sc toks errs)
        = some (stateAt (pre ++ l) rest so sl sc toks errs) := by
  induction l with
  | nil =>
    intro pre rest fuel so sl sc toks errs _ _ hr hf
    obtain ⟨n, rfl⟩ : ∃ n, fuel = n + 1 := ⟨fuel - 1, by simp at hf; omega⟩
    simp only [consume_while, List.nil_append, List.append_nil, stateAt_look0, hr]
    rfl
  | cons c l ih =>
    intro pre rest fuel so sl sc toks errs hs hl hr hf
    obtain ⟨n, rfl⟩ : ∃ n, fuel = n + 1 := ⟨fuel - 1, by simp at hf; omega⟩
    have hc : P (c : Int) = true := hl c (List.mem_cons_self _ _)
    simp only [consume_while, List.cons_append, stateAt_look0, headCp_cons, hc, if_true]
    rw [scanner_consume_stateAt pre c (l ++ rest) hs,
      ih (pre ++ [c]) rest n so sl sc toks errs (Scalars_cons.mp hs).2
        (fun x hx => hl x (List.mem_cons_of_mem _ hx)) hr
        (by simp only [List.length_cons] at hf; omega)]
    simp only [List.append_assoc, List.singleton_append]

theorem scanner_consume_literal_loop_stateAt (l : List Nat) :
    ∀ (pre rest : List Nat) (fuel so sl sc : Nat) (toks : List Token) (errs : List String),
      Scalars (l ++ rest) → (∀ c ∈ l, c ≠ 60 ∧ c ≠ 123) →
      (headCp rest = ANGLED_LEFT ∨ rest = []) → l.length < fuel →
      scanner_consume_literal_loop fuel (stateAt pre (l ++ rest) so sl sc toks errs)
        = some (stateAt (pre ++ l) rest so sl sc toks errs) := by
  induction l with
  | nil =>
    intro pre rest fuel so sl sc toks errs _ _ hr hf
    obtain ⟨n, rfl⟩ : ∃ n, fuel = n + 1 := ⟨fuel - 1, by simp at hf; omega⟩
    simp only [scanner_consume_literal_loop, List.nil_append, List.append_nil, stateAt_look0]
    rcases hr with hr | hr
    · rw [if_pos hr]
    · subst hr
      simp [headCp, EOF_CP, EOF, ANGLED_LEFT, CURLY_LEFT]
  | cons c l ih =>
    intro pre rest fuel so sl sc toks errs hs hl hr hf
    obtain ⟨n, rfl⟩ : ∃ n, fuel = n + 1 := ⟨fuel - 1, by simp at hf; omega⟩
    obtain ⟨h1, h2⟩ := hl c (List.mem_cons_self _ _)
    have g1 : ¬ ((c : Int) = ANGLED_LEFT) := by simp only [ANGLED_LEFT]; omega
    have g2 : ¬ ((c : Int) = CURLY_LEFT) := by simp only [CURLY_LEFT]; omega
    have g3 : ¬ ((c : Int) = EOF) := by simp only [EOF]; omega
    simp only [scanner_consume_literal_loop, List.cons_append, stateAt_look0, headCp_cons,
      g1, g2, g3, if_false]
    rw [scanner_consume_stateAt pre c (l ++ rest) hs,
      ih (pre ++ [c]) rest n so sl sc toks errs (Scalars_cons.mp hs).2
        (fun x hx => hl x (List.mem_cons_of_mem _ hx)) hr
        (by simp only [List.length_cons] at hf; omega)]
    simp only [List.append_assoc, List.singleton_append]

/-- The string scanner walks through a plain body one code point at a time. -/
theorem scanner_consume_string_loop_plain (q : Int) (l : List Nat) :
    ∀ (pre rest : List Nat) (fuel so sl sc : Nat) (toks : List Token) (errs : List String),
      Scalars (l ++ rest) → PlainString q rest l →
      scanner_consume_string_loop q fuel (stateAt pre (l ++ rest) so sl sc toks errs)
        = scanner_consume_string_loop q (fuel - l.length)
            (stateAt (pre ++ l) rest so sl sc toks errs) := by
  induction l with
  | nil =>
    intro pre rest fuel so sl sc toks errs _ _
    simp only [List.nil_append, List.append_nil, List.length_nil, Nat.sub_zero]
  | cons c l ih =>
    intro pre rest fuel so sl sc toks errs hs hp
    obtain ⟨p1, p2, p3, p4⟩ := hp
    cases fuel with
    | zero => simp only [Nat.zero_sub, scanner_consume_string_loop]
    | succ n =>
      have g0 : (c : Int) ≠ EOF := by simp only [EOF]; omega
      simp only [scanner_consume_string_loop, List.cons_append, stateAt_look0, stateAt_look1,
        headCp_cons, List.drop_succ_cons, List.drop_zero, ne_eq, g0, not_false_eq_true,
        if_true, p1, p2, p3, if_false, List.length_cons, Nat.add_sub_add_right]
      rw [scanner_consume_stateAt pre c (l ++ rest) hs,
        ih (pre ++ [c]) rest n so sl sc toks errs (Scalars_cons.mp hs).2 p4]
      simp only [List.append_assoc, List.singleton_append]

/-- The string scanner at the closing quote. -/
theorem scanner_consume_string_loop_quote (q : Int) (qc : Nat) (hq : (qc : Int) = q)
    (hq2 : q ≠ INVERTED_SOLIDUS) (pre rest : List Nat) (n so sl sc : Nat)
    (toks : List Token) (errs : List String) (hs : Scalars (qc :: rest)) :
    scanner_consume_string_loop q (n + 1) (stateAt pre (qc :: rest) so sl sc toks errs)
      = some (stateAt (pre ++ [qc]) rest so sl sc
          (toks ++ [withQuote (tokenAt Kind.string pre so sl sc) (q % 256)])
          errs) := by
  subst hq
  have g0 : (qc : Int) ≠ EOF := by simp only [EOF]; omega
  have g1 : ¬ ((qc : Int) = INVERTED_SOLIDUS ∧ headCp rest = (qc : Int)) := by
    rintro ⟨h, _⟩; exact hq2 h
  simp only [scanner_consume_string_loop, stateAt_look0, stateAt_look1, headCp_cons,
    List.drop_succ_cons, List.drop_zero, ne_eq, g0, not_false_eq_true, if_true, g1, if_false,
    scanner_push_token_simple_stateAt, scanner_set_string_quote_value_stateAt]
  rw [scanner_consume_stateAt pre qc rest hs]

/-- The string scanner at the end of input. -/
theorem scanner_consume_string_loop_end (q : Int) (pre : List Nat) (n so sl sc : Nat)
    (toks : List Token) (errs : List String) :
    scanner_consume_string_loop q (n + 1) (stateAt pre [] so sl sc toks errs)
      = some (stateAt pre [] so sl sc
          (toks ++ [withQuote (tokenAt Kind.string pre so sl sc) (q % 256)])
          (errs ++ [errAt "Unterminated string value" pre])) := by
  have g0 : headCp [] = EOF := rfl
  simp only [scanner_consume_string_loop, stateAt_look0, g0, ne_eq, not_true_eq_false,
    if_false, scanner_push_error_stateAt, scanner_push_token_simple_stateAt,
    scanner_set_string_quote_value_stateAt]

theorem netLevel_nil : netLevel [] = 0 := rfl

theorem netLevel_cons (c : Nat) (l : List Nat) :
    netLevel (c :: l)
      = (if c = 123 then 1 else 0) - (if c = 125 then 1 else 0) + netLevel l := by
  simp only [netLevel, List.count_cons, beq_iff_eq]
  split_ifs <;> push_cast <;> omega

/-- The executable-block loop on a body that never closes the block runs to the end of
input and records the error, pushing no token. -/
theorem scanner_consume_executable_loop_unclosed (body : List Nat) :
    ∀ (pre : List Nat) (lvl : Int) (fuel so sl sc : Nat) (toks : List Token)
      (errs : List String),
      Scalars body → (∀ a b, body = a ++ 125 :: 125 :: b → lvl + netLevel a ≠ 0) →
      body.length < fuel →
      scanner_consume_executable_loop fuel lvl (stateAt pre body so sl sc toks errs)
        = some (stateAt (pre ++ body) [] so sl sc toks
            (errs ++ [errAt "Unmatched \x7b\x7b block" (pre ++ body)])) := by
  induction body with
  | nil =>
    intro pre lvl fuel so sl sc toks errs _ _ hf
    obtain ⟨n, rfl⟩ : ∃ n, fuel = n + 1 := ⟨fuel - 1, by simp at hf; omega⟩
    have g0 : headCp [] = EOF_CP := rfl
    simp only [scanner_consume_executable_loop, stateAt_look0, g0, ne_eq, not_true_eq_false,
      if_false, scanner_push_error_stateAt, List.append_nil]
  | cons c body ih =>
    intro pre lvl fuel so sl sc toks errs hs hH hf
    obtain ⟨n, rfl⟩ : ∃ n, fuel = n + 1 := ⟨fuel - 1, by simp at hf; omega⟩
    have g0 : (c : Int) ≠ EOF_CP := by simp only [EOF_CP]; omega
    have g1 : ¬ (lvl = 0 ∧ (c : Int) = CURLY_RIGHT ∧ headCp body = CURLY_RIGHT) := by
      rintro ⟨h1, h2, h3⟩
      cases body with
      | nil => simp [headCp, EOF_CP, CURLY_RIGHT] at h3
      | cons d body =>
        simp only [headCp_cons, CURLY_RIGHT] at h2 h3
        have hc : c = 125 := by omega
        have hd : d = 125 := by omega
        subst hc hd
        exact hH [] body rfl (by simp [netLevel_nil, h1])
    simp only [scanner_consume_executable_loop, stateAt_look0, stateAt_look1, headCp_cons,
      List.drop_succ_cons, List.drop_zero, ne_eq, g0, not_false_eq_true, if_true, g1, if_false]
    rw [scanner_consume_stateAt pre c body hs,
      ih (pre ++ [c]) _ n so sl sc toks errs (Scalars_cons.mp hs).2 ?_
        (by simp only [List.length_cons] at hf; omega)]
    · simp only [List.append_assoc, List.singleton_append]
    · intro a b hab
      have := hH (c :: a) b (by rw [hab]; rfl)
      rw [netLevel_cons] at this
      simp only [CURLY_LEFT, CURLY_RIGHT]
      split_ifs at this ⊢ <;> omega

theorem errStr_eq_errAt (what : String) (pre rest : List Nat) (so sl sc : Nat)
    (toks : List Token) (errs : List String) :
    errStr what (stateAt pre rest so sl sc toks errs) = errAt what pre := rfl

/-- An error message starts with its fixed text. -/
theorem errAt_starts_with (what : String) (pre : List Nat) (h : what.length ≤ 126) :
    what.toList <+: (errAt what pre).toList := by
  have h1 : what.data.length ≤ 126 := h
  simp only [errAt, String.toList, List.append_assoc]
  rw [List.take_append_eq_append_take, List.take_of_length_le h1]
  exact List.prefix_append _ _

theorem scanner_tokenize_loop_end (pre : List Nat) (n so sl sc : Nat) (toks : List Token)
    (errs : List String) :
    scanner_tokenize_loop (n + 1) (stateAt pre [] so sl sc toks errs)
      = some (stateAt pre [] so sl sc toks errs) := by
  have g0 : headCp [] = EOF := rfl
  simp only [scanner_tokenize_loop, stateAt_look0, g0, ne_eq, not_true_eq_false, if_false]

theorem scanner_tokenize_loop_step (n : Nat) (t : scanner_t) (h : t.look0 ≠ EOF) :
    scanner_tokenize_loop (n + 1) t = (scanner_scan_token n t).bind (scanner_tokenize_loop n) := by
  simp only [scanner_tokenize_loop, ne_eq, h, not_false_eq_true, if_true]

theorem scanner_attrs_stop (pre rest : List Nat) (n so sl sc : Nat) (toks : List Token)
    (errs : List String) (h : scanner_is_letter (headCp rest) = false) :
    scanner_scan_open_tag_attrs (n + 1) (stateAt pre rest so sl sc toks errs)
      = some (stateAt pre rest so sl sc toks errs) := by
  simp only [scanner_scan_open_tag_attrs, stateAt_look0, h, Bool.false_eq_true, if_false]

theorem scanner_attrs_step (n : Nat) (t : scanner_t) (h : scanner_is_letter t.look0 = true) :
    scanner_scan_open_tag_attrs (n + 1) t
      = (scanner_consume_attr n t).bind fun t =>
          (scanner_consume_spaces n t).bind fun t => scanner_scan_open_tag_attrs n t := by
  simp only [scanner_scan_open_tag_attrs, h, if_true]

/-- A body without two adjacent `}` never closes the block. -/
theorem NeverCloses_of_no_pair (body : List Nat) (h : ¬ [125, 125] <:+: body) :
    NeverCloses body := by
  intro a b hab _
  exact h ⟨a, b, by rw [hab]; simp⟩

/-- The final state of scanning `{{` followed by a body that never closes the block. -/
theorem tokenize_text_unclosed (body : List Nat) (hs : Scalars body) (hopen : NeverCloses body)
    (fuel : Nat) (hf : body.length + 2 ≤ fuel) :
    tokenize_text fuel (123 :: 123 :: body)
      = some (.ok (stateAt (123 :: 123 :: body) [] 2 (posAfter [123, 123]).1
          (posAfter [123, 123]).2 []
          [errAt "Unmatched \x7b\x7b block" (123 :: 123 :: body)])) := by
  obtain ⟨n, rfl⟩ : ∃ n, fuel = n + 1 := ⟨fuel - 1, by omega⟩
  have hs2 : Scalars (123 :: 123 :: body) :=
    Scalars_cons.mpr ⟨by decide, Scalars_cons.mpr ⟨by decide, hs⟩⟩
  have hloop := scanner_consume_executable_loop_unclosed body [123, 123] 0 n 2
    (posAfter [123, 123]).1 (posAfter [123, 123]).2 [] [] hs
    (fun a b hab => by rw [zero_add]; exact hopen a b hab) (by omega)
  have hstep : scanner_scan_token n (stateAt [] (123 :: 123 :: body) 0 0 0 [] [])
      = some (stateAt (123 :: 123 :: body) [] 2 (posAfter [123, 123]).1
          (posAfter [123, 123]).2 []
          [errAt "Unmatched \x7b\x7b block" (123 :: 123 :: body)]) := by
    simp only [scanner_scan_token, stateAt_look0, stateAt_look1, headCp_cons,
      List.drop_succ_cons, List.drop_zero, scanner_consume_executable]
    rw [scanner_consume_stateAt [] 123 (123 :: body) hs2,
      scanner_consume_stateAt _ 123 body (Scalars_cons.mp hs2).2, scanner_start_token_stateAt]
    simp only [ANGLED_LEFT, ANGLED_RIGHT, SOLIDUS, CURLY_LEFT, Nat.cast_ofNat,
      Int.reduceEq, if_false, if_true, List.nil_append, List.cons_append, List.length_cons,
      List.length_nil, Nat.reduceAdd]
    exact hloop
  obtain ⟨m, rfl⟩ : ∃ m, n = m + 1 := ⟨n - 1, by omega⟩
  have g0 : ((123 : Nat) : Int) ≠ EOF := by decide
  simp only [tokenize_text, scanner_tokenize, scanner_initialize_stateAt _ hs2,
    scanner_tokenize_loop, stateAt_look0, headCp_cons, ne_eq, g0, not_false_eq_true, if_true,
    hstep, Option.some_bind, scanner_tokenize_loop_end, Option.map_some']
  rfl

/-- Claim C5. Unmatched executable block: for every text `{{` ++ body whose block is never
closed (in particular when `body` has no two adjacent `}`, see `NeverCloses_of_no_pair`),
`tokenize` returns, the token list is empty (so it holds no `executable` token), and
exactly one error is recorded, whose message begins with "Unmatched {{ block". -/
theorem tokenize_unmatched_executable (body : List Nat) (hs : Scalars body)
    (hopen : NeverCloses body) (fuel : Nat) (hf : body.length + 2 ≤ fuel) :
    ∃ t e, tokenize_text fuel (123 :: 123 :: body) = some (.ok t)
      ∧ scanner_tokens t = []
      ∧ scanner_errors t = [e]
      ∧ "Unmatched \x7b\x7b block".toList <+: e.toList :=
  ⟨_, _, tokenize_text_unclosed body hs hopen fuel hf, rfl, rfl,
    errAt_starts_with _ _ (by decide)⟩

/-- Witness for C5: the text `{{ 1 + 1 `. -/
theorem tokenize_unmatched_executable_witness :
    Scalars (cps " 1 + 1 ") ∧ NeverCloses (cps " 1 + 1 ")
      ∧ ∃ t e, tokenize_text 9 (cps "\x7b\x7b 1 + 1 ") = some (.ok t)
          ∧ scanner_tokens t = []
          ∧ scanner_errors t = [e]
          ∧ "Unmatched \x7b\x7b block".toList <+: e.toList :=
  ⟨by decide, NeverCloses_of_no_pair _ (by decide),
    tokenize_unmatched_executable (cps " 1 + 1 ") (by decide)
      (NeverCloses_of_no_pair _ (by decide)) 9 (by decide)⟩

theorem scanner_is_tag_ident_of_letter (v : Int) (h : scanner_is_letter v = true) :
    scanner_is_tag_ident v = true := by
  simp only [scanner_is_letter, Bool.or_eq_true, Bool.and_eq_true, decide_eq_true_eq] at h
  simp only [scanner_is_tag_ident, scanner_is_letter, EOF_CP, bne_iff_ne, ne_eq,
    Bool.or_eq_true, Bool.and_eq_true, decide_eq_true_eq]
  refine ⟨by omega, Or.inl (Or.inl (Or.inl (Or.inl h)))⟩

theorem scanner_is_attr_ident_of_letter (v : Int) (h : scanner_is_letter v = true) :
    scanner_is_attr_ident v = true := by
  simp only [scanner_is_letter, Bool.or_eq_true, Bool.and_eq_true, decide_eq_true_eq] at h
  simp only [scanner_is_attr_ident, Bool.or_eq_true, Bool.and_eq_true, decide_eq_true_eq]
  rcases h with h | h
  · exact Or.inl (Or.inl (Or.inl (Or.inl (Or.inl (Or.inl h)))))
  · exact Or.inl (Or.inl (Or.inl (Or.inl (Or.inl (Or.inr h)))))

theorem isTagName_iff (name : List Nat) (h : isTagName name = true) :
    ∃ c l, name = c :: l ∧ scanner_is_letter (c : Int) = true
      ∧ ∀ x ∈ name, scanner_is_tag_ident (x : Int) = true := by
  cases name with
  | nil => simp [isTagName] at h
  | cons c l =>
    simp only [isTagName, Bool.and_eq_true, List.all_eq_true] at h
    refine ⟨c, l, rfl, h.1, ?_⟩
    intro x hx
    rcases List.mem_cons.mp hx with rfl | hx
    · exact scanner_is_tag_ident_of_letter _ h.1
    · exact h.2 x hx

theorem isAttrName_iff (key : List Nat) (h : isAttrName key = true) :
    ∃ c l, key = c :: l ∧ scanner_is_letter (c : Int) = true
      ∧ ∀ x ∈ key, scanner_is_attr_ident (x : Int) = true := by
  cases key with
  | nil => simp [isAttrName] at h
  | cons c l =>
    simp only [isAttrName, Bool.and_eq_true, List.all_eq_true] at h
    refine ⟨c, l, rfl, h.1, ?_⟩
    intro x hx
    rcases List.mem_cons.mp hx with rfl | hx
    · exact scanner_is_attr_ident_of_letter _ h.1
    · exact h.2 x hx

/-- An opening tag `<name ` up to the attribute loop: one `tag_begin` token. -/
theorem scanner_scan_open_tag_name (pre name R : List Nat) (hn : isTagName name = true)
    (hs : Scalars (60 :: (name ++ 32 :: R))) (hR : scanner_is_space (headCp R) = false)
    (fuel : Nat) (hf : name.length < fuel) (so sl sc : Nat) (toks : List Token)
    (errs : List String) :
    scanner_scan_open_tag fuel (stateAt pre (60 :: (name ++ 32 :: R)) so sl sc toks errs)
      = scanner_scan_open_tag_attrs fuel
          (stateAt (pre ++ [60] ++ name ++ [32]) R pre.length (posAfter pre).1 (posAfter pre).2
            (toks ++ [tokenAt Kind.tag_begin (pre ++ [60] ++ name) pre.length
              (posAfter pre).1 (posAfter pre).2]) errs) := by
  obtain ⟨c, l, rfl, hc, hall⟩ := isTagName_iff name hn
  have hs1 : Scalars ((c :: l) ++ 32 :: R) := (Scalars_cons.mp hs).2
  have hs2 : Scalars ([32] ++ R) := (Scalars_append.mp hs1).2
  have g1 : ¬ ((c : Int) = 33) := by
    intro h
    rw [h] at hc
    exact absurd hc (by decide)
  have e1 : headCp ((60 :: (c :: l ++ 32 :: R)).drop 1) = (c : Int) := rfl
  have hsp : scanner_is_tag_ident (headCp (32 :: R)) = false := by
    rw [headCp_cons]; decide
  have hsp2 : ∀ x ∈ [32], scanner_is_space ((x : Nat) : Int) = true := by
    intro x hx; rw [List.mem_singleton.mp hx]; decide
  simp only [scanner_scan_open_tag, stateAt_look1, e1, g1, false_and, if_false, hc,
    if_true, scanner_start_token_stateAt]
  rw [scanner_consume_stateAt pre 60 _ hs, scanner_consume_tag_ident_eq,
    consume_while_stateAt scanner_is_tag_ident (c :: l) (pre ++ [60])
      (32 :: R) fuel _ _ _ toks errs hs1 hall hsp hf]
  simp only [Option.some_bind, scanner_push_token_simple_stateAt, scanner_consume_spaces_eq]
  rw [show (32 :: R) = [32] ++ R from rfl,
    consume_while_stateAt scanner_is_space [32] _ R fuel _ _ _ _ errs hs2 hsp2 hR
      (by simp only [List.length_cons, List.length_nil] at hf ⊢; omega)]
  simp only [Option.some_bind]

/-- A skipping loop whose condition fails at once leaves the state unchanged. -/
theorem consume_while_stop (P : Int → Bool) (pre rest : List Nat) (fuel so sl sc : Nat)
    (toks : List Token) (errs : List String) (hr : P (headCp rest) = false) (hf : 0 < fuel) :
    consume_while P fuel (stateAt pre rest so sl sc toks errs)
      = some (stateAt pre rest so sl sc toks errs) := by
  obtain ⟨n, rfl⟩ : ∃ n, fuel = n + 1 := ⟨fuel - 1, by omega⟩
  simp only [consume_while, stateAt_look0, hr]
  rfl

/-- An attribute `key=` followed by a quote, up to the string loop: the tokens `attr_key`
and `equal`. -/
theorem scanner_consume_attr_quoted (pre key R : List Nat) (qc : Nat)
    (hk : isAttrName key = true) (hq : qc = 34 ∨ qc = 39)
    (hs : Scalars (key ++ 61 :: qc :: R)) (fuel : Nat) (hf : key.length < fuel)
    (so sl sc : Nat) (toks : List Token) (errs : List String) :
    scanner_consume_attr fuel (stateAt pre (key ++ 61 :: qc :: R) so sl sc toks errs)
      = scanner_consume_string_loop (qc : Int) fuel
          (stateAt (pre ++ key ++ [61] ++ [qc]) R (pre ++ key ++ [61] ++ [qc]).length
            (posAfter (pre ++ key ++ [61] ++ [qc])).1 (posAfter (pre ++ key ++ [61] ++ [qc])).2
            (toks ++ [tokenAt Kind.attr_key (pre ++ key) pre.length (posAfter pre).1
                        (posAfter pre).2,
                      tokenAt Kind.equal (pre ++ key ++ [61]) (pre ++ key).length
                        (posAfter (pre ++ key)).1 (posAfter (pre ++ key)).2]) errs) := by
  obtain ⟨c, l, rfl, hc, hall⟩ := isAttrName_iff key hk
  have hs1 : Scalars (61 :: qc :: R) := (Scalars_append.mp hs).2
  have hs2 : Scalars (qc :: R) := (Scalars_cons.mp hs1).2
  have h61 : scanner_is_attr_ident (headCp (61 :: qc :: R)) = false := by
    rw [headCp_cons]; decide
  have h61s : scanner_is_space (headCp (61 :: qc :: R)) = false := by
    rw [headCp_cons]; decide
  have hqs : scanner_is_space (headCp (qc :: R)) = false := by
    rw [headCp_cons]; rcases hq with rfl | rfl <;> decide
  have hq1 : ((qc : Int) = APOSTROPHE ∨ (qc : Int) = QUOTE) := by
    rcases hq with rfl | rfl
    · right; rfl
    · left; rfl
  have hpos : 0 < fuel := by omega
  simp only [scanner_consume_attr, scanner_start_token_stateAt, scanner_consume_attr_name_eq]
  rw [consume_while_stateAt scanner_is_attr_ident (c :: l) pre (61 :: qc :: R) fuel _ _ _
    toks errs hs hall h61 hf]
  simp only [Option.some_bind, scanner_push_token_simple_stateAt, scanner_consume_spaces_eq]
  rw [consume_while_stop scanner_is_space _ _ fuel _ _ _ _ _ h61s hpos]
  simp only [Option.some_bind, stateAt_look0, headCp_cons, EQUAL, Nat.cast_ofNat, if_true,
    scanner_start_token_stateAt]
  rw [scanner_consume_stateAt _ 61 _ hs1]
  simp only [scanner_push_token_simple_stateAt]
  rw [consume_while_stop scanner_is_space _ _ fuel _ _ _ _ _ hqs hpos]
  simp only [Option.some_bind, stateAt_look0, headCp_cons, hq1, if_true,
    scanner_consume_string]
  rw [scanner_consume_stateAt _ qc _ hs2]
  simp only [scanner_start_token_stateAt, List.append_assoc, List.singleton_append,
    List.cons_append, List.nil_append]

theorem isScalar_of_lt_128 (c : Nat) (h : c < 128) : isScalar c := by
  unfold isScalar; omega

theorem Scalars_of_tag_ident (l : List Nat)
    (h : ∀ x ∈ l, scanner_is_tag_ident (x : Int) = true) : Scalars l := by
  intro c hc
  have := h c hc
  simp only [scanner_is_tag_ident, scanner_is_letter, isdigit, UNDERSCORE, PERIOD, COLON,
    Bool.and_eq_true, Bool.or_eq_true, decide_eq_true_eq, beq_iff_eq] at this
  exact isScalar_of_lt_128 c (by omega)

theorem Scalars_of_attr_ident (l : List Nat)
    (h : ∀ x ∈ l, scanner_is_attr_ident (x : Int) = true) : Scalars l := by
  intro c hc
  have := h c hc
  simp only [scanner_is_attr_ident, Bool.and_eq_true, Bool.or_eq_true, decide_eq_true_eq,
    beq_iff_eq] at this
  exact isScalar_of_lt_128 c (by omega)

theorem scanner_is_space_of_letter (v : Int) (h : scanner_is_letter v = true) :
    scanner_is_space v = false := by
  simp only [scanner_is_letter, Bool.or_eq_true, Bool.and_eq_true, decide_eq_true_eq] at h
  simp only [scanner_is_space, SPACE, CARRIAGE_RETURN, FORM_FEED, NEWLINE, HORIZONTAL_TAB,
    VERTICAL_TAB, Bool.or_eq_false_iff, beq_eq_false_iff_ne, ne_eq]
  omega

/-- Materialization succeeds on tokens whose end is not before their start. -/
theorem scanner_hydrate_tokens_ok (chars : List Nat) (toks : List Token)
    (h : ∀ v ∈ toks, v.start_offset ≤ v.end_offset) :
    scanner_hydrate_tokens chars toks
      = .ok (toks.map (hydrated chars)) := by
  induction toks with
  | nil => rfl
  | cons v rest ih =>
    have h1 : ¬ v.end_offset < v.start_offset := by
      have := h v (List.mem_cons_self _ _); omega
    simp only [scanner_hydrate_tokens, h1, if_false,
      ih (fun w hw => h w (List.mem_cons_of_mem _ hw)), List.map_cons, hydrated]

theorem rb_str_substr_mid (A l B : List Nat) (a n : Nat) (ha : a = A.length)
    (hn : n = l.length) : rb_str_substr (A ++ l ++ B) a n = l := by
  subst ha hn
  simp [rb_str_substr, List.append_assoc]

theorem PlainString_of_no_quote (q : Nat) (s : List Nat)
    (h1 : q ∉ s) (h2 : ¬ [123, 123] <:+: s) : PlainString (q : Int) [] s := by
  induction s with
  | nil => trivial
  | cons c l ih =>
    have hc : c ≠ q := fun h => h1 (h ▸ List.mem_cons_self _ _)
    have hl : q ∉ l := fun h => h1 (List.mem_cons_of_mem _ h)
    have h2l : ¬ [123, 123] <:+: l := fun h => h2 (List.infix_cons h)
    refine ⟨by omega, ?_, ?_, ih hl h2l⟩
    · rintro ⟨_, h⟩
      cases l with
      | nil => simp only [List.append_nil, headCp, EOF_CP] at h; omega
      | cons d l =>
        simp only [List.cons_append, headCp_cons] at h
        have : d = q := by omega
        exact hl (this ▸ List.mem_cons_self _ _)
    · rintro ⟨hc1, h⟩
      cases l with
      | nil => simp [headCp, EOF_CP, CURLY_LEFT] at h
      | cons d l =>
        simp only [List.cons_append, headCp_cons, CURLY_LEFT] at h hc1
        have e1 : d = 123 := by omega
        have e2 : c = 123 := by omega
        subst e1 e2
        exact h2 ⟨[], l, rfl⟩

/-- The final state of scanning `<name key=q s` with the string left open. -/
theorem tokenize_text_unterminated (name key s : List Nat) (qc : Nat)
    (hn : isTagName name = true) (hk : isAttrName key = true) (hq : qc = 34 ∨ qc = 39)
    (hs : Scalars s) (h1 : qc ∉ s) (h2 : ¬ [123, 123] <:+: s) (fuel : Nat)
    (hf : (60 :: (name ++ 32 :: (key ++ 61 :: qc :: s))).length + 2 ≤ fuel) :
    tokenize_text fuel (60 :: (name ++ 32 :: (key ++ 61 :: qc :: s)))
      = some (.ok (stateAt ([60] ++ name ++ [32] ++ key ++ [61] ++ [qc] ++ s) []
          ([60] ++ name ++ [32] ++ key ++ [61] ++ [qc]).length
          (posAfter ([60] ++ name ++ [32] ++ key ++ [61] ++ [qc])).1
          (posAfter ([60] ++ name ++ [32] ++ key ++ [61] ++ [qc])).2
          ((unterminated_tokens name key s qc).map
            (hydrated (60 :: (name ++ 32 :: (key ++ 61 :: qc :: s)))))
          [errAt "Unterminated string value"
            ([60] ++ name ++ [32] ++ key ++ [61] ++ [qc] ++ s)])) := by
  obtain ⟨n, rfl⟩ : ∃ n, fuel = n + 1 := ⟨fuel - 1, by omega⟩
  obtain ⟨m, rfl⟩ : ∃ m, n = m + 1 := ⟨n - 1, by omega⟩
  simp only [List.length_cons, List.length_append] at hf
  obtain ⟨k0, kl, hkey, hk0, hkall⟩ := isAttrName_iff key hk
  obtain ⟨n0, nl, hname, hn0, hnall⟩ := isTagName_iff name hn
  have hsk : Scalars key := Scalars_of_attr_ident key hkall
  have hsn : Scalars name := Scalars_of_tag_ident name hnall
  have hsq : isScalar qc := by rcases hq with rfl | rfl <;> decide
  have hsA : Scalars (key ++ 61 :: qc :: s) :=
    Scalars_append.mpr ⟨hsk, Scalars_cons.mpr ⟨by decide, Scalars_cons.mpr ⟨hsq, hs⟩⟩⟩
  have hsB : Scalars (60 :: (name ++ 32 :: (key ++ 61 :: qc :: s))) :=
    Scalars_cons.mpr ⟨by decide, Scalars_append.mpr ⟨hsn, Scalars_cons.mpr ⟨by decide, hsA⟩⟩⟩
  have hR : scanner_is_space (headCp (key ++ 61 :: qc :: s)) = false := by
    rw [hkey, List.cons_append, headCp_cons]; exact scanner_is_space_of_letter _ hk0
  have hlet : scanner_is_letter (headCp (key ++ 61 :: qc :: s)) = true := by
    rw [hkey, List.cons_append, headCp_cons]; exact hk0
  have hplain := PlainString_of_no_quote qc s h1 h2
  have hqm : ((qc : Int) % 256) = (qc : Int) := by rcases hq with rfl | rfl <;> rfl
  obtain ⟨j, hj⟩ : ∃ j, m - s.length = j + 1 := ⟨m - s.length - 1, by omega⟩
  obtain ⟨m', hm'⟩ : ∃ m', m = m' + 1 := ⟨m - 1, by omega⟩
  have gE : scanner_is_space (headCp []) = false := by decide
  have gL : scanner_is_letter (headCp []) = false := by decide
  have hstep : scanner_scan_token (m + 1)
        (stateAt [] (60 :: (name ++ 32 :: (key ++ 61 :: qc :: s))) 0 0 0 [] [])
      = some (stateAt ([60] ++ name ++ [32] ++ key ++ [61] ++ [qc] ++ s) []
          ([60] ++ name ++ [32] ++ key ++ [61] ++ [qc]).length
          (posAfter ([60] ++ name ++ [32] ++ key ++ [61] ++ [qc])).1
          (posAfter ([60] ++ name ++ [32] ++ key ++ [61] ++ [qc])).2
          (unterminated_tokens name key s qc)
          [errAt "Unterminated string value"
            ([60] ++ name ++ [32] ++ key ++ [61] ++ [qc] ++ s)]) := by
    have a0 : (stateAt [] (60 :: (name ++ 32 :: (key ++ 61 :: qc :: s))) 0 0 0 [] []).look0
        = ANGLED_LEFT := rfl
    rw [scanner_scan_token, if_pos a0,
      scanner_scan_open_tag_name [] name _ hn hsB hR (m + 1) (by omega),
      scanner_attrs_step _ _ (by rw [stateAt_look0]; exact hlet),
      scanner_consume_attr_quoted _ key s qc hk hq hsA m (by omega)]
    rw [← List.append_nil s, scanner_consume_string_loop_plain (qc : Int) s _ [] m _ _ _ _ _
      (by rw [List.append_nil]; exact hs) hplain, hj, scanner_consume_string_loop_end]
    simp only [Option.some_bind, scanner_consume_spaces_eq, List.append_nil]
    rw [consume_while_stop scanner_is_space _ _ m _ _ _ _ _ gE (by omega)]
    simp only [Option.some_bind]
    rw [hm', scanner_attrs_stop _ _ _ _ _ _ _ _ gL]
    simp only [unterminated_tokens, List.nil_append, List.append_assoc, List.cons_append, hqm,
      posAfter, List.foldl_nil, List.length_nil]
  have b0 : (stateAt [] (60 :: (name ++ 32 :: (key ++ 61 :: qc :: s))) 0 0 0 [] []).look0
      ≠ EOF := by
    rw [stateAt_look0, headCp_cons]; decide
  have hok : ∀ v ∈ unterminated_tokens name key s qc, v.start_offset ≤ v.end_offset := by
    intro v hv
    simp only [unterminated_tokens, List.mem_cons, List.mem_singleton, List.not_mem_nil,
      or_false] at hv
    rcases hv with rfl | rfl | rfl | rfl <;>
      simp only [tokenAt, withQuote, List.length_append, List.length_cons, List.length_nil] <;>
      omega
  rw [tokenize_text, scanner_tokenize, scanner_initialize_stateAt _ hsB,
    scanner_tokenize_loop_step _ _ b0, hstep, Option.some_bind, scanner_tokenize_loop_end,
    Option.map_some']
  show some (match scanner_hydrate_tokens _ (unterminated_tokens name key s qc) with
    | .error e => Except.error e
    | .ok toks => Except.ok _) = _
  rw [scanner_hydrate_tokens_ok _ _ hok]
  rfl

/-- Claim C4. Unterminated string: for every text `<` name ` ` key `=` q s, where `name` is
a tag name, `key` an attribute name, `q` is `"` or `'`, and `s` contains neither `q` nor
two adjacent `{`, `tokenize` returns, records exactly one error, whose message begins
with "Unterminated string value", and the last token of the list is a `string` token
whose literal is `s` and whose `quote_char` is `q`. -/
theorem tokenize_unterminated_string (name key s : List Nat) (qc : Nat)
    (hn : isTagName name = true) (hk : isAttrName key = true) (hq : qc = 34 ∨ qc = 39)
    (hs : Scalars s) (h1 : qc ∉ s) (h2 : ¬ [123, 123] <:+: s) (fuel : Nat)
    (hf : (60 :: (name ++ 32 :: (key ++ 61 :: qc :: s))).length + 2 ≤ fuel) :
    ∃ t e tok,
      tokenize_text fuel (60 :: (name ++ 32 :: (key ++ 61 :: qc :: s))) = some (.ok t)
        ∧ scanner_errors t = [e]
        ∧ "Unterminated string value".toList <+: e.toList
        ∧ (scanner_tokens t).getLast? = some tok
        ∧ tok.kind = Kind.string
        ∧ tok.literal = some s
        ∧ tok.quote_char = some (qc : Int) := by
  have h := tokenize_text_unterminated name key s qc hn hk hq hs h1 h2 fuel hf
  have e1 : (60 :: (name ++ 32 :: (key ++ 61 :: qc :: s)))
      = ([60] ++ name ++ [32] ++ key ++ [61] ++ [qc]) ++ s ++ [] := by
    simp only [List.append_assoc, List.cons_append, List.nil_append, List.append_nil]
  have hlast : (scanner_tokens (stateAt ([60] ++ name ++ [32] ++ key ++ [61] ++ [qc] ++ s) []
        ([60] ++ name ++ [32] ++ key ++ [61] ++ [qc]).length
        (posAfter ([60] ++ name ++ [32] ++ key ++ [61] ++ [qc])).1
        (posAfter ([60] ++ name ++ [32] ++ key ++ [61] ++ [qc])).2
        ((unterminated_tokens name key s qc).map
          (hydrated (60 :: (name ++ 32 :: (key ++ 61 :: qc :: s)))))
        [errAt "Unterminated string value"
          ([60] ++ name ++ [32] ++ key ++ [61] ++ [qc] ++ s)])).getLast?
      = some (hydrated (60 :: (name ++ 32 :: (key ++ 61 :: qc :: s)))
          (withQuote (tokenAt Kind.string ([60] ++ name ++ [32] ++ key ++ [61] ++ [qc] ++ s)
            ([60] ++ name ++ [32] ++ key ++ [61] ++ [qc] : List Nat).length
            (posAfter ([60] ++ name ++ [32] ++ key ++ [61] ++ [qc])).1
            (posAfter ([60] ++ name ++ [32] ++ key ++ [61] ++ [qc])).2) (qc : Int))) := by
    simp only [scanner_tokens, stateAt, unterminated_tokens, List.map_cons, List.map_nil,
      List.getLast?_cons_cons, List.getLast?_singleton]
  refine ⟨_, _, _, h, rfl, errAt_starts_with _ _ (by decide), hlast, rfl, ?_, rfl⟩
  simp only [hydrated, withQuote, tokenAt, Option.some.injEq]
  rw [e1]
  refine rb_str_substr_mid _ s [] _ _ rfl ?_
  simp only [List.length_append, List.length_cons, List.length_nil]
  omega

/-- Witness for C4: the text `<div class="abc`. -/
theorem tokenize_unterminated_string_witness :
    isTagName (cps "div") = true ∧ isAttrName (cps "class") = true ∧ Scalars (cps "abc")
      ∧ ∃ t e tok, tokenize_text 17 (cps "<div class=\"abc") = some (.ok t)
          ∧ scanner_errors t = [e]
          ∧ "Unterminated string value".toList <+: e.toList
          ∧ (scanner_tokens t).getLast? = some tok
          ∧ tok.kind = Kind.string
          ∧ tok.literal = some (cps "abc")
          ∧ tok.quote_char = some 34 :=
  ⟨by decide, by decide, by decide,
    tokenize_unterminated_string (cps "div") (cps "class") (cps "abc") 34 (by decide)
      (by decide) (Or.inl rfl) (by decide) (by decide) (by decide) 17 (by decide)⟩

/-- The state in which the scanner starts on the one-character text `<`. -/
theorem scanner_initialize_lone_angle :
    scanner_initialize (utf8Encode [60]) = stateAt [] [60] 0 0 0 [] [] :=
  scanner_initialize_stateAt [60] (by decide)

/-- Claim C2 (failing input). On the one-character text `<` the top-level scan loop makes
no progress: `scanner_scan_token` is entered with `look[0] = '<'`, not the EOF sentinel,
and returns the state unchanged (no code point consumed), for every fuel. Hence the loop
of `tokenize` never exits: it exhausts every fuel. -/
theorem tokenize_lone_angle_diverges :
    ( scanner_initialize (utf8Encode [60])).look0 = ANGLED_LEFT
      ∧ ( scanner_initialize (utf8Encode [60])).look0 ≠ EOF
      ∧ (∀ fuel, scanner_scan_token fuel ( scanner_initialize (utf8Encode [60]))
          = some ( scanner_initialize (utf8Encode [60])))
      ∧ ∀ fuel, tokenize_text fuel [60] = none := by
  have h0 : ( scanner_initialize (utf8Encode [60])).look0 = ANGLED_LEFT := by
    rw [scanner_initialize_lone_angle]; rfl
  have h1 : ( scanner_initialize (utf8Encode [60])).look0 ≠ EOF := by
    rw [scanner_initialize_lone_angle]; decide
  have h2 : ∀ fuel, scanner_scan_token fuel ( scanner_initialize (utf8Encode [60]))
      = some ( scanner_initialize (utf8Encode [60])) := by
    intro fuel
    rw [scanner_initialize_lone_angle]
    rfl
  have h3 : ∀ fuel, scanner_tokenize_loop fuel ( scanner_initialize (utf8Encode [60])) = none := by
    intro fuel
    induction fuel with
    | zero => rfl
    | succ n ih => rw [scanner_tokenize_loop_step _ _ h1, h2, Option.some_bind, ih]
  refine ⟨h0, h1, h2, fun fuel => ?_⟩
  rw [tokenize_text, scanner_tokenize, h3]
  rfl

theorem scanner_closing_attrs_stop (pre rest : List Nat) (n so sl sc : Nat) (toks : List Token)
    (errs : List String) (h : scanner_is_tag_ident (headCp rest) = false) :
    scanner_scan_closing_tag_attrs (n + 1) (stateAt pre rest so sl sc toks errs)
      = some (stateAt pre rest so sl sc toks errs) := by
  simp only [scanner_scan_closing_tag_attrs, stateAt_look0, h, Bool.false_eq_true, if_false]

/-- A closing tag `</name>`: the tokens `tag_closing_start` and `tag_closing_end`. -/
theorem scanner_scan_closing_tag (pre name R : List Nat) (hn : isTagName name = true)
    (hs : Scalars (60 :: 47 :: (name ++ 62 :: R))) (fuel : Nat) (hf : name.length < fuel)
    (so sl sc : Nat) (toks : List Token) (errs : List String) :
    scanner_scan_open_tag fuel (stateAt pre (60 :: 47 :: (name ++ 62 :: R)) so sl sc toks errs)
      = some (stateAt (pre ++ [60] ++ [47] ++ name ++ [62]) R
          (pre ++ [60] ++ [47] ++ name).length (posAfter (pre ++ [60] ++ [47] ++ name)).1
          (posAfter (pre ++ [60] ++ [47] ++ name)).2
          (toks ++ [tokenAt Kind.tag_closing_start (pre ++ [60] ++ [47] ++ name) pre.length
                      (posAfter pre).1 (posAfter pre).2,
                    tokenAt Kind.tag_closing_end (pre ++ [60] ++ [47] ++ name ++ [62])
                      (pre ++ [60] ++ [47] ++ name).length
                      (posAfter (pre ++ [60] ++ [47] ++ name)).1
                      (posAfter (pre ++ [60] ++ [47] ++ name)).2]) errs) := by
  obtain ⟨c, l, rfl, hc, hall⟩ := isTagName_iff name hn
  obtain ⟨n, rfl⟩ : ∃ n, fuel = n + 1 := ⟨fuel - 1, by omega⟩
  have hs1 : Scalars (47 :: ((c :: l) ++ 62 :: R)) := (Scalars_cons.mp hs).2
  have hs2 : Scalars ((c :: l) ++ 62 :: R) := (Scalars_cons.mp hs1).2
  have hs3 : Scalars (62 :: R) := (Scalars_append.mp hs2).2
  have e1 : headCp ((60 :: 47 :: (c :: l ++ 62 :: R)).drop 1) = 47 := rfl
  have g1 : ¬ ((47 : Int) = 33) := by decide
  have g2 : scanner_is_letter 47 = false := by decide
  have g3 : headCp (c :: l ++ 62 :: R) = (c : Int) := rfl
  have g4 : scanner_is_tag_ident (c : Int) = true := hall c (List.mem_cons_self _ _)
  have h62 : scanner_is_tag_ident (headCp (62 :: R)) = false := by
    rw [headCp_cons]; decide
  have h62s : scanner_is_space (headCp (62 :: R)) = false := by
    rw [headCp_cons]; decide
  simp only [scanner_scan_open_tag, stateAt_look1, e1, g1, false_and, if_false, g2,
    Bool.false_eq_true, if_true, scanner_start_token_stateAt]
  rw [scanner_consume_stateAt pre 60 _ hs, scanner_consume_stateAt _ 47 _ hs1]
  simp only [stateAt_look0, g3, g4, if_true, scanner_consume_tag_ident_eq]
  rw [consume_while_stateAt scanner_is_tag_ident (c :: l) _ (62 :: R) (n + 1) _ _ _ toks errs
    hs2 hall h62 hf]
  simp only [Option.some_bind, scanner_push_token_simple_stateAt, scanner_consume_spaces_eq]
  rw [consume_while_stop scanner_is_space _ _ (n + 1) _ _ _ _ _ h62s (by omega)]
  simp only [Option.some_bind]
  rw [scanner_closing_attrs_stop _ _ _ _ _ _ _ _ h62]
  simp only [Option.some_bind]
  rw [consume_while_stop scanner_is_space _ _ (n + 1) _ _ _ _ _ h62s (by omega)]
  simp only [Option.some_bind, stateAt_look0, headCp_cons, ANGLED_RIGHT, Nat.cast_ofNat,
    if_true, scanner_start_token_stateAt]
  rw [scanner_consume_stateAt _ 62 _ hs3]
  simp only [scanner_push_token_simple_stateAt, List.append_assoc, List.singleton_append,
    List.cons_append, List.nil_append]

/-- A literal run in front of `<` or of the end of input: one `literal` token. -/
theorem scanner_consume_literal_stateAt (pre text rest : List Nat)
    (hs : Scalars (text ++ rest)) (ht : ∀ c ∈ text, c ≠ 60 ∧ c ≠ 123)
    (hr : headCp rest = ANGLED_LEFT ∨ rest = []) (fuel : Nat) (hf : text.length < fuel)
    (so sl sc : Nat) (toks : List Token) (errs : List String) :
    scanner_consume_literal fuel (stateAt pre (text ++ rest) so sl sc toks errs)
      = some (stateAt (pre ++ text) rest pre.length (posAfter pre).1 (posAfter pre).2
          (toks ++ [tokenAt Kind.literal (pre ++ text) pre.length (posAfter pre).1
            (posAfter pre).2]) errs) := by
  rw [scanner_consume_literal, scanner_start_token_stateAt,
    scanner_consume_literal_loop_stateAt text pre rest fuel _ _ _ toks errs hs ht hr hf]
  rfl

/-- A string body without quote, `{` and backslash is plain, whatever follows. -/
theorem PlainString_of_simple (q : Nat) (rest value : List Nat)
    (h : ∀ c ∈ value, c ≠ q ∧ c ≠ 123 ∧ c ≠ 92) : PlainString (q : Int) rest value := by
  induction value with
  | nil => trivial
  | cons c l ih =>
    obtain ⟨a, b, d⟩ := h c (List.mem_cons_self _ _)
    refine ⟨by omega, ?_, ?_, ih (fun x hx => h x (List.mem_cons_of_mem _ hx))⟩
    · rintro ⟨h1, _⟩; simp only [INVERTED_SOLIDUS] at h1; omega
    · rintro ⟨h1, _⟩; simp only [CURLY_LEFT] at h1; omega

/-- An opening tag `<name key="value"` with its one attribute, in front of `R`: the
tokens `tag_begin`, `attr_key`, `equal` and `string`. -/
theorem scanner_scan_open_tag_one_attr (pre name key value R : List Nat)
    (hn : isTagName name = true) (hk : isAttrName key = true) (hv : Scalars value)
    (hv2 : ∀ c ∈ value, c ≠ 34 ∧ c ≠ 123 ∧ c ≠ 92) (hR : Scalars R)
    (hR1 : scanner_is_space (headCp R) = false) (hR2 : scanner_is_letter (headCp R) = false)
    (fuel : Nat) (hf : name.length + key.length + value.length + 3 ≤ fuel)
    (so sl sc : Nat) (toks : List Token) (errs : List String) :
    scanner_scan_open_tag fuel
        (stateAt pre (60 :: (name ++ 32 :: (key ++ 61 :: 34 :: (value ++ 34 :: R)))) so sl sc
          toks errs)
      = some (stateAt (pre ++ [60] ++ name ++ [32] ++ key ++ [61] ++ [34] ++ value ++ [34]) R
          (pre ++ [60] ++ name ++ [32] ++ key ++ [61] ++ [34]).length
          (posAfter (pre ++ [60] ++ name ++ [32] ++ key ++ [61] ++ [34])).1
          (posAfter (pre ++ [60] ++ name ++ [32] ++ key ++ [61] ++ [34])).2
          (toks ++ [tokenAt Kind.tag_begin (pre ++ [60] ++ name) pre.length (posAfter pre).1
                      (posAfter pre).2,
                    tokenAt Kind.attr_key (pre ++ [60] ++ name ++ [32] ++ key)
                      (pre ++ [60] ++ name ++ [32]).length
                      (posAfter (pre ++ [60] ++ name ++ [32])).1
                      (posAfter (pre ++ [60] ++ name ++ [32])).2,
                    tokenAt Kind.equal (pre ++ [60] ++ name ++ [32] ++ key ++ [61])
                      (pre ++ [60] ++ name ++ [32] ++ key).length
                      (posAfter (pre ++ [60] ++ name ++ [32] ++ key)).1
                      (posAfter (pre ++ [60] ++ name ++ [32] ++ key)).2,
                    withQuote
                      (tokenAt Kind.string
                        (pre ++ [60] ++ name ++ [32] ++ key ++ [61] ++ [34] ++ value)
                        (pre ++ [60] ++ name ++ [32] ++ key ++ [61] ++ [34]).length
                        (posAfter (pre ++ [60] ++ name ++ [32] ++ key ++ [61] ++ [34])).1
                        (posAfter (pre ++ [60] ++ name ++ [32] ++ key ++ [61] ++ [34])).2)
                      34]) errs) := by
  obtain ⟨m, rfl⟩ : ∃ m, fuel = m + 1 := ⟨fuel - 1, by omega⟩
  obtain ⟨k0, kl, hkey, hk0, hkall⟩ := isAttrName_iff key hk
  obtain ⟨n0, nl, hname, hn0, hnall⟩ := isTagName_iff name hn
  have hsk : Scalars key := Scalars_of_attr_ident key hkall
  have hsn : Scalars name := Scalars_of_tag_ident name hnall
  have hsV : Scalars (value ++ 34 :: R) :=
    Scalars_append.mpr ⟨hv, Scalars_cons.mpr ⟨by decide, hR⟩⟩
  have hsA : Scalars (key ++ 61 :: 34 :: (value ++ 34 :: R)) :=
    Scalars_append.mpr ⟨hsk, Scalars_cons.mpr ⟨by decide, Scalars_cons.mpr ⟨by decide, hsV⟩⟩⟩
  have hsB : Scalars (60 :: (name ++ 32 :: (key ++ 61 :: 34 :: (value ++ 34 :: R)))) :=
    Scalars_cons.mpr ⟨by decide, Scalars_append.mpr ⟨hsn, Scalars_cons.mpr ⟨by decide, hsA⟩⟩⟩
  have hK1 : scanner_is_space (headCp (key ++ 61 :: 34 :: (value ++ 34 :: R))) = false := by
    rw [hkey, List.cons_append, headCp_cons]; exact scanner_is_space_of_letter _ hk0
  have hK2 : scanner_is_letter (headCp (key ++ 61 :: 34 :: (value ++ 34 :: R))) = true := by
    rw [hkey, List.cons_append, headCp_cons]; exact hk0
  have hplain := PlainString_of_simple 34 (34 :: R) value hv2
  obtain ⟨j, hj⟩ : ∃ j, m - value.length = j + 1 := ⟨m - value.length - 1, by omega⟩
  obtain ⟨m', hm'⟩ : ∃ m', m = m' + 1 := ⟨m - 1, by omega⟩
  rw [scanner_scan_open_tag_name pre name _ hn hsB hK1 (m + 1) (by omega),
    scanner_attrs_step _ _ (by rw [stateAt_look0]; exact hK2),
    scanner_consume_attr_quoted _ key _ 34 hk (Or.inl rfl) hsA m (by omega),
    scanner_consume_string_loop_plain ((34 : Nat) : Int) value _ (34 :: R) m _ _ _ _ _ hsV
      hplain, hj,
    scanner_consume_string_loop_quote ((34 : Nat) : Int) 34 rfl (by decide) _ R j _ _ _ _ _
      (Scalars_cons.mpr ⟨by decide, hR⟩)]
  simp only [Option.some_bind, scanner_consume_spaces_eq]
  rw [consume_while_stop scanner_is_space _ _ m _ _ _ _ _ hR1 (by omega)]
  simp only [Option.some_bind]
  rw [hm', scanner_attrs_stop _ _ _ _ _ _ _ _ hR2]
  simp only [List.append_assoc, List.cons_append, List.nil_append, Nat.cast_ofNat,
    Int.reduceMod]

/-- The final state of scanning `<name key="value">text</name>`. -/
theorem tokenize_text_element (name key value text : List Nat)
    (hn : isTagName name = true) (hk : isAttrName key = true) (hv : Scalars value)
    (hv2 : ∀ c ∈ value, c ≠ 34 ∧ c ≠ 123 ∧ c ≠ 92) (ht : Scalars text) (ht1 : text ≠ [])
    (ht2 : ∀ c ∈ text, c ≠ 60 ∧ c ≠ 62 ∧ c ≠ 47 ∧ c ≠ 123) (fuel : Nat)
    (hf : (element_text name key value text).length + 5 ≤ fuel) :
    tokenize_text fuel (element_text name key value text)
      = some (.ok (stateAt (element_text name key value text) []
          (element_head name key value text).length
          (posAfter (element_head name key value text)).1
          (posAfter (element_head name key value text)).2
          ((element_tokens name key value text).map
            (hydrated (element_text name key value text))) [])) := by
  obtain ⟨n, rfl⟩ : ∃ n, fuel = n + 5 := ⟨fuel - 5, by omega⟩
  simp only [element_text, List.length_cons, List.length_append, List.length_nil] at hf
  obtain ⟨n0, nl, hname, hn0, hnall⟩ := isTagName_iff name hn
  obtain ⟨t0, tl, rfl⟩ : ∃ t0 tl, text = t0 :: tl := by
    cases text with
    | nil => exact absurd rfl ht1
    | cons a b => exact ⟨a, b, rfl⟩
  have hsn : Scalars name := Scalars_of_tag_ident name hnall
  have hsC : Scalars (60 :: 47 :: (name ++ [62])) :=
    Scalars_cons.mpr ⟨by decide, Scalars_cons.mpr ⟨by decide,
      Scalars_append.mpr ⟨hsn, Scalars_cons.mpr ⟨by decide, Scalars_nil⟩⟩⟩⟩
  have hsT : Scalars ((t0 :: tl) ++ 60 :: 47 :: (name ++ [62])) := Scalars_append.mpr ⟨ht, hsC⟩
  have hsR : Scalars (62 :: ((t0 :: tl) ++ 60 :: 47 :: (name ++ [62]))) :=
    Scalars_cons.mpr ⟨by decide, hsT⟩
  have hR1 : scanner_is_space (headCp (62 :: ((t0 :: tl) ++ 60 :: 47 :: (name ++ [62]))))
      = false := by rw [headCp_cons]; decide
  have hR2 : scanner_is_letter (headCp (62 :: ((t0 :: tl) ++ 60 :: 47 :: (name ++ [62]))))
      = false := by rw [headCp_cons]; decide
  obtain ⟨c1, c2, c3, c4⟩ := ht2 t0 (List.mem_cons_self _ _)
  -- first iteration: the opening tag with its attribute
  have s1 := scanner_scan_open_tag_one_attr [] name key value _ hn hk hv hv2 hsR hR1 hR2
    (n + 4) (by omega) 0 0 0 [] []
  -- second iteration: `>`
  have s2 : ∀ (pre : List Nat) (so sl sc : Nat) (toks : List Token),
      scanner_scan_token (n + 3)
          (stateAt pre (62 :: ((t0 :: tl) ++ 60 :: 47 :: (name ++ [62]))) so sl sc toks [])
        = some (stateAt (pre ++ [62]) ((t0 :: tl) ++ 60 :: 47 :: (name ++ [62])) pre.length
            (posAfter pre).1 (posAfter pre).2
            (toks ++ [tokenAt Kind.right_angled (pre ++ [62]) pre.length (posAfter pre).1
              (posAfter pre).2]) []) := by
    intro pre so sl sc toks
    simp only [scanner_scan_token, stateAt_look0, headCp_cons, ANGLED_LEFT, ANGLED_RIGHT,
      Nat.cast_ofNat, Int.reduceEq, if_false, if_true, scanner_start_token_stateAt]
    rw [scanner_consume_stateAt pre 62 _ hsR]
    rfl
  -- third iteration: the literal run
  have s3 : ∀ (pre : List Nat) (so sl sc : Nat) (toks : List Token),
      scanner_scan_token (n + 2)
          (stateAt pre ((t0 :: tl) ++ 60 :: 47 :: (name ++ [62])) so sl sc toks [])
        = some (stateAt (pre ++ (t0 :: tl)) (60 :: 47 :: (name ++ [62])) pre.length
            (posAfter pre).1 (posAfter pre).2
            (toks ++ [tokenAt Kind.literal (pre ++ (t0 :: tl)) pre.length (posAfter pre).1
              (posAfter pre).2]) []) := by
    intro pre so sl sc toks
    have g1 : ¬ ((t0 : Int) = ANGLED_LEFT) := by simp only [ANGLED_LEFT]; omega
    have g2 : ¬ ((t0 : Int) = ANGLED_RIGHT) := by simp only [ANGLED_RIGHT]; omega
    have g3 : ¬ ((t0 : Int) = SOLIDUS) := by simp only [SOLIDUS]; omega
    have g4 : ¬ ((t0 : Int) = CURLY_LEFT) := by simp only [CURLY_LEFT]; omega
    have g5 : ¬ ((t0 : Int) = EOF) := by simp only [EOF]; omega
    have e0 : (stateAt pre ((t0 :: tl) ++ 60 :: 47 :: (name ++ [62])) so sl sc toks []).look0
        = (t0 : Int) := rfl
    rw [scanner_scan_token, e0, if_neg g1, if_neg g2, if_neg g3, if_neg g4, if_neg g5]
    exact scanner_consume_literal_stateAt pre (t0 :: tl) _ hsT
      (fun c hc => ⟨(ht2 c hc).1, (ht2 c hc).2.2.2⟩) (Or.inl rfl) (n + 2)
      (by simp only [List.length_cons] at hf ⊢; omega) so sl sc toks []
  -- fourth iteration: the closing tag
  have s4 : ∀ (pre : List Nat) (so sl sc : Nat) (toks : List Token),
      scanner_scan_token (n + 1) (stateAt pre (60 :: 47 :: (name ++ [62])) so sl sc toks [])
        = some (stateAt (pre ++ [60] ++ [47] ++ name ++ [62]) []
            (pre ++ [60] ++ [47] ++ name).length (posAfter (pre ++ [60] ++ [47] ++ name)).1
            (posAfter (pre ++ [60] ++ [47] ++ name)).2
            (toks ++ [tokenAt Kind.tag_closing_start (pre ++ [60] ++ [47] ++ name) pre.length
                        (posAfter pre).1 (posAfter pre).2,
                      tokenAt Kind.tag_closing_end (pre ++ [60] ++ [47] ++ name ++ [62])
                        (pre ++ [60] ++ [47] ++ name).length
                        (posAfter (pre ++ [60] ++ [47] ++ name)).1
                        (posAfter (pre ++ [60] ++ [47] ++ name)).2]) []) := by
    intro pre so sl sc toks
    have e0 : (stateAt pre (60 :: 47 :: (name ++ [62])) so sl sc toks []).look0
        = ANGLED_LEFT := rfl
    rw [scanner_scan_token, if_pos e0]
    exact scanner_scan_closing_tag pre name [] hn hsC (n + 1) (by omega) so sl sc toks []
  have hsAll : Scalars (element_text name key value (t0 :: tl)) := by
    obtain ⟨k0, kl, hkey, hk0, hkall⟩ := isAttrName_iff key hk
    exact Scalars_cons.mpr ⟨by decide, Scalars_append.mpr ⟨hsn, Scalars_cons.mpr ⟨by decide,
      Scalars_append.mpr ⟨Scalars_of_attr_ident key hkall, Scalars_cons.mpr ⟨by decide,
        Scalars_cons.mpr ⟨by decide, Scalars_append.mpr ⟨hv,
          Scalars_cons.mpr ⟨by decide, hsR⟩⟩⟩⟩⟩⟩⟩⟩
  have hok : ∀ v ∈ element_tokens name key value (t0 :: tl), v.start_offset ≤ v.end_offset := by
    intro v hv
    simp only [element_tokens, List.mem_cons, List.mem_singleton, List.not_mem_nil,
      or_false] at hv
    rcases hv with rfl | rfl | rfl | rfl | rfl | rfl | rfl | rfl <;>
      simp only [tokenAt, withQuote, List.length_append, List.length_cons, List.length_nil] <;>
      omega
  have a60 : ∀ (l pre : List Nat) (so sl sc : Nat) (toks : List Token),
      (stateAt pre (60 :: l) so sl sc toks []).look0 ≠ EOF := by
    intro l pre so sl sc toks; rw [stateAt_look0, headCp_cons]; decide
  have a62 : ∀ (l pre : List Nat) (so sl sc : Nat) (toks : List Token),
      (stateAt pre (62 :: l) so sl sc toks []).look0 ≠ EOF := by
    intro l pre so sl sc toks; rw [stateAt_look0, headCp_cons]; decide
  have at0 : ∀ (l pre : List Nat) (so sl sc : Nat) (toks : List Token),
      (stateAt pre ((t0 :: tl) ++ l) so sl sc toks []).look0 ≠ EOF := by
    intro l pre so sl sc toks
    rw [List.cons_append, stateAt_look0, headCp_cons]; simp only [EOF]; omega
  have hloop : scanner_tokenize_loop (n + 5)
        (stateAt [] (element_text name key value (t0 :: tl)) 0 0 0 [] [])
      = some (stateAt (element_text name key value (t0 :: tl)) []
          (element_head name key value (t0 :: tl)).length
          (posAfter (element_head name key value (t0 :: tl))).1
          (posAfter (element_head name key value (t0 :: tl))).2
          (element_tokens name key value (t0 :: tl)) []) := by
    simp only [element_text] at s1 ⊢
    rw [scanner_tokenize_loop_step _ _ (a60 _ _ _ _ _ _), scanner_scan_token,
      if_pos (by rfl), s1, Option.some_bind,
      scanner_tokenize_loop_step _ _ (a62 _ _ _ _ _ _), s2, Option.some_bind,
      scanner_tokenize_loop_step _ _ (at0 _ _ _ _ _ _), s3, Option.some_bind,
      scanner_tokenize_loop_step _ _ (a60 _ _ _ _ _ _), s4, Option.some_bind,
      scanner_tokenize_loop_end]
    simp only [element_tokens, element_head, List.nil_append, List.append_assoc,
      List.cons_append, posAfter, List.foldl_nil, List.length_nil]
  rw [tokenize_text, scanner_tokenize, scanner_initialize_stateAt _ hsAll, hloop,
    Option.map_some']
  show some (match scanner_hydrate_tokens _ (element_tokens name key value (t0 :: tl)) with
    | .error e => Except.error e
    | .ok toks => Except.ok _) = _
  rw [scanner_hydrate_tokens_ok _ _ hok]
  rfl

theorem rb_str_substr_piece (cs A l B : List Nat) (a n : Nat) (h : cs = A ++ l ++ B)
    (ha : a = A.length) (hn : n = l.length) : rb_str_substr cs a n = l := by
  rw [h]; exact rb_str_substr_mid A l B a n ha hn

/-- Claim C3. Tokenizing a well-formed element: for every text
`<` name ` ` key `="` value `">` text `</` name `>` where `name` is a letter followed by
tag-identifier characters, `key` a letter followed by attribute-identifier characters,
`value` contains none of `"`, `{`, `\`, and `text` is non-empty and contains none of `<`,
`>`, `/`, `{`, `tokenize` returns exactly the eight tokens tag_begin(`<`name),
attr_key(key), equal(`=`), string(value, quote_char `"`), right_angled(`>`),
literal(text), tag_closing_start(`</`name), tag_closing_end(`>`), in that order, and the
error list is empty. -/
theorem tokenize_element (name key value text : List Nat)
    (hn : isTagName name = true) (hk : isAttrName key = true) (hv : Scalars value)
    (hv2 : ∀ c ∈ value, c ≠ 34 ∧ c ≠ 123 ∧ c ≠ 92) (ht : Scalars text) (ht1 : text ≠ [])
    (ht2 : ∀ c ∈ text, c ≠ 60 ∧ c ≠ 62 ∧ c ≠ 47 ∧ c ≠ 123) (fuel : Nat)
    (hf : (element_text name key value text).length + 5 ≤ fuel) :
    ∃ t, tokenize_text fuel (element_text name key value text) = some (.ok t)
      ∧ (scanner_tokens t).map Token.summary
          = [(Kind.tag_begin, some (60 :: name), none),
             (Kind.attr_key, some key, none),
             (Kind.equal, some [61], none),
             (Kind.string, some value, some 34),
             (Kind.right_angled, some [62], none),
             (Kind.literal, some text, none),
             (Kind.tag_closing_start, some (60 :: 47 :: name), none),
             (Kind.tag_closing_end, some [62], none)]
      ∧ scanner_errors t = [] := by
  refine ⟨_, tokenize_text_element name key value text hn hk hv hv2 ht ht1 ht2 fuel hf, ?_, rfl⟩
  simp only [scanner_tokens, stateAt, element_tokens, List.map_cons, List.map_nil,
    Token.summary, hydrated, tokenAt, withQuote, List.cons.injEq, Prod.mk.injEq,
    Option.some.injEq, true_and, and_true]
  refine ⟨?_, ?_, ?_, ?_, ?_, ?_, ?_, ?_⟩
  · refine rb_str_substr_piece _ [] (60 :: name)
      (32 :: (key ++ 61 :: 34 :: (value ++ 34 :: 62 :: (text ++ 60 :: 47 :: (name ++ [62])))))
      _ _ ?_ ?_ ?_ <;> rfl
  · refine rb_str_substr_piece _ ([60] ++ name ++ [32]) key
      (61 :: 34 :: (value ++ 34 :: 62 :: (text ++ 60 :: 47 :: (name ++ [62]))))
      _ _ ?_ ?_ ?_ <;>
    first
      | rfl
      | (simp only [element_text, List.append_assoc, List.cons_append, List.nil_append,
          List.length_append, List.length_cons, List.length_nil]; done)
      | (simp only [List.length_append, List.length_cons, List.length_nil]; omega)
  · refine rb_str_substr_piece _ ([60] ++ name ++ [32] ++ key) [61]
      (34 :: (value ++ 34 :: 62 :: (text ++ 60 :: 47 :: (name ++ [62]))))
      _ _ ?_ ?_ ?_ <;>
    first
      | rfl
      | (simp only [element_text, List.append_assoc, List.cons_append, List.nil_append,
          List.length_append, List.length_cons, List.length_nil]; done)
      | (simp only [List.length_append, List.length_cons, List.length_nil]; omega)
  · refine rb_str_substr_piece _ ([60] ++ name ++ [32] ++ key ++ [61] ++ [34]) value
      (34 :: 62 :: (text ++ 60 :: 47 :: (name ++ [62])))
      _ _ ?_ ?_ ?_ <;>
    first
      | rfl
      | (simp only [element_text, List.append_assoc, List.cons_append, List.nil_append,
          List.length_append, List.length_cons, List.length_nil]; done)
      | (simp only [List.length_append, List.length_cons, List.length_nil]; omega)
  · refine rb_str_substr_piece _ ([60] ++ name ++ [32] ++ key ++ [61] ++ [34] ++ value ++ [34])
      [62] (text ++ 60 :: 47 :: (name ++ [62]))
      _ _ ?_ ?_ ?_ <;>
    first
      | rfl
      | (simp only [element_text, List.append_assoc, List.cons_append, List.nil_append,
          List.length_append, List.length_cons, List.length_nil]; done)
      | (simp only [List.length_append, List.length_cons, List.length_nil]; omega)
  · refine rb_str_substr_piece _
      ([60] ++ name ++ [32] ++ key ++ [61] ++ [34] ++ value ++ [34] ++ [62]) text
      (60 :: 47 :: (name ++ [62]))
      _ _ ?_ ?_ ?_ <;>
    first
      | rfl
      | (simp only [element_text, List.append_assoc, List.cons_append, List.nil_append,
          List.length_append, List.length_cons, List.length_nil]; done)
      | (simp only [List.length_append, List.length_cons, List.length_nil]; omega)
  · refine rb_str_substr_piece _
      ([60] ++ name ++ [32] ++ key ++ [61] ++ [34] ++ value ++ [34] ++ [62] ++ text)
      (60 :: 47 :: name) [62]
      _ _ ?_ ?_ ?_ <;>
    first
      | rfl
      | (simp only [element_text, List.append_assoc, List.cons_append, List.nil_append,
          List.length_append, List.length_cons, List.length_nil]; done)
      | (simp only [List.length_append, List.length_cons, List.length_nil]; omega)
  · refine rb_str_substr_piece _
      ([60] ++ name ++ [32] ++ key ++ [61] ++ [34] ++ value ++ [34] ++ [62] ++ text ++ [60]
        ++ [47] ++ name)
      [62] []
      _ _ ?_ ?_ ?_ <;>
    first
      | rfl
      | (simp only [element_text, List.append_assoc, List.cons_append, List.nil_append,
          List.length_append, List.length_cons, List.length_nil]; done)
      | (simp only [List.length_append, List.length_cons, List.length_nil]; omega)

/-- Witness for C3: the text `<div class="a">hi</div>`. -/
theorem tokenize_element_witness :
    isTagName (cps "div") = true ∧ isAttrName (cps "class") = true
      ∧ element_text (cps "div") (cps "class") (cps "a") (cps "hi")
          = cps "<div class=\"a\">hi</div>"
      ∧ ∃ t, tokenize_text 28 (element_text (cps "div") (cps "class") (cps "a") (cps "hi"))
            = some (.ok t)
          ∧ (scanner_tokens t).map Token.summary
              = [(Kind.tag_begin, some (60 :: cps "div"), none),
                 (Kind.attr_key, some (cps "class"), none),
                 (Kind.equal, some [61], none),
                 (Kind.string, some (cps "a"), some 34),
                 (Kind.right_angled, some [62], none),
                 (Kind.literal, some (cps "hi"), none),
                 (Kind.tag_closing_start, some (60 :: 47 :: cps "div"), none),
                 (Kind.tag_closing_end, some [62], none)]
          ∧ scanner_errors t = [] :=
  ⟨by decide, by decide, by decide,
    tokenize_element (cps "div") (cps "class") (cps "a") (cps "hi") (by decide) (by decide)
      (by decide) (by decide) (by decide) (by decide) (by decide) 28 (by decide)⟩

/-! ### The token stream: marks and sequential reading -/

theorem stream_mark_n_ok {α : Type} (n : Nat) :
    ∀ s : stream_t α, s.marks_idx + n ≤ 127 →
      ∃ s', stream_mark_n n s = .ok s' ∧ s'.marks_idx = s.marks_idx + n := by
  induction n with
  | zero => intro s _; exact ⟨s, rfl, rfl⟩
  | succ n ih =>
    intro s h
    have hlt : ¬ s.marks_idx ≥ 127 := by omega
    obtain ⟨s', h1, h2⟩ := ih { s with marks := s.marks.set s.marks_idx s.tokens_idx
                                       marks_idx := s.marks_idx + 1 } (by simp only; omega)
    refine ⟨s', ?_, by rw [h2]; simp only; omega⟩
    simp only [stream_mark_n, stream_create_mark, if_neg hlt]
    exact h1

theorem stream_mark_n_succ {α : Type} (n : Nat) :
    ∀ s : stream_t α, stream_mark_n (n + 1) s = (stream_mark_n n s).bind stream_create_mark := by
  induction n with
  | zero =>
    intro s
    cases h : stream_create_mark s <;> simp [stream_mark_n, h, Except.bind]
  | succ n ih =>
    intro s
    rw [stream_mark_n]
    cases h : stream_create_mark s with
    | error e => simp only [stream_mark_n, h]; rfl
    | ok s' => simp only [ih s']; rw [stream_mark_n, h]

/-- Claim C12 (failing input). On a fresh stream over any token list, 127 consecutive
`mark()` calls succeed and leave 127 outstanding marks; the next `mark()`, the 128th,
fails with "Too many marks in stream" although only 127 of the 128 slots are in use, so
a run of 128 consecutive `mark()` calls does not succeed. -/
theorem stream_mark_128th_fails (α : Type) (tokens : List α) :
    ∃ s : stream_t α, stream_mark_n 127 ( stream_initialize tokens) = .ok s
      ∧ s.marks_idx = 127
      ∧ stream_create_mark s = .error "Too many marks in stream"
      ∧ stream_mark_n 128 ( stream_initialize tokens) = .error "Too many marks in stream" := by
  obtain ⟨s, h1, h2⟩ := stream_mark_n_ok 127 ( stream_initialize tokens) (by
    simp [ stream_initialize])
  have h3 : s.marks_idx = 127 := by rw [h2]; simp [ stream_initialize]
  have h4 : stream_create_mark s = .error "Too many marks in stream" := by
    simp [stream_create_mark, h3]
  refine ⟨s, h1, h3, h4, ?_⟩
  rw [stream_mark_n_succ, h1]
  exact h4

theorem stream_advance_succ {α : Type} (n : Nat) :
    ∀ s : stream_t α, stream_advance (n + 1) s = stream_consume_c (stream_advance n s) := by
  induction n with
  | zero => intro s; rfl
  | succ n ih => intro s; rw [stream_advance, ih (stream_consume_c s)]; rfl

theorem stream_advance_state {α : Type} (L : List α) (k : Nat) :
    (stream_advance k ( stream_initialize L)).tokens = L
      ∧ (stream_advance k ( stream_initialize L)).tokens_len = L.length
      ∧ (stream_advance k ( stream_initialize L)).tokens_idx = min k (L.length - 1)
      ∧ (stream_advance k ( stream_initialize L)).look0 = L.get? k
      ∧ (stream_advance k ( stream_initialize L)).look1 = L.get? (k + 1) := by
  induction k with
  | zero =>
    refine ⟨rfl, rfl, by simp [stream_advance, stream_initialize], ?_, ?_⟩
    · simp only [stream_advance, stream_initialize, rb_ary_entry]
      split
      · rfl
      · rw [List.get?_eq_none.mpr (by omega)]
    · simp only [stream_advance, stream_initialize, rb_ary_entry]
      split
      · rfl
      · rw [List.get?_eq_none.mpr (by omega)]
  | succ k ih =>
    obtain ⟨h1, h2, h3, h4, h5⟩ := ih
    rw [stream_advance_succ]
    generalize stream_advance k ( stream_initialize L) = s at h1 h2 h3 h4 h5
    obtain ⟨tokens, idx, len, l0, l1, marks, midx⟩ := s
    simp only at h1 h2 h3 h4 h5
    subst h1 h2 h4 h5
    by_cases hk : k + 1 < tokens.length
    · have hi : idx = k := by omega
      subst hi
      have hc : idx < tokens.length ∧ idx + 1 < tokens.length := by omega
      simp only [stream_consume_c, if_pos hc, stream_rotate, rb_ary_entry]
      refine ⟨trivial, trivial, by omega, trivial, ?_⟩
      split
      · rfl
      · rw [List.get?_eq_none.mpr (by omega)]
    · have hc : ¬ (idx < tokens.length ∧ idx + 1 < tokens.length) := by omega
      have hn : ¬ (idx + 1 < tokens.length) := by omega
      simp only [stream_consume_c, if_neg hc, stream_rotate, rb_ary_entry, if_neg hn]
      refine ⟨trivial, trivial, by omega, trivial, ?_⟩
      rw [List.get?_eq_none.mpr (by omega)]

/-- Claim C13. For every token list `L` and every `k`, on a fresh stream over `L` after
`k` calls of `consume`/`discard`: `peek()` is `L[k]` when `k < |L|` and no value otherwise,
`peek_next()` is `L[k+1]` when `k + 1 < |L|` and no value otherwise, and the next
`consume()` returns exactly what `peek()` returns and leaves the stream in the state after
`k + 1` calls. So `consume()` yields `L[0], …, L[|L|-1]` once each and then no value. -/
theorem stream_sequential_reading (α : Type) (L : List α) (k : Nat) :
    stream_peek (stream_advance k ( stream_initialize L)) = L.get? k
      ∧ stream_peek1 (stream_advance k ( stream_initialize L)) = L.get? (k + 1)
      ∧ stream_consume (stream_advance k ( stream_initialize L))
          = (L.get? k, stream_advance (k + 1) ( stream_initialize L))
      ∧ stream_discard (stream_advance k ( stream_initialize L))
          = stream_advance (k + 1) ( stream_initialize L) := by
  obtain ⟨_, _, _, h4, h5⟩ := stream_advance_state L k
  refine ⟨h4, h5, ?_, ?_⟩
  · rw [stream_consume, h4, stream_advance_succ]
  · rw [stream_discard, stream_advance_succ]

/-! ### Concrete runs of the scanner -/

/-- Claim C17 (failing input). On `<a b="x{{y` the block opened inside the string is
never closed, `scanner_consume_executable` pushes no token, and the amend rewrites the
token pushed just before it: the final list has no `string_interpolation` token, and the
token covering `x` (offsets `[6, 7)`), pushed as `string_interpolation` with its quote
character, ends with kind `interpolated_executable`. With the block closed
(`<a b="x{{y}}z">`) the same token keeps kind `string_interpolation` and the amended token
is the block `[9, 10)`. -/
theorem tokenize_unclosed_interpolation_amends_text :
    (tokens_of (tokenize_text 30 (cps "<a b=\"x\x7b\x7by"))).map (List.map Token.span)
        = some [(Kind.tag_begin, 0, 2, none), (Kind.attr_key, 3, 4, none),
                (Kind.equal, 4, 5, none), (Kind.interpolated_executable, 6, 7, some 34),
                (Kind.string, 10, 10, some 34)]
      ∧ errors_of (tokenize_text 30 (cps "<a b=\"x\x7b\x7by"))
        = some ["Unmatched \x7b\x7b block at line 1, column 11, offset 10",
                "Unterminated string value at line 1, column 11, offset 10"]
      ∧ (tokens_of (tokenize_text 30 (cps "<a b=\"x\x7b\x7by\x7d\x7dz\">"))).map
          (List.map Token.span)
        = some [(Kind.tag_begin, 0, 2, none), (Kind.attr_key, 3, 4, none),
                (Kind.equal, 4, 5, none), (Kind.string_interpolation, 6, 7, some 34),
                (Kind.interpolated_executable, 9, 10, none), (Kind.string, 12, 13, some 34),
                (Kind.right_angled, 14, 15, none)] := by
  refine ⟨?_, ?_, ?_⟩ <;> decide

/-- Claim C20 (failing input). On `</a 1>` the closing-tag attribute loop, guarded by
`scanner_is_tag_ident`, scans `1` as an attribute: the token list holds an `attr_key`
token whose text is `1`, and `1` is not a letter. The opening-tag loop, guarded by
`scanner_is_letter`, does not: on `<a 1>` the `1` starts a literal. -/
theorem tokenize_closing_tag_attr_key_digit :
    (tokens_of (tokenize_text 30 (cps "</a 1>"))).map (List.map Token.summary)
        = some [(Kind.tag_closing_start, some (cps "</a"), none),
                (Kind.attr_key, some (cps "1"), none),
                (Kind.tag_closing_end, some (cps ">"), none)]
      ∧ errors_of (tokenize_text 30 (cps "</a 1>")) = some []
      ∧ scanner_is_letter 49 = false
      ∧ (tokens_of (tokenize_text 30 (cps "<a 1>"))).map (List.map Token.summary)
        = some [(Kind.tag_begin, some (cps "<a"), none),
                (Kind.literal, some (cps "1>"), none)] := by
  refine ⟨?_, ?_, ?_, ?_⟩ <;> decide

/-- Claim C14 (counterexample). On `<a b="x{{y}}z">` tokenizing completes without an
error and the token covering `x` carries the quote character `"` although its kind is
`string_interpolation`, not `string`. -/
theorem tokenize_interpolation_carries_quote :
    errors_of (tokenize_text 30 (cps "<a b=\"x\x7b\x7by\x7d\x7dz\">")) = some []
      ∧ ∃ toks, tokens_of (tokenize_text 30 (cps "<a b=\"x\x7b\x7by\x7d\x7dz\">")) = some toks
          ∧ ∃ v ∈ toks, v.quote_char = some 34 ∧ v.kind = Kind.string_interpolation
              ∧ v.kind ≠ Kind.string := by
  refine ⟨by decide, _, rfl, ?_⟩
  decide

/-! ### The scan invariant on arbitrary bytes -/

theorem posOf_succ (str : List Nat) (k : Nat) :
    posOf str (k + 1) = posStepCp (posOf str k) (cpAt str k) := by
  simp only [posOf, decoded, List.range_succ, List.map_append, List.foldl_append,
    List.map_cons, List.map_nil, List.foldl_cons, List.foldl_nil]

theorem Shape_at_start (str : List Nat) : Shape str ( scanner_initialize str) := by
  refine ⟨rfl, rfl, rfl, rfl, rfl, rfl, rfl, rfl, rfl, ?_⟩
  intro i hi
  exact absurd hi (Nat.not_lt_zero i)

theorem scanner_consume_eof (t : scanner_t) (h : t.look0 = EOF_CP) : scanner_consume t = t := by
  simp only [scanner_consume, if_pos h]

theorem scanner_consume_idx (t : scanner_t) (h : t.look0 ≠ EOF_CP) :
    (scanner_consume t).idx_cp = t.idx_cp + 1 := by
  simp only [scanner_consume, if_neg h, scanner_rotate]
  split <;> rfl

theorem scanner_consume_Keeps (t : scanner_t) : Keeps t (scanner_consume t) := by
  by_cases h : t.look0 = EOF_CP
  · rw [scanner_consume_eof t h]; exact ⟨rfl, rfl, rfl, rfl, rfl⟩
  · simp only [scanner_consume, if_neg h, scanner_rotate]
    split <;> exact ⟨rfl, rfl, rfl, rfl, rfl⟩

theorem scanner_consume_idx_le (t : scanner_t) : t.idx_cp ≤ (scanner_consume t).idx_cp := by
  by_cases h : t.look0 = EOF_CP
  · rw [scanner_consume_eof t h]
  · rw [scanner_consume_idx t h]; exact Nat.le_succ _

theorem Shape_consume {str : List Nat} {t : scanner_t} (h : Shape str t) :
    Shape str (scanner_consume t) := by
  by_cases h0 : t.look0 = EOF_CP
  · rw [scanner_consume_eof t h0]; exact h
  · have hpos := posOf_succ str t.idx_cp
    have hv : ∀ i, i < t.idx_cp + 1 → cpAt str i ≠ EOF_CP := by
      intro i hi
      by_cases e : i = t.idx_cp
      · rw [e, ← h.h0]; exact h0
      · exact h.valid i (by omega)
    have e5 : t.idx_cp + 1 + 4 = (t.idx_cp + 4) + 1 := by omega
    have e1 : t.idx_cp + 1 + 1 = t.idx_cp + 2 := by omega
    have e2 : t.idx_cp + 1 + 2 = t.idx_cp + 3 := by omega
    have e3 : t.idx_cp + 1 + 3 = t.idx_cp + 4 := by omega
    by_cases hn : t.look0 = NEWLINE
    · have hp : posOf str (t.idx_cp + 1) = ((posOf str t.idx_cp).1 + 1, 1) := by
        rw [hpos, posStepCp, ← h.h0, if_pos hn]
      simp only [scanner_consume, if_neg h0, if_pos hn, scanner_rotate]
      refine ⟨h.hstr, h.hend, ?_, h.h1, ?_, ?_, ?_, ?_, ?_, hv⟩
      · simp only [e5, pAt, h.hstr, h.hp, h.hend]
      · simp only [e1]; exact h.h2
      · simp only [e2]; exact h.h3
      · simp only [e3, cpAt, h.hstr, h.hp, h.hend]
      · simp only [hp, h.hline]
      · simp only [hp]
    · have hp : posOf str (t.idx_cp + 1) = ((posOf str t.idx_cp).1, (posOf str t.idx_cp).2 + 1) := by
        rw [hpos, posStepCp, ← h.h0, if_neg hn]
      simp only [scanner_consume, if_neg h0, if_neg hn, scanner_rotate]
      refine ⟨h.hstr, h.hend, ?_, h.h1, ?_, ?_, ?_, ?_, ?_, hv⟩
      · simp only [e5, pAt, h.hstr, h.hp, h.hend]
      · simp only [e1]; exact h.h2
      · simp only [e2]; exact h.h3
      · simp only [e3, cpAt, h.hstr, h.hp, h.hend]
      · simp only [hp, h.hline]
      · simp only [hp, h.hcol]

theorem Inv_consume {str : List Nat} {t : scanner_t} (h : Inv str t) :
    Inv str (scanner_consume t) := by
  have k := scanner_consume_Keeps t
  refine ⟨Shape_consume h.shape, ?_, ?_⟩
  · rw [k.tokens]; exact h.toks
  · rw [k.tokens, k.errors]; exact h.quote

theorem Started_of_Keeps {str : List Nat} {t t1 : scanner_t} (h : Started str t)
    (k : Keeps t t1) (hle : t.idx_cp ≤ t1.idx_cp) : Started str t1 := by
  refine ⟨?_, ?_, ?_⟩
  · rw [k.offset]; exact le_trans h.le hle
  · rw [k.line, k.offset]; exact h.line
  · rw [k.column, k.offset]; exact h.column

theorem Started_consume {str : List Nat} {t : scanner_t} (h : Started str t) :
    Started str (scanner_consume t) :=
  Started_of_Keeps h (scanner_consume_Keeps t) (scanner_consume_idx_le t)

theorem Ext_refl (t : scanner_t) : Ext t t := ⟨le_refl _, [], (List.append_nil _).symm⟩

theorem Ext_trans {a b c : scanner_t} (h1 : Ext a b) (h2 : Ext b c) : Ext a c := by
  obtain ⟨l1, X, hX⟩ := h1
  obtain ⟨l2, Y, hY⟩ := h2
  exact ⟨le_trans l1 l2, X ++ Y, by rw [hY, hX, List.append_assoc]⟩

theorem Ext_of_Keeps {t t1 : scanner_t} (k : Keeps t t1) (hle : t.idx_cp ≤ t1.idx_cp) :
    Ext t t1 := ⟨hle, [], by rw [k.tokens, List.append_nil]⟩

theorem Ext_consume (t : scanner_t) : Ext t (scanner_consume t) :=
  Ext_of_Keeps (scanner_consume_Keeps t) (scanner_consume_idx_le t)

theorem Keeps_refl (t : scanner_t) : Keeps t t := ⟨rfl, rfl, rfl, rfl, rfl⟩

theorem Keeps_trans {a b c : scanner_t} (h1 : Keeps a b) (h2 : Keeps b c) : Keeps a c :=
  ⟨h2.offset.trans h1.offset, h2.line.trans h1.line, h2.column.trans h1.column,
    h2.tokens.trans h1.tokens, h2.errors.trans h1.errors⟩

theorem Inv_start_token {str : List Nat} {t : scanner_t} (h : Inv str t) :
    Inv str (scanner_start_token t) ∧ Started str (scanner_start_token t)
      ∧ Ext t (scanner_start_token t) :=
  ⟨⟨⟨h.shape.hstr, h.shape.hend, h.shape.hp, h.shape.h0, h.shape.h1, h.shape.h2, h.shape.h3,
      h.shape.hline, h.shape.hcol, h.shape.valid⟩, h.toks, h.quote⟩,
    ⟨le_refl _, h.shape.hline, h.shape.hcol⟩, ⟨le_refl _, [], (List.append_nil _).symm⟩⟩

theorem Inv_push_error {str : List Nat} {t : scanner_t} (h : Inv str t) (what : String) :
    Inv str (scanner_push_error t what) ∧ Ext t (scanner_push_error t what) := by
  refine ⟨⟨⟨h.shape.hstr, h.shape.hend, h.shape.hp, h.shape.h0, h.shape.h1, h.shape.h2,
      h.shape.h3, h.shape.hline, h.shape.hcol, h.shape.valid⟩, h.toks, ?_⟩,
    ⟨le_refl _, [], (List.append_nil _).symm⟩⟩
  intro he
  exact h.quote fun e hm => he e (List.mem_append_left _ hm)

theorem Started_push_error {str : List Nat} {t : scanner_t} (h : Started str t) (what : String) :
    Started str (scanner_push_error t what) := ⟨h.le, h.line, h.column⟩

theorem TokOK_push {str : List Nat} {t : scanner_t} (h : Inv str t) (s : Started str t)
    (kind : Kind) (hl : kind = Kind.literal → LitOK str t.start_token_offset t.idx_cp)
    (q : Option Int) :
    TokOK str (pushedToken t kind q) :=
  ⟨s.le, s.line, s.column, h.shape.hline, h.shape.hcol, hl, h.shape.valid⟩

theorem Shape_tokens {str : List Nat} {t : scanner_t} (h : Shape str t) (toks : List Token) :
    Shape str { t with tokens := toks } :=
  ⟨h.hstr, h.hend, h.hp, h.h0, h.h1, h.h2, h.h3, h.hline, h.hcol, h.valid⟩

theorem Inv_push {str : List Nat} {t : scanner_t} (h : Inv str t) (s : Started str t)
    (kind : Kind) (hl : kind = Kind.literal → LitOK str t.start_token_offset t.idx_cp) :
    Inv str (scanner_push_token_simple t kind)
      ∧ Started str (scanner_push_token_simple t kind)
      ∧ Ext t (scanner_push_token_simple t kind) := by
  refine ⟨⟨Shape_tokens h.shape _, ?_, ?_⟩, ⟨s.le, s.line, s.column⟩, ⟨le_refl _, _, rfl⟩⟩
  · intro v hv
    rcases List.mem_append.mp hv with hv | hv
    · exact h.toks v hv
    · rw [List.mem_singleton.mp hv]; exact TokOK_push h s kind hl none
  · intro he v hv hq
    rcases List.mem_append.mp hv with hv | hv
    · exact h.quote he v hv hq
    · rw [List.mem_singleton.mp hv] at hq; exact absurd rfl hq

theorem Inv_push_quoted {str : List Nat} {t : scanner_t} (h : Inv str t) (s : Started str t)
    (kind : Kind) (hk : kind = Kind.string ∨ kind = Kind.string_interpolation) (q : Int) :
    Inv str (scanner_set_string_quote_value (scanner_push_token_simple t kind) q)
      ∧ Started str (scanner_set_string_quote_value (scanner_push_token_simple t kind) q)
      ∧ Ext t (scanner_set_string_quote_value (scanner_push_token_simple t kind) q)
      ∧ (∃ v, (scanner_set_string_quote_value (scanner_push_token_simple t kind) q).tokens
            = t.tokens ++ [v])
      ∧ (scanner_set_string_quote_value (scanner_push_token_simple t kind) q).errors
          = t.errors := by
  have hne : kind ≠ Kind.literal := by rcases hk with hk | hk <;> rw [hk] <;> decide
  have e : (scanner_set_string_quote_value (scanner_push_token_simple t kind) q).tokens
      = t.tokens ++ [pushedToken t kind (some (q % 256))] := by
    simp only [scanner_set_string_quote_value, scanner_push_token_simple, amend_last_snoc,
      pushedToken]
  refine ⟨⟨Shape_tokens (Shape_tokens h.shape _) _, ?_, ?_⟩, ⟨s.le, s.line, s.column⟩,
    ⟨le_refl _, _, e⟩, ⟨_, e⟩, rfl⟩
  · intro v hv
    rw [e] at hv
    rcases List.mem_append.mp hv with hv | hv
    · exact h.toks v hv
    · rw [List.mem_singleton.mp hv]
      exact TokOK_push h s kind (fun hk => absurd hk hne) _
  · intro he v hv hq
    rw [e] at hv
    rcases List.mem_append.mp hv with hv | hv
    · exact h.quote he v hv hq
    · rw [List.mem_singleton.mp hv]; exact hk

theorem mem_amend_last (f : Token → Token) :
    ∀ (l : List Token) (w : Token), w ∈ amend_last f l → w ∈ l ∨ ∃ v ∈ l, w = f v
  | [], w, h => Or.inl h
  | [v], w, h => Or.inr ⟨v, List.mem_singleton.mpr rfl, List.mem_singleton.mp h⟩
  | v :: u :: rest, w, h => by
    rw [amend_last] at h
    rcases List.mem_cons.mp h with h | h
    · exact Or.inl (h ▸ List.mem_cons_self _ _)
    · rcases mem_amend_last f (u :: rest) w h with h | ⟨x, hx, e⟩
      · exact Or.inl (List.mem_cons_of_mem _ h)
      · exact Or.inr ⟨x, List.mem_cons_of_mem _ hx, e⟩

theorem amend_last_append_cons (f : Token → Token) (x : Token) (m : List Token) :
    ∀ l : List Token, amend_last f (l ++ x :: m) = l ++ amend_last f (x :: m)
  | [] => rfl
  | [a] => rfl
  | a :: b :: l => by
    have ih := amend_last_append_cons f x m (b :: l)
    rw [List.cons_append, List.cons_append, amend_last, ← List.cons_append, ih]
    rfl

theorem Inv_amend {str : List Nat} {t : scanner_t} (h : Inv str t) (p : ExecPost t) :
    Inv str (scanner_amend_last_token_kind t Kind.interpolated_executable) := by
  refine ⟨Shape_tokens h.shape _, ?_, ?_⟩
  · intro w hw
    rcases mem_amend_last _ _ w hw with hw | ⟨v, hv, e⟩
    · exact h.toks w hw
    · have k := h.toks v hv
      rw [e]
      exact ⟨k.ordered, k.start_line, k.start_column, k.end_line, k.end_column,
        (fun hk => by cases hk), k.real⟩
  · intro he w hw hq
    rcases p with ⟨l, v, hl, hv⟩ | ⟨e, hm, hu⟩
    · have e1 : (scanner_amend_last_token_kind t Kind.interpolated_executable).tokens
          = l ++ [{ v with kind := Kind.interpolated_executable }] := by
        simp only [scanner_amend_last_token_kind, hl, amend_last_snoc]
      rw [e1] at hw
      rcases List.mem_append.mp hw with hw | hw
      · exact h.quote he w (by rw [hl]; exact List.mem_append_left _ hw) hq
      · rw [List.mem_singleton.mp hw] at hq; exact absurd hv hq
    · exact absurd hu (he e hm)

theorem errStr_starts_with (what : String) (t : scanner_t) (h : what.length ≤ 126) :
    what.toList <+: (errStr what t).toList := by
  have h1 : what.data.length ≤ 126 := h
  simp only [errStr, String.toList, List.append_assoc]
  rw [List.take_append_eq_append_take, List.take_of_length_le h1]
  exact List.prefix_append _ _

theorem scanner_consume_executable_loop_post :
    ∀ (fuel : Nat) (lvl : Int) (t t1 : scanner_t),
      scanner_consume_executable_loop fuel lvl t = some t1 → ExecPost t1 := by
  intro fuel
  induction fuel with
  | zero => intro lvl t t1 h; cases h
  | succ n ih =>
    intro lvl t t1 h
    rw [scanner_consume_executable_loop] at h
    by_cases h0 : t.look0 ≠ EOF_CP
    · rw [if_pos h0] at h
      by_cases hc : lvl = 0 ∧ t.look0 = CURLY_RIGHT ∧ t.look1 = CURLY_RIGHT
      · rw [if_pos hc] at h
        have e := Option.some.inj h
        left
        refine ⟨t.tokens, pushedToken t Kind.executable none, ?_, rfl⟩
        rw [← e, (scanner_consume_Keeps _).tokens, (scanner_consume_Keeps _).tokens]
        rfl
      · rw [if_neg hc] at h
        exact ih _ _ _ h
    · rw [if_neg h0] at h
      have e := Option.some.inj h
      right
      refine ⟨errStr "Unmatched \x7b\x7b block" t, ?_, errStr_starts_with _ t (by decide)⟩
      rw [← e]
      exact List.mem_append_right _ (List.mem_singleton.mpr rfl)

theorem consume_while_Inv {str : List Nat} (P : Int → Bool) :
    ∀ (fuel : Nat) (t t1 : scanner_t), consume_while P fuel t = some t1 → Inv str t →
      Inv str t1 ∧ Keeps t t1 ∧ t.idx_cp ≤ t1.idx_cp := by
  intro fuel
  induction fuel with
  | zero => intro t t1 h; simp [consume_while] at h
  | succ n ih =>
    intro t t1 h hi
    rw [consume_while] at h
    split at h
    · obtain ⟨a, b, c⟩ := ih _ _ h (Inv_consume hi)
      exact ⟨a, Keeps_trans (scanner_consume_Keeps t) b, le_trans (scanner_consume_idx_le t) c⟩
    · obtain rfl := Option.some.inj h
      exact ⟨hi, Keeps_refl _, le_refl _⟩

theorem scanner_consume_unquoted_attr_value_loop_Inv {str : List Nat} :
    ∀ (fuel : Nat) (b : Bool) (t : scanner_t) (r : Bool × scanner_t),
      scanner_consume_unquoted_attr_value_loop fuel b t = some r → Inv str t →
        Inv str r.2 ∧ Keeps t r.2 ∧ t.idx_cp ≤ r.2.idx_cp := by
  intro fuel
  induction fuel with
  | zero => intro b t r h; simp [scanner_consume_unquoted_attr_value_loop] at h
  | succ n ih =>
    intro b t r h hi
    rw [scanner_consume_unquoted_attr_value_loop] at h
    split at h
    · obtain ⟨a, b, c⟩ := ih _ _ _ h (Inv_consume hi)
      exact ⟨a, Keeps_trans (scanner_consume_Keeps t) b, le_trans (scanner_consume_idx_le t) c⟩
    · obtain rfl := Option.some.inj h
      exact ⟨hi, Keeps_refl _, le_refl _⟩

theorem not_literal_of_eq {k : Kind} {P : Prop} (h : k ≠ Kind.literal) : k = Kind.literal → P :=
  fun e => absurd e h

theorem scanner_consume_unquoted_attr_value_Inv {str : List Nat} (fuel : Nat) (t t1 : scanner_t)
    (h : scanner_consume_unquoted_attr_value fuel t = some t1) (hi : Inv str t)
    (hs : Started str t) : Inv str t1 ∧ Ext t t1 := by
  rw [scanner_consume_unquoted_attr_value, Option.map_eq_some'] at h
  obtain ⟨r, hr, e⟩ := h
  obtain ⟨a, b, c⟩ := scanner_consume_unquoted_attr_value_loop_Inv fuel false t r hr hi
  split at e
  · obtain ⟨p1, _, p3⟩ := Inv_push a (Started_of_Keeps hs b c) Kind.attr_value_unquoted
      (not_literal_of_eq (by decide))
    rw [← e]
    exact ⟨p1, Ext_trans (Ext_of_Keeps b c) p3⟩
  · rw [← e]
    exact ⟨a, Ext_of_Keeps b c⟩

theorem scanner_consume_executable_loop_Inv {str : List Nat} :
    ∀ (fuel : Nat) (lvl : Int) (t t1 : scanner_t),
      scanner_consume_executable_loop fuel lvl t = some t1 → Inv str t → Started str t →
        Inv str t1 ∧ Ext t t1 := by
  intro fuel
  induction fuel with
  | zero => intro lvl t t1 h; cases h
  | succ n ih =>
    intro lvl t t1 h hi hs
    rw [scanner_consume_executable_loop] at h
    by_cases h0 : t.look0 ≠ EOF_CP
    · rw [if_pos h0] at h
      by_cases hc : lvl = 0 ∧ t.look0 = CURLY_RIGHT ∧ t.look1 = CURLY_RIGHT
      · rw [if_pos hc] at h
        obtain rfl := Option.some.inj h
        obtain ⟨p1, _, p3⟩ := Inv_push hi hs Kind.executable (not_literal_of_eq (by decide))
        exact ⟨Inv_consume (Inv_consume p1),
          Ext_trans p3 (Ext_trans (Ext_consume _) (Ext_consume _))⟩
      · rw [if_neg hc] at h
        obtain ⟨a, b⟩ := ih _ _ _ h (Inv_consume hi) (Started_consume hs)
        exact ⟨a, Ext_trans (Ext_consume _) b⟩
    · rw [if_neg h0] at h
      obtain rfl := Option.some.inj h
      exact Inv_push_error hi _

theorem scanner_consume_executable_Inv {str : List Nat} (fuel : Nat) (t t1 : scanner_t)
    (h : scanner_consume_executable fuel t = some t1) (hi : Inv str t) :
    Inv str t1 ∧ Ext t t1 ∧ ExecPost t1 := by
  rw [scanner_consume_executable] at h
  obtain ⟨a, b, c⟩ := Inv_start_token (Inv_consume (Inv_consume hi))
  obtain ⟨d, e⟩ := scanner_consume_executable_loop_Inv fuel 0 _ t1 h a b
  exact ⟨d, Ext_trans (Ext_trans (Ext_consume _) (Ext_trans (Ext_consume _) c)) e,
    scanner_consume_executable_loop_post fuel 0 _ t1 h⟩

theorem Ext_amend {t t2 t3 : scanner_t} (v : Token) (h2 : t2.tokens = t.tokens ++ [v])
    (hle : t.idx_cp ≤ t2.idx_cp) (h3 : Ext t2 t3) (k : Kind) :
    Ext t (scanner_amend_last_token_kind t3 k) := by
  obtain ⟨l, X, hX⟩ := h3
  refine ⟨le_trans hle l, amend_last (fun v => { v with kind := k }) (v :: X), ?_⟩
  simp only [scanner_amend_last_token_kind, hX, h2, List.append_assoc, List.singleton_append,
    amend_last_append_cons]

theorem scanner_consume_string_loop_Inv {str : List Nat} (q : Int) :
    ∀ (fuel : Nat) (t t1 : scanner_t),
      scanner_consume_string_loop q fuel t = some t1 → Inv str t → Started str t →
        Inv str t1 ∧ Ext t t1 := by
  intro fuel
  induction fuel with
  | zero => intro t t1 h; cases h
  | succ n ih =>
    intro t t1 h hi hs
    rw [scanner_consume_string_loop] at h
    by_cases h0 : t.look0 ≠ EOF
    · rw [if_pos h0] at h
      by_cases hc1 : t.look0 = INVERTED_SOLIDUS ∧ t.look1 = q
      · rw [if_pos hc1] at h
        obtain ⟨a, b⟩ := ih _ _ h (Inv_consume (Inv_consume hi))
          (Started_consume (Started_consume hs))
        exact ⟨a, Ext_trans (Ext_trans (Ext_consume _) (Ext_consume _)) b⟩
      · rw [if_neg hc1] at h
        by_cases hc2 : t.look0 = q
        · rw [if_pos hc2] at h
          obtain rfl := Option.some.inj h
          obtain ⟨p1, _, p3, _⟩ := Inv_push_quoted hi hs Kind.string (Or.inl rfl) q
          exact ⟨Inv_consume p1, Ext_trans p3 (Ext_consume _)⟩
        · rw [if_neg hc2] at h
          by_cases hc3 : t.look0 = CURLY_LEFT ∧ t.look1 = CURLY_LEFT
          · rw [if_pos hc3, Option.bind_eq_some] at h
            obtain ⟨t3, h3, h4⟩ := h
            obtain ⟨p1, _, p3, ⟨v, p4⟩, _⟩ :=
              Inv_push_quoted hi hs Kind.string_interpolation (Or.inr rfl) q
            obtain ⟨a, b, c⟩ := scanner_consume_executable_Inv n _ t3 h3 p1
            obtain ⟨d, e, f⟩ := Inv_start_token (Inv_amend a c)
            obtain ⟨g, i⟩ := ih _ _ h4 d e
            exact ⟨g, Ext_trans (Ext_trans (Ext_amend v p4 p3.1 b _) f) i⟩
          · rw [if_neg hc3] at h
            obtain ⟨a, b⟩ := ih _ _ h (Inv_consume hi) (Started_consume hs)
            exact ⟨a, Ext_trans (Ext_consume _) b⟩
    · rw [if_neg h0] at h
      obtain rfl := Option.some.inj h
      obtain ⟨a, b⟩ := Inv_push_error hi "Unterminated string value"
      obtain ⟨p1, _, p3, _⟩ := Inv_push_quoted a (Started_push_error hs _) Kind.string
        (Or.inl rfl) q
      exact ⟨p1, Ext_trans b p3⟩

theorem scanner_consume_string_Inv {str : List Nat} (fuel : Nat) (t t1 : scanner_t)
    (h : scanner_consume_string fuel t = some t1) (hi : Inv str t) :
    Inv str t1 ∧ Ext t t1 := by
  rw [scanner_consume_string] at h
  obtain ⟨a, b, c⟩ := Inv_start_token (Inv_consume hi)
  obtain ⟨d, e⟩ := scanner_consume_string_loop_Inv _ fuel _ t1 h a b
  exact ⟨d, Ext_trans (Ext_trans (Ext_consume _) c) e⟩

theorem scanner_consume_attr_Inv {str : List Nat} (fuel : Nat) (t t1 : scanner_t)
    (h : scanner_consume_attr fuel t = some t1) (hi : Inv str t) : Inv str t1 ∧ Ext t t1 := by
  rw [scanner_consume_attr, Option.bind_eq_some] at h
  obtain ⟨u1, h1, h⟩ := h
  rw [Option.bind_eq_some] at h
  obtain ⟨u2, h2, h⟩ := h
  obtain ⟨a0, s0, x0⟩ := Inv_start_token hi
  rw [scanner_consume_attr_name_eq] at h1
  obtain ⟨a1, k1, l1⟩ := consume_while_Inv _ fuel _ u1 h1 a0
  obtain ⟨a2, s2, x2⟩ := Inv_push a1 (Started_of_Keeps s0 k1 l1) Kind.attr_key
    (not_literal_of_eq (by decide))
  rw [scanner_consume_spaces_eq] at h2
  obtain ⟨a3, k3, l3⟩ := consume_while_Inv _ fuel _ u2 h2 a2
  have x3 : Ext t u2 :=
    Ext_trans x0 (Ext_trans (Ext_of_Keeps k1 l1) (Ext_trans x2 (Ext_of_Keeps k3 l3)))
  split at h
  · rw [Option.bind_eq_some] at h
    obtain ⟨u3, h3, h⟩ := h
    obtain ⟨b0, c0, y0⟩ := Inv_start_token a3
    obtain ⟨b1, _, y1⟩ := Inv_push (Inv_consume b0) (Started_consume c0) Kind.equal
      (not_literal_of_eq (by decide))
    rw [scanner_consume_spaces_eq] at h3
    obtain ⟨b2, k2, l2⟩ := consume_while_Inv _ fuel _ u3 h3 b1
    have y2 : Ext t u3 :=
      Ext_trans x3 (Ext_trans y0 (Ext_trans (Ext_consume _) (Ext_trans y1 (Ext_of_Keeps k2 l2))))
    split at h
    · obtain ⟨c, d⟩ := scanner_consume_string_Inv fuel u3 t1 h b2
      exact ⟨c, Ext_trans y2 d⟩
    · split at h
      · obtain ⟨c, d, _⟩ := scanner_consume_executable_Inv fuel u3 t1 h b2
        exact ⟨c, Ext_trans y2 d⟩
      · obtain ⟨c0, c1, c2⟩ := Inv_start_token b2
        obtain ⟨c, d⟩ := scanner_consume_unquoted_attr_value_Inv fuel _ t1 h c0 c1
        exact ⟨c, Ext_trans y2 (Ext_trans c2 d)⟩
  · obtain rfl := Option.some.inj h
    exact ⟨a3, x3⟩

theorem scanner_consume_comment_tag_Inv {str : List Nat} :
    ∀ (fuel : Nat) (t t1 : scanner_t),
      scanner_consume_comment_tag fuel t = some t1 → Inv str t → Started str t →
        Inv str t1 ∧ Ext t t1 := by
  intro fuel
  induction fuel with
  | zero => intro t t1 h; cases h
  | succ n ih =>
    intro t t1 h hi hs
    rw [scanner_consume_comment_tag] at h
    split at h
    · split at h
      · obtain rfl := Option.some.inj h
        obtain ⟨a, _, b⟩ := Inv_push (Inv_consume (Inv_consume (Inv_consume hi)))
          (Started_consume (Started_consume (Started_consume hs))) Kind.tag_comment_end
          (not_literal_of_eq (by decide))
        exact ⟨a, Ext_trans (Ext_consume _) (Ext_trans (Ext_consume _)
          (Ext_trans (Ext_consume _) b))⟩
      · obtain ⟨a, b⟩ := ih _ _ h (Inv_consume hi) (Started_consume hs)
        exact ⟨a, Ext_trans (Ext_consume _) b⟩
    · obtain rfl := Option.some.inj h
      obtain ⟨a, b⟩ := Inv_push_error hi "Unterminated comment tag"
      obtain ⟨c, _, d⟩ := Inv_push a (Started_push_error hs _) Kind.tag_comment_end
        (not_literal_of_eq (by decide))
      exact ⟨c, Ext_trans b d⟩

theorem scanner_scan_open_tag_attrs_Inv {str : List Nat} :
    ∀ (fuel : Nat) (t t1 : scanner_t),
      scanner_scan_open_tag_attrs fuel t = some t1 → Inv str t → Inv str t1 ∧ Ext t t1 := by
  intro fuel
  induction fuel with
  | zero => intro t t1 h; cases h
  | succ n ih =>
    intro t t1 h hi
    rw [scanner_scan_open_tag_attrs] at h
    split at h
    · rw [Option.bind_eq_some] at h
      obtain ⟨u1, h1, h⟩ := h
      rw [Option.bind_eq_some] at h
      obtain ⟨u2, h2, h⟩ := h
      obtain ⟨a1, x1⟩ := scanner_consume_attr_Inv n t u1 h1 hi
      rw [scanner_consume_spaces_eq] at h2
      obtain ⟨a2, k2, l2⟩ := consume_while_Inv _ n _ u2 h2 a1
      obtain ⟨a3, x3⟩ := ih _ _ h a2
      exact ⟨a3, Ext_trans x1 (Ext_trans (Ext_of_Keeps k2 l2) x3)⟩
    · obtain rfl := Option.some.inj h
      exact ⟨hi, Ext_refl _⟩

theorem scanner_scan_closing_tag_attrs_Inv {str : List Nat} :
    ∀ (fuel : Nat) (t t1 : scanner_t),
      scanner_scan_closing_tag_attrs fuel t = some t1 → Inv str t → Inv str t1 ∧ Ext t t1 := by
  intro fuel
  induction fuel with
  | zero => intro t t1 h; cases h
  | succ n ih =>
    intro t t1 h hi
    rw [scanner_scan_closing_tag_attrs] at h
    split at h
    · rw [Option.bind_eq_some] at h
      obtain ⟨u1, h1, h⟩ := h
      rw [Option.bind_eq_some] at h
      obtain ⟨u2, h2, h⟩ := h
      obtain ⟨a1, x1⟩ := scanner_consume_attr_Inv n t u1 h1 hi
      rw [scanner_consume_spaces_eq] at h2
      obtain ⟨a2, k2, l2⟩ := consume_while_Inv _ n _ u2 h2 a1
      obtain ⟨a3, x3⟩ := ih _ _ h a2
      exact ⟨a3, Ext_trans x1 (Ext_trans (Ext_of_Keeps k2 l2) x3)⟩
    · obtain rfl := Option.some.inj h
      exact ⟨hi, Ext_refl _⟩

theorem scanner_scan_open_tag_Inv {str : List Nat} (fuel : Nat) (t t1 : scanner_t)
    (h : scanner_scan_open_tag fuel t = some t1) (hi : Inv str t) : Inv str t1 ∧ Ext t t1 := by
  rw [scanner_scan_open_tag] at h
  obtain ⟨a0, s0, x0⟩ := Inv_start_token hi
  split at h
  · obtain ⟨a1, s1, x1⟩ := Inv_push
      (Inv_consume (Inv_consume (Inv_consume (Inv_consume a0))))
      (Started_consume (Started_consume (Started_consume (Started_consume s0))))
      Kind.tag_begin (not_literal_of_eq (by decide))
    obtain ⟨a2, x2⟩ := scanner_consume_comment_tag_Inv fuel _ t1 h a1 s1
    exact ⟨a2, Ext_trans x0 (Ext_trans (Ext_consume _) (Ext_trans (Ext_consume _)
      (Ext_trans (Ext_consume _) (Ext_trans (Ext_consume _) (Ext_trans x1 x2)))))⟩
  · split at h
    · rw [Option.bind_eq_some] at h
      obtain ⟨u1, h1, h⟩ := h
      rw [Option.bind_eq_some] at h
      obtain ⟨u2, h2, h⟩ := h
      rw [scanner_consume_tag_ident_eq] at h1
      obtain ⟨a1, k1, l1⟩ := consume_while_Inv _ fuel _ u1 h1 (Inv_consume a0)
      obtain ⟨a2, _, x2⟩ := Inv_push a1 (Started_of_Keeps (Started_consume s0) k1 l1)
        Kind.tag_begin (not_literal_of_eq (by decide))
      rw [scanner_consume_spaces_eq] at h2
      obtain ⟨a3, k3, l3⟩ := consume_while_Inv _ fuel _ u2 h2 a2
      obtain ⟨a4, x4⟩ := scanner_scan_open_tag_attrs_Inv fuel u2 t1 h a3
      exact ⟨a4, Ext_trans x0 (Ext_trans (Ext_consume _) (Ext_trans (Ext_of_Keeps k1 l1)
        (Ext_trans x2 (Ext_trans (Ext_of_Keeps k3 l3) x4))))⟩
    · split at h
      · rw [Option.bind_eq_some] at h
        obtain ⟨u1, h1, h⟩ := h
        rw [Option.bind_eq_some] at h
        obtain ⟨u2, h2, h⟩ := h
        rw [Option.bind_eq_some] at h
        obtain ⟨u3, h3, h⟩ := h
        rw [Option.bind_eq_some] at h
        obtain ⟨u4, h4, h⟩ := h
        have b0 := Inv_consume (Inv_consume a0)
        have c0 := Started_consume (Started_consume s0)
        have y0 : Ext t (scanner_consume (scanner_consume (scanner_start_token t))) :=
          Ext_trans x0 (Ext_trans (Ext_consume _) (Ext_consume _))
        have r1 : Inv str u1 ∧ Started str u1 ∧ Ext t u1 := by
          simp only at h1
          split at h1
          · rw [scanner_consume_tag_ident_eq] at h1
            obtain ⟨a1, k1, l1⟩ := consume_while_Inv _ fuel _ u1 h1 b0
            exact ⟨a1, Started_of_Keeps c0 k1 l1, Ext_trans y0 (Ext_of_Keeps k1 l1)⟩
          · obtain rfl := Option.some.inj h1
            exact ⟨b0, c0, y0⟩
        obtain ⟨a1, s1, x1⟩ := r1
        obtain ⟨a2, _, x2⟩ := Inv_push a1 s1 Kind.tag_closing_start
          (not_literal_of_eq (by decide))
        rw [scanner_consume_spaces_eq] at h2 h4
        obtain ⟨a3, k3, l3⟩ := consume_while_Inv _ fuel _ u2 h2 a2
        obtain ⟨a4, x4⟩ := scanner_scan_closing_tag_attrs_Inv fuel u2 u3 h3 a3
        obtain ⟨a5, k5, l5⟩ := consume_while_Inv _ fuel _ u4 h4 a4
        have y5 : Ext t u4 :=
          Ext_trans x1 (Ext_trans x2 (Ext_trans (Ext_of_Keeps k3 l3)
            (Ext_trans x4 (Ext_of_Keeps k5 l5))))
        split at h
        · obtain rfl := Option.some.inj h
          obtain ⟨d0, e0, z0⟩ := Inv_start_token a5
          obtain ⟨d1, _, z1⟩ := Inv_push (Inv_consume d0) (Started_consume e0)
            Kind.tag_closing_end (not_literal_of_eq (by decide))
          exact ⟨d1, Ext_trans y5 (Ext_trans z0 (Ext_trans (Ext_consume _) z1))⟩
        · obtain rfl := Option.some.inj h
          exact ⟨a5, y5⟩
      · obtain rfl := Option.some.inj h
        exact ⟨hi, Ext_refl _⟩

theorem scanner_consume_literal_loop_Inv {str : List Nat} (s : Nat) :
    ∀ (fuel : Nat) (t t1 : scanner_t),
      scanner_consume_literal_loop fuel t = some t1 → Inv str t →
      (∀ i, s ≤ i → i < t.idx_cp → ¬ LitStop str i) →
        Inv str t1 ∧ Keeps t t1 ∧ t.idx_cp ≤ t1.idx_cp
          ∧ (∀ i, s ≤ i → i < t1.idx_cp → ¬ LitStop str i) ∧ LitStop str t1.idx_cp := by
  have hE : EOF = EOF_CP := rfl
  intro fuel
  induction fuel with
  | zero => intro t t1 h; cases h
  | succ n ih =>
    intro t t1 h hi hr
    have step : ¬ LitStop str t.idx_cp → scanner_consume_literal_loop n (scanner_consume t) = some t1 →
        Inv str t1 ∧ Keeps t t1 ∧ t.idx_cp ≤ t1.idx_cp
          ∧ (∀ i, s ≤ i → i < t1.idx_cp → ¬ LitStop str i) ∧ LitStop str t1.idx_cp := by
      intro hns h
      have hne : t.look0 ≠ EOF_CP := by
        rw [hi.shape.h0]; exact fun e => hns (Or.inr (Or.inl e))
      have hr1 : ∀ i, s ≤ i → i < (scanner_consume t).idx_cp → ¬ LitStop str i := by
        intro i h1 h2
        rw [scanner_consume_idx t hne] at h2
        by_cases e : i = t.idx_cp
        · rw [e]; exact hns
        · exact hr i h1 (by omega)
      obtain ⟨a, b, c, d, e⟩ := ih _ _ h (Inv_consume hi) hr1
      exact ⟨a, Keeps_trans (scanner_consume_Keeps t) b,
        le_trans (scanner_consume_idx_le t) c, d, e⟩
    rw [scanner_consume_literal_loop] at h
    by_cases c1 : t.look0 = ANGLED_LEFT
    · rw [if_pos c1] at h
      obtain rfl := Option.some.inj h
      exact ⟨hi, Keeps_refl _, le_refl _, hr, Or.inl (hi.shape.h0 ▸ c1)⟩
    · rw [if_neg c1] at h
      by_cases c2 : t.look0 = CURLY_LEFT
      · rw [if_pos c2] at h
        by_cases c3 : t.look1 = CURLY_LEFT
        · rw [if_pos c3] at h
          obtain rfl := Option.some.inj h
          exact ⟨hi, Keeps_refl _, le_refl _, hr,
            Or.inr (Or.inr ⟨hi.shape.h0 ▸ c2, hi.shape.h1 ▸ c3⟩)⟩
        · rw [if_neg c3] at h
          refine step ?_ h
          rintro (e | e | ⟨_, e⟩)
          · exact c1 (hi.shape.h0.trans e)
          · rw [← hi.shape.h0, c2] at e; exact absurd e (by decide)
          · exact c3 (hi.shape.h1.trans e)
      · rw [if_neg c2] at h
        by_cases c4 : t.look0 = EOF
        · rw [if_pos c4] at h
          obtain rfl := Option.some.inj h
          exact ⟨hi, Keeps_refl _, le_refl _, hr, Or.inr (Or.inl (hi.shape.h0 ▸ hE ▸ c4))⟩
        · rw [if_neg c4] at h
          refine step ?_ h
          rintro (e | e | ⟨e, _⟩)
          · exact c1 (hi.shape.h0.trans e)
          · exact c4 (hi.shape.h0.trans (e.trans hE.symm))
          · exact c2 (hi.shape.h0.trans e)

theorem scanner_consume_literal_Inv {str : List Nat} (fuel : Nat) (t t1 : scanner_t)
    (h : scanner_consume_literal fuel t = some t1) (hi : Inv str t)
    (hns : ¬ LitStop str t.idx_cp) : Inv str t1 ∧ Ext t t1 := by
  rw [scanner_consume_literal, Option.map_eq_some'] at h
  obtain ⟨u, hu, e⟩ := h
  obtain ⟨a0, s0, x0⟩ := Inv_start_token hi
  obtain ⟨a, k, l, r, st⟩ := scanner_consume_literal_loop_Inv t.idx_cp fuel _ u hu a0
    (fun i h1 h2 => absurd h2 (Nat.not_lt.mpr h1))
  have hlt : t.idx_cp < u.idx_cp := by
    rcases Nat.lt_or_ge t.idx_cp u.idx_cp with h | h
    · exact h
    · have e : u.idx_cp = t.idx_cp := le_antisymm h l
      rw [e] at st; exact absurd st hns
  have hso : u.start_token_offset = t.idx_cp := k.offset
  have hlit : LitOK str u.start_token_offset u.idx_cp := by
    rw [hso]
    refine ⟨hlt, fun i h1 h2 => ?_, st⟩
    have := r i h1 h2
    exact ⟨fun e => this (Or.inl e), fun e => this (Or.inr (Or.inl e)),
      fun e => this (Or.inr (Or.inr e))⟩
  obtain ⟨b, _, x⟩ := Inv_push a (Started_of_Keeps s0 k l) Kind.literal (fun _ => hlit)
  rw [← e]
  exact ⟨b, Ext_trans x0 (Ext_trans (Ext_of_Keeps k l) x)⟩

theorem scanner_scan_token_Inv {str : List Nat} (fuel : Nat) (t t1 : scanner_t)
    (h : scanner_scan_token fuel t = some t1) (hi : Inv str t) : Inv str t1 ∧ Ext t t1 := by
  have hE : EOF = EOF_CP := rfl
  rw [scanner_scan_token] at h
  obtain ⟨a0, s0, x0⟩ := Inv_start_token hi
  by_cases c1 : t.look0 = ANGLED_LEFT
  · rw [if_pos c1] at h
    exact scanner_scan_open_tag_Inv fuel t t1 h hi
  · rw [if_neg c1] at h
    by_cases c2 : t.look0 = ANGLED_RIGHT
    · rw [if_pos c2] at h
      obtain rfl := Option.some.inj h
      obtain ⟨a, _, x⟩ := Inv_push (Inv_consume a0) (Started_consume s0) Kind.right_angled
        (not_literal_of_eq (by decide))
      exact ⟨a, Ext_trans x0 (Ext_trans (Ext_consume _) x)⟩
    · rw [if_neg c2] at h
      by_cases c3 : t.look0 = SOLIDUS
      · rw [if_pos c3] at h
        split at h
        · obtain rfl := Option.some.inj h
          obtain ⟨a, _, x⟩ := Inv_push (Inv_consume (Inv_consume a0))
            (Started_consume (Started_consume s0)) Kind.tag_end (not_literal_of_eq (by decide))
          exact ⟨a, Ext_trans x0 (Ext_trans (Ext_consume _) (Ext_trans (Ext_consume _) x))⟩
        · refine scanner_consume_literal_Inv fuel t t1 h hi ?_
          rw [LitStop, ← hi.shape.h0, c3]
          rintro (e | e | ⟨e, _⟩) <;> exact absurd e (by decide)
      · rw [if_neg c3] at h
        by_cases c4 : t.look0 = CURLY_LEFT
        · rw [if_pos c4] at h
          by_cases c5 : t.look1 = CURLY_LEFT
          · rw [if_pos c5] at h
            obtain ⟨a, x, _⟩ := scanner_consume_executable_Inv fuel t t1 h hi
            exact ⟨a, x⟩
          · rw [if_neg c5] at h
            refine scanner_consume_literal_Inv fuel t t1 h hi ?_
            rw [LitStop, ← hi.shape.h0, ← hi.shape.h1, c4]
            rintro (e | e | ⟨_, e⟩)
            · exact absurd e (by decide)
            · exact absurd e (by decide)
            · exact c5 e
        · rw [if_neg c4] at h
          by_cases c6 : t.look0 = EOF
          · rw [if_pos c6] at h
            obtain rfl := Option.some.inj h
            exact ⟨hi, Ext_refl _⟩
          · rw [if_neg c6] at h
            refine scanner_consume_literal_Inv fuel t t1 h hi ?_
            rw [LitStop, ← hi.shape.h0]
            rintro (e | e | ⟨e, _⟩)
            · exact c1 e
            · exact c6 (e.trans hE.symm)
            · exact c4 e

theorem scanner_tokenize_loop_Inv {str : List Nat} :
    ∀ (fuel : Nat) (t t1 : scanner_t),
      scanner_tokenize_loop fuel t = some t1 → Inv str t →
        Inv str t1 ∧ Ext t t1 ∧ t1.look0 = EOF := by
  intro fuel
  induction fuel with
  | zero => intro t t1 h; cases h
  | succ n ih =>
    intro t t1 h hi
    rw [scanner_tokenize_loop] at h
    by_cases c : t.look0 ≠ EOF
    · rw [if_pos c, Option.bind_eq_some] at h
      obtain ⟨u, hu, h⟩ := h
      obtain ⟨a, x⟩ := scanner_scan_token_Inv n t u hu hi
      obtain ⟨b, y, z⟩ := ih _ _ h a
      exact ⟨b, Ext_trans x y, z⟩
    · rw [if_neg c] at h
      obtain rfl := Option.some.inj h
      exact ⟨hi, Ext_refl _, not_not.mp c⟩

theorem Inv_at_start (str : List Nat) : Inv str ( scanner_initialize str) :=
  ⟨Shape_at_start str, fun _ h => absurd h (List.not_mem_nil _),
    fun _ _ h => absurd h (List.not_mem_nil _)⟩

theorem TokOK_hydrated {str : List Nat} (chars : List Nat) {v : Token} (h : TokOK str v) :
    TokOK str (hydrated chars v) :=
  ⟨h.ordered, h.start_line, h.start_column, h.end_line, h.end_column, h.lit, h.real⟩

/-- A scan that returns: the state the loop stopped in satisfies the invariant, its
tokens are materialized without an exception, and the result is that state with the
materialized tokens. -/
theorem scanner_tokenize_Inv (str chars : List Nat) (fuel : Nat) (r : Except String scanner_t)
    (h : scanner_tokenize fuel chars ( scanner_initialize str) = some r) :
    ∃ t0, scanner_tokenize_loop fuel ( scanner_initialize str) = some t0 ∧ Inv str t0
      ∧ t0.look0 = EOF
      ∧ scanner_hydrate_tokens chars t0.tokens = .ok (t0.tokens.map (hydrated chars))
      ∧ r = .ok { t0 with tokens := t0.tokens.map (hydrated chars) } := by
  rw [scanner_tokenize, Option.map_eq_some'] at h
  obtain ⟨t0, h0, e⟩ := h
  obtain ⟨a, _, c⟩ := scanner_tokenize_loop_Inv fuel _ t0 h0 (Inv_at_start str)
  have hy := scanner_hydrate_tokens_ok chars t0.tokens fun v hv => (a.toks v hv).ordered
  refine ⟨t0, h0, a, c, hy, ?_⟩
  rw [← e, hy]

theorem posOf_eq (str : List Nat) (k : Nat) :
    posOf str k = (line_of (decoded str k), column_of (decoded str k)) := by
  induction k with
  | zero => rfl
  | succ k ih =>
    have e : decoded str (k + 1) = decoded str k ++ [cpAt str k] := by
      simp only [decoded, List.range_succ, List.map_append, List.map_cons, List.map_nil]
    rw [posOf_succ, ih, e, posStepCp]
    by_cases hn : cpAt str k = NEWLINE
    · rw [if_pos hn, hn]
      simp [line_of, column_of, List.count_append, List.takeWhile]
      omega
    · rw [if_neg hn]
      have hb : (cpAt str k != NEWLINE) = true := by simpa using hn
      simp [line_of, column_of, List.count_append, List.takeWhile, hn, hb,
        List.count_singleton]
      omega

theorem PositionAt_of_posOf (str : List Nat) (line column offset : Nat)
    (hr : ∀ i, i < offset → cpAt str i ≠ EOF_CP) (hl : line = (posOf str offset).1)
    (hc : column = (posOf str offset).2) : PositionAt str line column offset := by
  rw [posOf_eq] at hl hc
  exact ⟨hr, hl, hc⟩

/-- Claim C11. For every byte string `str` on which `tokenize` returns (with whatever
character list `chars` the host slices literals from), every token of the list the scan
produced has `end.offset ≥ start.offset`, materialization succeeds on that list, and the
result is not the "invalid offset boundaries" exception but a state whose tokens again
have `end.offset ≥ start.offset`. -/
theorem tokenize_offsets_ordered (str chars : List Nat) (fuel : Nat)
    (r : Except String scanner_t)
    (h : scanner_tokenize fuel chars ( scanner_initialize str) = some r) :
    ∃ t0 t, scanner_tokenize_loop fuel ( scanner_initialize str) = some t0
      ∧ (∀ v ∈ scanner_tokens t0, v.start_offset ≤ v.end_offset)
      ∧ scanner_hydrate_tokens chars (scanner_tokens t0) = .ok (scanner_tokens t)
      ∧ r = .ok t
      ∧ ∀ v ∈ scanner_tokens t, v.start_offset ≤ v.end_offset := by
  obtain ⟨t0, h0, a, _, hy, e⟩ := scanner_tokenize_Inv str chars fuel r h
  refine ⟨t0, { t0 with tokens := t0.tokens.map (hydrated chars) }, h0,
    fun v hv => (a.toks v hv).ordered, hy, e, ?_⟩
  intro v hv
  obtain ⟨w, hw, rfl⟩ := List.mem_map.mp hv
  exact (a.toks w hw).ordered

/-- Witness for C11: the bytes of `<a b="x{{y`, whose scan ends with an empty `string`
token. -/
theorem tokenize_offsets_ordered_witness :
    ∃ r, scanner_tokenize 30 (cps "<a b=\"x\x7b\x7by") ( scanner_initialize (cps "<a b=\"x\x7b\x7by"))
        = some r
      ∧ ∃ t0 t, scanner_tokenize_loop 30 ( scanner_initialize (cps "<a b=\"x\x7b\x7by")) = some t0
        ∧ (∀ v ∈ scanner_tokens t0, v.start_offset ≤ v.end_offset)
        ∧ scanner_hydrate_tokens (cps "<a b=\"x\x7b\x7by") (scanner_tokens t0)
            = .ok (scanner_tokens t)
        ∧ r = .ok t
        ∧ ∀ v ∈ scanner_tokens t, v.start_offset ≤ v.end_offset :=
  ⟨_, rfl, tokenize_offsets_ordered _ _ _ _ rfl⟩

/-- Claim C14 (amended). For every byte string on which `tokenize` returns without having
recorded an "Unmatched {{ block" error, every token that carries a `quote_char` has kind
`string` or `string_interpolation`. -/
theorem tokenize_quote_char_kinds (str chars : List Nat) (fuel : Nat) (t : scanner_t)
    (h : scanner_tokenize fuel chars ( scanner_initialize str) = some (.ok t))
    (hu : ∀ e ∈ scanner_errors t, ¬ Unmatched e) :
    ∀ v ∈ scanner_tokens t, v.quote_char ≠ none →
      v.kind = Kind.string ∨ v.kind = Kind.string_interpolation := by
  obtain ⟨t0, _, a, _, _, e⟩ := scanner_tokenize_Inv str chars fuel _ h
  obtain rfl := Except.ok.inj e
  intro v hv hq
  obtain ⟨w, hw, rfl⟩ := List.mem_map.mp hv
  exact a.quote hu w hw hq

/-- Witness for C14 (amended): the bytes of `<a b="x{{y}}z">`. -/
theorem tokenize_quote_char_kinds_witness :
    ∃ t, scanner_tokenize 30 (cps "<a b=\"x\x7b\x7by\x7d\x7dz\">")
          ( scanner_initialize (cps "<a b=\"x\x7b\x7by\x7d\x7dz\">")) = some (.ok t)
      ∧ (∀ e ∈ scanner_errors t, ¬ Unmatched e)
      ∧ ∀ v ∈ scanner_tokens t, v.quote_char ≠ none →
          v.kind = Kind.string ∨ v.kind = Kind.string_interpolation :=
  ⟨_, rfl, fun e he => absurd he (List.not_mem_nil e),
    tokenize_quote_char_kinds (cps "<a b=\"x\x7b\x7by\x7d\x7dz\">")
      (cps "<a b=\"x\x7b\x7by\x7d\x7dz\">") 30 _ rfl
      fun e he => absurd he (List.not_mem_nil e)⟩

/-- Claim C15. For every byte string on which `tokenize` returns, the start position and
the end position of every token, and the position `stats` reports, are consistent with
the decoded input: the first `offset` values the decoder returned are code points, `line`
is one more than the number of newlines among them, and `column` is one more than the
number of code points after the last of these newlines (or since the start). -/
theorem tokenize_positions_consistent (str chars : List Nat) (fuel : Nat) (t : scanner_t)
    (h : scanner_tokenize fuel chars ( scanner_initialize str) = some (.ok t)) :
    (∀ v ∈ scanner_tokens t,
        PositionAt str v.start_line v.start_column v.start_offset
          ∧ PositionAt str v.end_line v.end_column v.end_offset)
      ∧ PositionAt str (scanner_stats t).1 (scanner_stats t).2.1 (scanner_stats t).2.2 := by
  obtain ⟨t0, _, a, _, _, e⟩ := scanner_tokenize_Inv str chars fuel _ h
  obtain rfl := Except.ok.inj e
  refine ⟨?_, PositionAt_of_posOf _ _ _ _ a.shape.valid a.shape.hline a.shape.hcol⟩
  intro v hv
  obtain ⟨w, hw, rfl⟩ := List.mem_map.mp hv
  have k := a.toks w hw
  exact ⟨PositionAt_of_posOf _ _ _ _ (fun i hi => k.real i (lt_of_lt_of_le hi k.ordered))
      k.start_line k.start_column,
    PositionAt_of_posOf _ _ _ _ k.real k.end_line k.end_column⟩

/-- Claim C18. For every byte string on which `tokenize` returns, every `literal` token
is non-empty, no code point in its range is `<` (or the end-of-input sentinel), none is a
`{` followed by another `{`, and the value decoded at its end offset is `<`, the
end-of-input sentinel, or a `{` followed by `{`. -/
theorem tokenize_literal_tokens (str chars : List Nat) (fuel : Nat) (t : scanner_t)
    (h : scanner_tokenize fuel chars ( scanner_initialize str) = some (.ok t)) :
    ∀ v ∈ scanner_tokens t, v.kind = Kind.literal →
      v.start_offset < v.end_offset
        ∧ (∀ i, v.start_offset ≤ i → i < v.end_offset →
            cpAt str i ≠ ANGLED_LEFT ∧ cpAt str i ≠ EOF_CP
              ∧ ¬ (cpAt str i = CURLY_LEFT ∧ cpAt str (i + 1) = CURLY_LEFT))
        ∧ (cpAt str v.end_offset = ANGLED_LEFT ∨ cpAt str v.end_offset = EOF_CP
            ∨ (cpAt str v.end_offset = CURLY_LEFT
                ∧ cpAt str (v.end_offset + 1) = CURLY_LEFT)) := by
  obtain ⟨t0, _, a, _, _, e⟩ := scanner_tokenize_Inv str chars fuel _ h
  obtain rfl := Except.ok.inj e
  intro v hv hk
  obtain ⟨w, hw, rfl⟩ := List.mem_map.mp hv
  exact (a.toks w hw).lit hk

/-- Witness for C15: the bytes of a two-line text. -/
theorem tokenize_positions_consistent_witness :
    ∃ t, scanner_tokenize 30 (cps "a\nb<c d=1>") ( scanner_initialize (cps "a\nb<c d=1>"))
          = some (.ok t)
      ∧ (∀ v ∈ scanner_tokens t,
          PositionAt (cps "a\nb<c d=1>") v.start_line v.start_column v.start_offset
            ∧ PositionAt (cps "a\nb<c d=1>") v.end_line v.end_column v.end_offset)
      ∧ PositionAt (cps "a\nb<c d=1>") (scanner_stats t).1 (scanner_stats t).2.1
          (scanner_stats t).2.2 :=
  ⟨_, rfl, tokenize_positions_consistent (cps "a\nb<c d=1>") (cps "a\nb<c d=1>") 30 _ rfl⟩

/-- Witness for C18: the bytes of `a{b<c>d{{e}}`, with the literals `a{b` and `d`. -/
theorem tokenize_literal_tokens_witness :
    ∃ t, scanner_tokenize 30 (cps "a\x7bb<c>d\x7b\x7be\x7d\x7d")
          ( scanner_initialize (cps "a\x7bb<c>d\x7b\x7be\x7d\x7d")) = some (.ok t)
      ∧ ∀ v ∈ scanner_tokens t, v.kind = Kind.literal →
          v.start_offset < v.end_offset
            ∧ (∀ i, v.start_offset ≤ i → i < v.end_offset →
                cpAt (cps "a\x7bb<c>d\x7b\x7be\x7d\x7d") i ≠ ANGLED_LEFT
                  ∧ cpAt (cps "a\x7bb<c>d\x7b\x7be\x7d\x7d") i ≠ EOF_CP
                  ∧ ¬ (cpAt (cps "a\x7bb<c>d\x7b\x7be\x7d\x7d") i = CURLY_LEFT
                      ∧ cpAt (cps "a\x7bb<c>d\x7b\x7be\x7d\x7d") (i + 1) = CURLY_LEFT))
            ∧ (cpAt (cps "a\x7bb<c>d\x7b\x7be\x7d\x7d") v.end_offset = ANGLED_LEFT
                ∨ cpAt (cps "a\x7bb<c>d\x7b\x7be\x7d\x7d") v.end_offset = EOF_CP
                ∨ (cpAt (cps "a\x7bb<c>d\x7b\x7be\x7d\x7d") v.end_offset = CURLY_LEFT
                    ∧ cpAt (cps "a\x7bb<c>d\x7b\x7be\x7d\x7d") (v.end_offset + 1)
                        = CURLY_LEFT)) :=
  ⟨_, rfl, tokenize_literal_tokens (cps "a\x7bb<c>d\x7b\x7be\x7d\x7d")
    (cps "a\x7bb<c>d\x7b\x7be\x7d\x7d") 30 _ rfl⟩

/-! ### The decoded stream of an encoded text -/

theorem pAt_utf8Encode (text : List Nat) (hs : Scalars text) :
    ∀ i, pAt (utf8Encode text) i = (utf8Encode (text.take i)).length
      ∧ cpAt (utf8Encode text) i = headCp (text.drop i) := by
  have key : ∀ i, pAt (utf8Encode text) i = (utf8Encode (text.take i)).length →
      cpAt (utf8Encode text) i = headCp (text.drop i)
        ∧ pAt (utf8Encode text) (i + 1) = (utf8Encode (text.take (i + 1))).length := by
    intro i hi
    have hb := next_utf8_cp_at_boundary (text.take i) (text.drop i) (Scalars_drop hs i)
    rw [List.take_append_drop, ← List.take_add] at hb
    exact ⟨by rw [cpAt, hi]; exact hb.1, by rw [pAt, hi]; exact hb.2⟩
  intro i
  induction i with
  | zero => exact ⟨rfl, (key 0 rfl).1⟩
  | succ i ih => exact ⟨(key i ih.1).2, (key (i + 1) (key i ih.1).2).1⟩

/-- On the encoding of a text the decoded stream is the text: its code points in order,
then the end-of-input sentinel. -/
theorem cpAt_utf8Encode (text : List Nat) (hs : Scalars text) (i : Nat) :
    cpAt (utf8Encode text) i = headCp (text.drop i) := (pAt_utf8Encode text hs i).2

theorem decoded_utf8Encode (text : List Nat) (hs : Scalars text) :
    ∀ k, k ≤ text.length → decoded (utf8Encode text) k = List.map (Nat.cast : Nat → Int) (text.take k) := by
  intro k
  induction k with
  | zero => intro _; rfl
  | succ k ih =>
    intro hk
    have e : decoded (utf8Encode text) (k + 1)
        = decoded (utf8Encode text) k ++ [cpAt (utf8Encode text) k] := by
      simp only [decoded, List.range_succ, List.map_append, List.map_cons, List.map_nil]
    have hlt : k < text.length := hk
    rw [e, ih (Nat.le_of_lt hlt), cpAt_utf8Encode text hs, List.take_succ,
      List.drop_eq_getElem_cons hlt, headCp_cons, List.getElem?_eq_getElem hlt]
    simp only [Option.toList, List.map_append, List.map_cons, List.map_nil]

/-! ### Executable blocks with nested braces -/

/-- The executable-block loop on a balanced body followed by `}}`: nested braces are
skipped and the block is closed by the `}}` after the body. -/
theorem scanner_consume_executable_loop_balanced (body : List Nat) (rest : List Nat) :
    ∀ (pre : List Nat) (lvl : Int) (fuel so sl sc : Nat) (toks : List Token)
      (errs : List String),
      Scalars (body ++ 125 :: 125 :: rest) →
      (∀ n, n ≤ body.length → 0 ≤ lvl + netLevel (body.take n)) →
      lvl + netLevel body = 0 → body.length < fuel →
      scanner_consume_executable_loop fuel lvl
          (stateAt pre (body ++ 125 :: 125 :: rest) so sl sc toks errs)
        = some (stateAt (pre ++ body ++ [125, 125]) rest so sl sc
            (toks ++ [tokenAt Kind.executable (pre ++ body) so sl sc]) errs) := by
  induction body with
  | nil =>
    intro pre lvl fuel so sl sc toks errs hs _ h0 hf
    obtain ⟨n, rfl⟩ : ∃ n, fuel = n + 1 := ⟨fuel - 1, by simp at hf; omega⟩
    have hl : lvl = 0 := by rw [netLevel_nil] at h0; omega
    subst hl
    simp only [List.nil_append] at hs ⊢
    rw [scanner_consume_executable_loop,
      if_pos (show (stateAt pre (125 :: 125 :: rest) so sl sc toks errs).look0 ≠ EOF_CP from
        headCp_ne_EOF_CP 125 (125 :: rest)),
      if_pos (show (0 : Int) = 0
          ∧ (stateAt pre (125 :: 125 :: rest) so sl sc toks errs).look0 = CURLY_RIGHT
          ∧ (stateAt pre (125 :: 125 :: rest) so sl sc toks errs).look1 = CURLY_RIGHT from
        ⟨rfl, rfl, rfl⟩),
      scanner_push_token_simple_stateAt, scanner_consume_stateAt pre 125 (125 :: rest) hs,
      scanner_consume_stateAt _ 125 rest (Scalars_cons.mp hs).2]
    simp only [List.append_nil, List.append_assoc, List.singleton_append]
  | cons c body ih =>
    intro pre lvl fuel so sl sc toks errs hs hH h0 hf
    obtain ⟨n, rfl⟩ : ∃ n, fuel = n + 1 := ⟨fuel - 1, by simp at hf; omega⟩
    have gc : (c : Int) ≠ EOF_CP := by simp only [EOF_CP]; omega
    have h1 := hH 1 (by simp only [List.length_cons]; omega)
    simp only [List.take_succ_cons, List.take_zero, netLevel_cons, netLevel_nil] at h1
    have g1 : ¬ (lvl = 0 ∧ (c : Int) = CURLY_RIGHT
        ∧ headCp (body ++ 125 :: 125 :: rest) = CURLY_RIGHT) := by
      rintro ⟨e1, e2, _⟩
      simp only [CURLY_RIGHT] at e2
      have hc : c = 125 := by omega
      subst hc e1
      simp at h1
    simp only [List.cons_append] at hs ⊢
    simp only [scanner_consume_executable_loop, stateAt_look0, stateAt_look1, headCp_cons,
      List.drop_succ_cons, List.drop_zero, ne_eq, gc, not_false_eq_true, if_true, g1, if_false]
    rw [scanner_consume_stateAt pre c _ hs,
      ih (pre ++ [c]) _ n so sl sc toks errs (Scalars_cons.mp hs).2 ?_ ?_
        (by simp only [List.length_cons] at hf; omega)]
    · simp only [List.append_assoc, List.singleton_append]
    · intro k hk
      have := hH (k + 1) (by simp only [List.length_cons]; omega)
      simp only [List.take_succ_cons, netLevel_cons] at this
      simp only [CURLY_LEFT, CURLY_RIGHT]
      split_ifs at this ⊢ <;> omega
    · rw [netLevel_cons] at h0
      simp only [CURLY_LEFT, CURLY_RIGHT]
      split_ifs at h0 ⊢ <;> omega

theorem netLevel_of_Balanced (body : List Nat) (hb : Balanced body) :
    (∀ n, n ≤ body.length → 0 ≤ (0 : Int) + netLevel (body.take n))
      ∧ (0 : Int) + netLevel body = 0 := by
  refine ⟨fun n hn => ?_, ?_⟩
  · have := hb.1 n hn
    simp only [netLevel]; omega
  · have := hb.2
    simp only [netLevel]; omega

/-- The final state of scanning `{{` ++ body ++ `}}` for a balanced body. -/
theorem tokenize_text_balanced (body : List Nat) (hs : Scalars body) (hb : Balanced body)
    (fuel : Nat) (hf : body.length + 3 ≤ fuel) :
    tokenize_text fuel (123 :: 123 :: (body ++ [125, 125]))
      = some (.ok (stateAt (123 :: 123 :: (body ++ [125, 125])) [] 2 (posAfter [123, 123]).1
          (posAfter [123, 123]).2
          [hydrated (123 :: 123 :: (body ++ [125, 125]))
            (tokenAt Kind.executable (123 :: 123 :: body) 2 (posAfter [123, 123]).1
              (posAfter [123, 123]).2)] [])) := by
  obtain ⟨n, rfl⟩ : ∃ n, fuel = n + 1 := ⟨fuel - 1, by omega⟩
  have hs1 : Scalars (body ++ 125 :: 125 :: []) :=
    Scalars_append.mpr ⟨hs, by decide⟩
  have hs2 : Scalars (123 :: 123 :: (body ++ [125, 125])) :=
    Scalars_cons.mpr ⟨by decide, Scalars_cons.mpr ⟨by decide, hs1⟩⟩
  obtain ⟨hb1, hb2⟩ := netLevel_of_Balanced body hb
  have hloop := scanner_consume_executable_loop_balanced body [] [123, 123] 0 n 2
    (posAfter [123, 123]).1 (posAfter [123, 123]).2 [] [] hs1 hb1 hb2 (by omega)
  have hstep : scanner_scan_token n (stateAt [] (123 :: 123 :: (body ++ [125, 125])) 0 0 0 [] [])
      = some (stateAt (123 :: 123 :: (body ++ [125, 125])) [] 2 (posAfter [123, 123]).1
          (posAfter [123, 123]).2
          [tokenAt Kind.executable (123 :: 123 :: body) 2 (posAfter [123, 123]).1
            (posAfter [123, 123]).2] []) := by
    simp only [scanner_scan_token, stateAt_look0, stateAt_look1, headCp_cons,
      List.drop_succ_cons, List.drop_zero, scanner_consume_executable]
    rw [scanner_consume_stateAt [] 123 _ hs2,
      scanner_consume_stateAt _ 123 _ (Scalars_cons.mp hs2).2, scanner_start_token_stateAt]
    simp only [ANGLED_LEFT, ANGLED_RIGHT, SOLIDUS, CURLY_LEFT, Nat.cast_ofNat,
      Int.reduceEq, if_false, if_true, List.nil_append, List.cons_append, List.length_cons,
      List.length_nil, Nat.reduceAdd]
    refine hloop.trans ?_
    simp only [List.nil_append, List.cons_append, List.append_assoc]
  obtain ⟨m, rfl⟩ : ∃ m, n = m + 1 := ⟨n - 1, by omega⟩
  have g0 : ((123 : Nat) : Int) ≠ EOF := by decide
  have hok : ∀ v ∈ [tokenAt Kind.executable (123 :: 123 :: body) 2 (posAfter [123, 123]).1
      (posAfter [123, 123]).2], v.start_offset ≤ v.end_offset := by
    intro v hv
    rw [List.mem_singleton.mp hv]
    simp only [tokenAt, List.length_cons]; omega
  rw [tokenize_text, scanner_tokenize, scanner_initialize_stateAt _ hs2,
    scanner_tokenize_loop_step _ _ g0, hstep, Option.some_bind, scanner_tokenize_loop_end,
    Option.map_some']
  show some (match scanner_hydrate_tokens (123 :: 123 :: (body ++ [125, 125]))
      ([tokenAt Kind.executable (123 :: 123 :: body) 2 (posAfter [123, 123]).1
        (posAfter [123, 123]).2]) with
    | .error e => Except.error e
    | .ok toks => Except.ok _) = _
  rw [scanner_hydrate_tokens_ok _ _ hok]
  rfl

/-- Claim C16. For every body whose `{`/`}` are balanced, tokenizing `{{` ++ body ++ `}}`
returns exactly one token, of kind `executable`, with `start.offset = 2`,
`end.offset = 2 + |body|` and literal `body`, and records no error. -/
theorem tokenize_balanced_executable (body : List Nat) (hs : Scalars body)
    (hb : Balanced body) (fuel : Nat) (hf : body.length + 3 ≤ fuel) :
    ∃ t tok, tokenize_text fuel (123 :: 123 :: (body ++ [125, 125])) = some (.ok t)
      ∧ scanner_tokens t = [tok]
      ∧ tok.kind = Kind.executable
      ∧ tok.start_offset = 2
      ∧ tok.end_offset = 2 + body.length
      ∧ tok.literal = some body
      ∧ scanner_errors t = [] := by
  refine ⟨_, _, tokenize_text_balanced body hs hb fuel hf, rfl, rfl, rfl, ?_, ?_, rfl⟩
  · simp only [hydrated, tokenAt, List.length_cons]; omega
  · simp only [hydrated, tokenAt, Option.some.injEq]
    have e1 : (123 :: 123 :: (body ++ [125, 125])) = [123, 123] ++ body ++ [125, 125] := by
      simp only [List.cons_append, List.nil_append]
    rw [e1]
    refine rb_str_substr_mid _ body _ _ _ rfl ?_
    simp only [List.length_cons]
    omega

/-- Witness for C16: the text `{{a{b{}}c}}`. -/
theorem tokenize_balanced_executable_witness :
    Scalars (cps "a\x7bb\x7b\x7d\x7dc") ∧ Balanced (cps "a\x7bb\x7b\x7d\x7dc")
      ∧ ∃ t tok, tokenize_text 10 (123 :: 123 :: (cps "a\x7bb\x7b\x7d\x7dc" ++ [125, 125]))
            = some (.ok t)
          ∧ scanner_tokens t = [tok]
          ∧ tok.kind = Kind.executable
          ∧ tok.start_offset = 2
          ∧ tok.end_offset = 2 + (cps "a\x7bb\x7b\x7d\x7dc").length
          ∧ tok.literal = some (cps "a\x7bb\x7b\x7d\x7dc")
          ∧ scanner_errors t = [] :=
  ⟨by decide, by decide,
    tokenize_balanced_executable (cps "a\x7bb\x7b\x7d\x7dc") (by decide) (by decide) 10
      (by decide)⟩

/-! ### Comments -/

theorem comment_end_not_at_head (c : Nat) (l rest : List Nat)
    (h : ¬ [45, 45, 62] <:+: (c :: l ++ rest.take 2)) :
    ¬ ((c : Int) = MINUS_HYPHEN ∧ headCp (l ++ rest) = MINUS_HYPHEN
        ∧ headCp ((l ++ rest).drop 1) = ANGLED_RIGHT) := by
  rintro ⟨h1, h2, h3⟩
  apply h
  have hc : c = 45 := by simp only [MINUS_HYPHEN] at h1; omega
  subst hc
  refine List.IsPrefix.isInfix ?_
  rcases l with _ | ⟨a, _ | ⟨b, l⟩⟩
  · rcases rest with _ | ⟨a, _ | ⟨b, r⟩⟩
    · simp [headCp, EOF_CP, MINUS_HYPHEN] at h2
    · simp [headCp, EOF_CP, ANGLED_RIGHT] at h3
    · simp only [List.nil_append, headCp_cons, List.drop_succ_cons, List.drop_zero,
        MINUS_HYPHEN, ANGLED_RIGHT] at h2 h3
      have ha : a = 45 := by omega
      have hb : b = 62 := by omega
      subst ha hb
      exact ⟨[], rfl⟩
  · rcases rest with _ | ⟨b, r⟩
    · simp [headCp, EOF_CP, ANGLED_RIGHT] at h3
    · simp only [List.cons_append, List.nil_append, headCp_cons, List.drop_succ_cons,
        List.drop_zero, MINUS_HYPHEN, ANGLED_RIGHT] at h2 h3
      have ha : a = 45 := by omega
      have hb : b = 62 := by omega
      subst ha hb
      exact ⟨r.take 1, by simp⟩
  · simp only [List.cons_append, headCp_cons, List.drop_succ_cons, List.drop_zero,
      MINUS_HYPHEN, ANGLED_RIGHT] at h2 h3
    have ha : a = 45 := by omega
    have hb : b = 62 := by omega
    subst ha hb
    exact ⟨l ++ rest.take 2, by simp⟩

/-- The comment loop walks over a run `l` in which no `-->` starts, with any fuel: with
too little it runs out on both sides. -/
theorem scanner_consume_comment_tag_skip (rest : List Nat) :
    ∀ (l pre : List Nat) (fuel so sl sc : Nat) (toks : List Token) (errs : List String),
      Scalars (l ++ rest) → ¬ [45, 45, 62] <:+: (l ++ rest.take 2) →
      scanner_consume_comment_tag fuel (stateAt pre (l ++ rest) so sl sc toks errs)
        = scanner_consume_comment_tag (fuel - l.length)
            (stateAt (pre ++ l) rest so sl sc toks errs) := by
  intro l
  induction l with
  | nil =>
    intro pre fuel so sl sc toks errs _ _
    simp only [List.nil_append, List.append_nil, List.length_nil, Nat.sub_zero]
  | cons c l ih =>
    intro pre fuel so sl sc toks errs hs hn
    cases fuel with
    | zero => simp only [List.length_cons, Nat.zero_sub, scanner_consume_comment_tag]
    | succ n =>
      have g0 : (stateAt pre (c :: l ++ rest) so sl sc toks errs).look0 ≠ EOF :=
        headCp_ne_EOF_CP c (l ++ rest)
      have g1 : ¬ ((stateAt pre (c :: l ++ rest) so sl sc toks errs).look0 = MINUS_HYPHEN
          ∧ (stateAt pre (c :: l ++ rest) so sl sc toks errs).look1 = MINUS_HYPHEN
          ∧ (stateAt pre (c :: l ++ rest) so sl sc toks errs).look2 = ANGLED_RIGHT) := by
        have := comment_end_not_at_head c l rest hn
        simpa only [stateAt_look0, stateAt_look1, stateAt_look2, List.cons_append, headCp_cons,
          List.drop_succ_cons, List.drop_zero] using this
      have hn1 : ¬ [45, 45, 62] <:+: (l ++ rest.take 2) :=
        fun h => hn (List.infix_cons h)
      have hs1 : Scalars (c :: (l ++ rest)) := hs
      rw [scanner_consume_comment_tag, if_pos g0, if_neg g1, List.cons_append,
        scanner_consume_stateAt pre c (l ++ rest) hs1, ih (pre ++ [c]) n so sl sc toks errs
          (Scalars_cons.mp hs1).2 hn1]
      simp only [List.append_assoc, List.singleton_append, List.length_cons,
        Nat.add_sub_add_right]

theorem scanner_consume_comment_tag_found (pre b : List Nat) (n so sl sc : Nat)
    (toks : List Token) (errs : List String) (hs : Scalars (45 :: 45 :: 62 :: b)) :
    scanner_consume_comment_tag (n + 1) (stateAt pre (45 :: 45 :: 62 :: b) so sl sc toks errs)
      = some (stateAt (pre ++ [45, 45, 62]) b so sl sc
          (toks ++ [tokenAt Kind.tag_comment_end (pre ++ [45, 45, 62]) so sl sc]) errs) := by
  have g0 : (stateAt pre (45 :: 45 :: 62 :: b) so sl sc toks errs).look0 ≠ EOF :=
    headCp_ne_EOF_CP 45 (45 :: 62 :: b)
  have g1 : (stateAt pre (45 :: 45 :: 62 :: b) so sl sc toks errs).look0 = MINUS_HYPHEN
      ∧ (stateAt pre (45 :: 45 :: 62 :: b) so sl sc toks errs).look1 = MINUS_HYPHEN
      ∧ (stateAt pre (45 :: 45 :: 62 :: b) so sl sc toks errs).look2 = ANGLED_RIGHT :=
    ⟨rfl, rfl, rfl⟩
  rw [scanner_consume_comment_tag, if_pos g0, if_pos g1,
    scanner_consume_stateAt pre 45 _ hs,
    scanner_consume_stateAt _ 45 _ (Scalars_cons.mp hs).2,
    scanner_consume_stateAt _ 62 _ (Scalars_cons.mp (Scalars_cons.mp hs).2).2,
    scanner_push_token_simple_stateAt]
  simp only [List.append_assoc, List.singleton_append, List.cons_append, List.nil_append]

theorem scanner_consume_comment_tag_open (pre : List Nat) (n so sl sc : Nat)
    (toks : List Token) (errs : List String) :
    scanner_consume_comment_tag (n + 1) (stateAt pre [] so sl sc toks errs)
      = some (stateAt pre [] so sl sc (toks ++ [tokenAt Kind.tag_comment_end pre so sl sc])
          (errs ++ [errAt "Unterminated comment tag" pre])) := by
  have g0 : ¬ (stateAt pre [] so sl sc toks errs).look0 ≠ EOF := not_not.mpr rfl
  rw [scanner_consume_comment_tag, if_neg g0]
  rfl

/-- The first scan step on a text that begins with `<!--`: `tag_begin` is pushed over
`<!--` and the comment loop starts right after it, the pending token start still at the
`<`. -/
theorem scanner_scan_token_comment (rest : List Nat) (hs : Scalars rest) (fuel : Nat) :
    scanner_scan_token fuel ( scanner_initialize (utf8Encode (60 :: 33 :: 45 :: 45 :: rest)))
      = scanner_consume_comment_tag fuel
          (stateAt [60, 33, 45, 45] rest 0 1 1 [tokenAt Kind.tag_begin [60, 33, 45, 45] 0 1 1]
            []) := by
  have hs4 : Scalars (60 :: 33 :: 45 :: 45 :: rest) :=
    Scalars_cons.mpr ⟨by decide, Scalars_cons.mpr ⟨by decide, Scalars_cons.mpr ⟨by decide,
      Scalars_cons.mpr ⟨by decide, hs⟩⟩⟩⟩
  have c0 : (stateAt [] (60 :: 33 :: 45 :: 45 :: rest) 0 0 0 [] []).look0 = ANGLED_LEFT := rfl
  have c1 : (stateAt [] (60 :: 33 :: 45 :: 45 :: rest) 0 0 0 [] []).look1 = 33
      ∧ (stateAt [] (60 :: 33 :: 45 :: 45 :: rest) 0 0 0 [] []).look2 = 45
      ∧ (stateAt [] (60 :: 33 :: 45 :: 45 :: rest) 0 0 0 [] []).look3 = 45 := ⟨rfl, rfl, rfl⟩
  rw [scanner_initialize_stateAt _ hs4, scanner_scan_token, if_pos c0, scanner_scan_open_tag,
    if_pos c1, scanner_start_token_stateAt, scanner_consume_stateAt [] 60 _ hs4,
    scanner_consume_stateAt _ 33 _ (Scalars_cons.mp hs4).2,
    scanner_consume_stateAt _ 45 _ (Scalars_cons.mp (Scalars_cons.mp hs4).2).2,
    scanner_consume_stateAt _ 45 _
      (Scalars_cons.mp (Scalars_cons.mp (Scalars_cons.mp hs4).2).2).2,
    scanner_push_token_simple_stateAt]
  rfl

theorem comment_tokens_eq (pre : List Nat) :
    [tokenAt Kind.tag_begin [60, 33, 45, 45] 0 1 1, tokenAt Kind.tag_comment_end pre 0 1 1]
      = comment_tokens pre := rfl

/-- The first scan step on `<!--` a `-->` b, where `-->` occurs in a `-->` only at the end:
with any fuel it either runs out or stops right after that `-->` with the two comment
tokens and no error; with more fuel than `|a|` it stops. -/
theorem scanner_scan_token_comment_closed (a b : List Nat)
    (hs : Scalars (a ++ 45 :: 45 :: 62 :: b)) (hn : ¬ [45, 45, 62] <:+: a ++ [45, 45])
    (fuel : Nat) :
    scanner_scan_token fuel
        ( scanner_initialize (utf8Encode (60 :: 33 :: 45 :: 45 :: (a ++ 45 :: 45 :: 62 :: b))))
      = if fuel - a.length = 0 then none
        else some (stateAt ([60, 33, 45, 45] ++ a ++ [45, 45, 62]) b 0 1 1
          (comment_tokens ([60, 33, 45, 45] ++ a ++ [45, 45, 62])) []) := by
  rw [scanner_scan_token_comment _ hs,
    scanner_consume_comment_tag_skip (45 :: 45 :: 62 :: b) a _ fuel 0 1 1 _ _ hs hn]
  rcases Nat.eq_zero_or_pos (fuel - a.length) with h | h
  · rw [h, if_pos rfl]; rfl
  · obtain ⟨k, hk⟩ : ∃ k, fuel - a.length = k + 1 := ⟨fuel - a.length - 1, by omega⟩
    rw [hk, if_neg (Nat.succ_ne_zero k),
      scanner_consume_comment_tag_found _ b k 0 1 1 _ _ (Scalars_append.mp hs).2]
    rfl

/-- The whole scan of `<!--` rest when no `-->` occurs in `rest`. -/
theorem tokenize_text_comment_open (rest : List Nat) (hs : Scalars rest)
    (hn : ¬ [45, 45, 62] <:+: rest) (fuel : Nat) (hf : rest.length + 3 ≤ fuel) :
    tokenize_text fuel (60 :: 33 :: 45 :: 45 :: rest)
      = some (.ok (stateAt (60 :: 33 :: 45 :: 45 :: rest) [] 0 1 1
          ((comment_tokens (60 :: 33 :: 45 :: 45 :: rest)).map
            (hydrated (60 :: 33 :: 45 :: 45 :: rest)))
          [errAt "Unterminated comment tag" (60 :: 33 :: 45 :: 45 :: rest)])) := by
  obtain ⟨n, rfl⟩ : ∃ n, fuel = n + 1 := ⟨fuel - 1, by omega⟩
  obtain ⟨k, hk⟩ : ∃ k, n - rest.length = k + 1 := ⟨n - rest.length - 1, by omega⟩
  obtain ⟨m, hm⟩ : ∃ m, n = m + 1 := ⟨n - 1, by omega⟩
  have hs4 : Scalars (60 :: 33 :: 45 :: 45 :: rest) :=
    Scalars_cons.mpr ⟨by decide, Scalars_cons.mpr ⟨by decide, Scalars_cons.mpr ⟨by decide,
      Scalars_cons.mpr ⟨by decide, hs⟩⟩⟩⟩
  have hstep : scanner_scan_token n ( scanner_initialize (utf8Encode (60 :: 33 :: 45 :: 45 :: rest)))
      = some (stateAt (60 :: 33 :: 45 :: 45 :: rest) [] 0 1 1
          (comment_tokens (60 :: 33 :: 45 :: 45 :: rest))
          [errAt "Unterminated comment tag" (60 :: 33 :: 45 :: 45 :: rest)]) := by
    have h1 := scanner_consume_comment_tag_skip [] rest [60, 33, 45, 45] n 0 1 1
      [tokenAt Kind.tag_begin [60, 33, 45, 45] 0 1 1] []
      (by rw [List.append_nil]; exact hs) (by rw [List.take_nil, List.append_nil]; exact hn)
    rw [List.append_nil] at h1
    rw [scanner_scan_token_comment _ hs, h1, hk, scanner_consume_comment_tag_open]
    rfl
  have g0 : ( scanner_initialize (utf8Encode (60 :: 33 :: 45 :: 45 :: rest))).look0 ≠ EOF := by
    rw [scanner_initialize_stateAt _ hs4]
    exact headCp_ne_EOF_CP 60 (33 :: 45 :: 45 :: rest)
  have hok : ∀ v ∈ comment_tokens (60 :: 33 :: 45 :: 45 :: rest),
      v.start_offset ≤ v.end_offset := by
    intro v hv
    simp only [comment_tokens, List.mem_cons, List.mem_singleton, List.not_mem_nil,
      or_false] at hv
    rcases hv with rfl | rfl <;> simp
  rw [tokenize_text, scanner_tokenize, scanner_tokenize_loop_step _ _ g0, hstep,
    Option.some_bind, hm, scanner_tokenize_loop_end, Option.map_some']
  show some (match scanner_hydrate_tokens (60 :: 33 :: 45 :: 45 :: rest)
      (comment_tokens (60 :: 33 :: 45 :: 45 :: rest)) with
    | .error e => Except.error e
    | .ok toks => Except.ok _) = _
  rw [scanner_hydrate_tokens_ok _ _ hok]
  rfl

/-- Claim C19. For every text `<!--` ++ rest: (1) if `rest` is `a` ++ `-->` ++ `b` with
that `-->` the first one at or after offset 4, the first scan step returns (given more fuel
than `|a|`) with exactly the tokens `tag_begin` over `[0, 4)` and `tag_comment_end` from
the position of the `<` (line 1, column 1, offset 0) to right after that `-->`, and with
no error; and whenever `tokenize` returns, these two, materialized, are the first two
tokens of its list. (2) If `-->` does not occur in `rest`, `tokenize` returns exactly
these two tokens, `tag_comment_end` ending at the end of input, and exactly one error,
which begins with "Unterminated comment tag". -/
theorem tokenize_comment (rest : List Nat) (hs : Scalars rest) :
    (∀ a b, rest = a ++ 45 :: 45 :: 62 :: b → ¬ [45, 45, 62] <:+: a ++ [45, 45] →
      (∀ fuel, a.length < fuel →
        ∃ u, scanner_scan_token fuel
              ( scanner_initialize (utf8Encode (60 :: 33 :: 45 :: 45 :: rest))) = some u
          ∧ scanner_tokens u = comment_tokens ([60, 33, 45, 45] ++ a ++ [45, 45, 62])
          ∧ scanner_errors u = [])
      ∧ ∀ fuel t, tokenize_text fuel (60 :: 33 :: 45 :: 45 :: rest) = some (.ok t) →
          ∃ more, scanner_tokens t
            = (comment_tokens ([60, 33, 45, 45] ++ a ++ [45, 45, 62])).map
                (hydrated (60 :: 33 :: 45 :: 45 :: rest)) ++ more)
    ∧ (¬ [45, 45, 62] <:+: rest → ∀ fuel, rest.length + 3 ≤ fuel →
        ∃ t e, tokenize_text fuel (60 :: 33 :: 45 :: 45 :: rest) = some (.ok t)
          ∧ scanner_tokens t
              = (comment_tokens (60 :: 33 :: 45 :: 45 :: rest)).map
                  (hydrated (60 :: 33 :: 45 :: 45 :: rest))
          ∧ scanner_errors t = [e]
          ∧ "Unterminated comment tag".toList <+: e.toList) := by
  refine ⟨?_, fun hn fuel hf =>
    ⟨_, _, tokenize_text_comment_open rest hs hn fuel hf, rfl, rfl,
      errAt_starts_with _ _ (by decide)⟩⟩
  rintro a b rfl hn
  have hstep := scanner_scan_token_comment_closed a b hs hn
  refine ⟨fun fuel hf => ⟨stateAt ([60, 33, 45, 45] ++ a ++ [45, 45, 62]) b 0 1 1
      (comment_tokens ([60, 33, 45, 45] ++ a ++ [45, 45, 62])) [], ?_, rfl, rfl⟩, ?_⟩
  · rw [hstep fuel, if_neg (by omega)]
  · intro fuel t h
    obtain ⟨t0, h0, _, _, _, e⟩ := scanner_tokenize_Inv _ _ fuel _ h
    obtain rfl := Except.ok.inj e
    have hs4 : Scalars (60 :: 33 :: 45 :: 45 :: (a ++ 45 :: 45 :: 62 :: b)) :=
      Scalars_cons.mpr ⟨by decide, Scalars_cons.mpr ⟨by decide, Scalars_cons.mpr ⟨by decide,
        Scalars_cons.mpr ⟨by decide, hs⟩⟩⟩⟩
    have g0 : ( scanner_initialize (utf8Encode
        (60 :: 33 :: 45 :: 45 :: (a ++ 45 :: 45 :: 62 :: b)))).look0 ≠ EOF := by
      rw [scanner_initialize_stateAt _ hs4]
      exact headCp_ne_EOF_CP 60 (33 :: 45 :: 45 :: (a ++ 45 :: 45 :: 62 :: b))
    cases fuel with
    | zero => cases h0
    | succ n =>
      rw [scanner_tokenize_loop_step _ _ g0, Option.bind_eq_some] at h0
      obtain ⟨u, hu, hl⟩ := h0
      obtain ⟨iu, _⟩ := scanner_scan_token_Inv n _ u hu (Inv_at_start _)
      obtain ⟨_, ⟨_, X, hX⟩, _⟩ := scanner_tokenize_loop_Inv n u t0 hl iu
      rw [hstep n] at hu
      split at hu
      · cases hu
      · obtain rfl := Option.some.inj hu
        refine ⟨X.map (hydrated (60 :: 33 :: 45 :: 45 :: (a ++ 45 :: 45 :: 62 :: b))), ?_⟩
        simp only [scanner_tokens, hX, List.map_append]
        rfl

/-- Witness for C19: the texts `<!-- x -->y` and `<!-- x`. -/
theorem tokenize_comment_witness :
    Scalars (cps " x -->y")
      ∧ (∃ u, scanner_scan_token 10
              ( scanner_initialize (utf8Encode (60 :: 33 :: 45 :: 45 :: cps " x -->y"))) = some u
          ∧ scanner_tokens u = comment_tokens ([60, 33, 45, 45] ++ cps " x " ++ [45, 45, 62])
          ∧ scanner_errors u = []) :=
  ⟨by decide,
    ((tokenize_comment (cps " x -->y") (by decide)).1 (cps " x ") (cps "y") (by decide)
      (by decide)).1 10 (by decide)⟩

/-! ### The token stream: reachable states -/

theorem get?_of_guard {α : Type} (L : List α) (i : Nat) :
    (if L.length > i then rb_ary_entry L i else none) = L.get? i := by
  rw [rb_ary_entry]
  split
  · rfl
  · rw [List.get?_eq_none.mpr (by omega)]

theorem StreamInv_init {α : Type} (L : List α) : StreamInv L ( stream_initialize L) := by
  refine ⟨rfl, rfl, Nat.zero_le _, List.length_replicate _ _, Nat.zero_le _,
    fun i hi => absurd hi (Nat.not_lt_zero i), Or.inl ⟨?_, ?_⟩⟩
  · exact get?_of_guard L 0
  · exact get?_of_guard L 1

theorem StreamInv_consume {α : Type} {L : List α} {s : stream_t α} (h : StreamInv L s) :
    StreamInv L (stream_consume_c s) := by
  obtain ⟨tokens, idx, len, l0, l1, marks, midx⟩ := s
  obtain ⟨h1, h2, h3, h4, h5, h6, h7⟩ := h
  simp only at h1 h2 h3 h4 h5 h6 h7
  subst h1 h2
  by_cases hk : idx + 1 < tokens.length
  · have hc : idx < tokens.length ∧ idx + 1 < tokens.length := ⟨by omega, hk⟩
    simp only [stream_consume_c, if_pos hc, stream_rotate]
    refine ⟨rfl, rfl, by simp only; omega, h4, h5, h6, Or.inl ⟨?_, ?_⟩⟩
    · rcases h7 with ⟨_, e⟩ | ⟨_, _, e⟩
      · exact e
      · omega
    · exact get?_of_guard tokens (idx + 1 + 1)
  · have hc : ¬ (idx < tokens.length ∧ idx + 1 < tokens.length) := fun c => hk c.2
    simp only [stream_consume_c, if_neg hc, stream_rotate, if_neg hk]
    refine ⟨rfl, rfl, h3, h4, h5, h6, Or.inr ⟨?_, rfl, by simp only; omega⟩⟩
    rcases h7 with ⟨_, e⟩ | ⟨_, e, _⟩
    · simp only [e]; exact List.get?_eq_none.mpr (by omega)
    · exact e

theorem StreamInv_mark {α : Type} {L : List α} {s s1 : stream_t α} (h : StreamInv L s)
    (hm : stream_create_mark s = .ok s1) : StreamInv L s1 := by
  rw [stream_create_mark] at hm
  split at hm
  · cases hm
  · rename_i hlt
    obtain rfl := Except.ok.inj hm
    refine ⟨h.tokens, h.len, h.idx, by simp only [List.length_set]; exact h.marks_len,
      by simp only; omega, ?_, h.look⟩
    intro i hi
    simp only at hi ⊢
    by_cases e : i = s.marks_idx
    · subst e
      rw [List.getD_eq_getElem _ _ (by rw [List.length_set, h.marks_len]; omega),
        List.getElem_set_self]
      exact h.idx
    · have := h.saved i (by omega)
      rw [List.getD_eq_getElem?_getD, List.getElem?_set_ne (Ne.symm e),
        ← List.getD_eq_getElem?_getD]
      exact this

theorem StreamInv_restore {α : Type} {L : List α} {s s1 : stream_t α} (h : StreamInv L s)
    (hm : stream_mark_restore s = .ok s1) : StreamInv L s1 := by
  rw [stream_mark_restore] at hm
  split at hm
  · cases hm
  · rename_i hne
    obtain rfl := Except.ok.inj hm
    have hb := h.saved (s.marks_idx - 1) (by omega)
    refine ⟨h.tokens, h.len, hb, h.marks_len, by simp only; have := h.depth; omega,
      fun i hi => h.saved i (by simp only at hi; omega), Or.inl ⟨?_, ?_⟩⟩
    · simp only [h.len, h.tokens]; exact get?_of_guard L _
    · simp only [h.len, h.tokens]; exact get?_of_guard L _

theorem StreamInv_pop {α : Type} {L : List α} {s s1 : stream_t α} (h : StreamInv L s)
    (hm : stream_mark_pop s = .ok s1) : StreamInv L s1 := by
  rw [stream_mark_pop] at hm
  split at hm
  · cases hm
  · obtain rfl := Except.ok.inj hm
    exact ⟨h.tokens, h.len, h.idx, h.marks_len, by simp only; have := h.depth; omega,
      fun i hi => h.saved i (by simp only at hi; omega), h.look⟩

theorem StreamInv_of_Reachable {α : Type} {L : List α} {s : stream_t α} (h : Reachable L s) :
    StreamInv L s := by
  induction h with
  | init => exact StreamInv_init L
  | consume s _ ih => exact StreamInv_consume ih
  | mark s s1 _ hm ih => exact StreamInv_mark ih hm
  | restore s s1 _ hm ih => exact StreamInv_restore ih hm
  | pop s s1 _ hm ih => exact StreamInv_pop ih hm

/-- Claim C24. In every state of a stream over `L` reachable from construction by
`peek`/`consume`/`discard`/`mark`/`restore`/`pop`: the cursor index is `0` when `L` is
empty and below `|L|` otherwise, every saved mark satisfies the same bound, and `empty?`
returns true exactly when `peek` returns no value. -/
theorem stream_cursor_bound (α : Type) (L : List α) (s : stream_t α) (h : Reachable L s) :
    (L = [] → s.tokens_idx = 0)
      ∧ (L ≠ [] → s.tokens_idx ≤ s.tokens_len - 1 ∧ s.tokens_idx < s.tokens_len)
      ∧ (∀ i, i < s.marks_idx →
          (L = [] → s.marks.getD i 0 = 0) ∧ (L ≠ [] → s.marks.getD i 0 < s.tokens_len))
      ∧ (stream_is_empty s = true ↔ stream_peek s = none) := by
  have k := StreamInv_of_Reachable h
  have hpos : L ≠ [] → 0 < L.length := fun hne => List.length_pos.mpr hne
  refine ⟨?_, ?_, ?_, ?_⟩
  · rintro rfl
    have := k.idx
    simpa using this
  · intro hne
    have := k.idx
    have := hpos hne
    rw [k.len]
    omega
  · intro i hi
    have := k.saved i hi
    refine ⟨?_, fun hne => ?_⟩
    · rintro rfl
      simpa using this
    · have := hpos hne
      rw [k.len]
      omega
  · rw [stream_is_empty, stream_peek, Bool.or_eq_true, decide_eq_true_eq, Option.isNone_iff_eq_none]
    refine ⟨?_, Or.inr⟩
    rintro (hge | hn)
    · rw [k.len] at hge
      have := k.idx
      rcases k.look with ⟨e, _⟩ | ⟨e, _⟩
      · rw [e]; exact List.get?_eq_none.mpr (by omega)
      · exact e
    · exact hn

/-- Witness for C24: the stream over two tokens after `consume`, `mark`, `consume`,
`consume`, `restore`. -/
theorem stream_cursor_bound_witness :
    ∃ s : stream_t Nat, Reachable [7, 8] s
      ∧ (([7, 8] : List Nat) = [] → s.tokens_idx = 0)
      ∧ (([7, 8] : List Nat) ≠ [] → s.tokens_idx ≤ s.tokens_len - 1 ∧ s.tokens_idx < s.tokens_len)
      ∧ (∀ i, i < s.marks_idx →
          (([7, 8] : List Nat) = [] → s.marks.getD i 0 = 0)
            ∧ (([7, 8] : List Nat) ≠ [] → s.marks.getD i 0 < s.tokens_len))
      ∧ (stream_is_empty s = true ↔ stream_peek s = none) :=
  ⟨_, Reachable.restore _ _
      (Reachable.consume _ (Reachable.consume _
        (Reachable.mark _ _ (Reachable.consume _ Reachable.init) rfl))) rfl,
    stream_cursor_bound Nat [7, 8] _
      (Reachable.restore _ _
        (Reachable.consume _ (Reachable.consume _
          (Reachable.mark _ _ (Reachable.consume _ Reachable.init) rfl))) rfl)⟩

/-! ### The token stream: nested marks -/

theorem stream_consume_c_frame {α : Type} (s : stream_t α) :
    (stream_consume_c s).tokens = s.tokens ∧ (stream_consume_c s).tokens_len = s.tokens_len
      ∧ (stream_consume_c s).marks = s.marks ∧ (stream_consume_c s).marks_idx = s.marks_idx := by
  simp only [stream_consume_c, stream_rotate]
  split <;> exact ⟨rfl, rfl, rfl, rfl⟩

theorem stream_advance_frame {α : Type} (n : Nat) :
    ∀ s : stream_t α, (stream_advance n s).tokens = s.tokens
      ∧ (stream_advance n s).tokens_len = s.tokens_len
      ∧ (stream_advance n s).marks = s.marks ∧ (stream_advance n s).marks_idx = s.marks_idx := by
  induction n with
  | zero => intro s; exact ⟨rfl, rfl, rfl, rfl⟩
  | succ n ih =>
    intro s
    obtain ⟨a, b, c, d⟩ := ih (stream_consume_c s)
    obtain ⟨a1, b1, c1, d1⟩ := stream_consume_c_frame s
    exact ⟨a.trans a1, b.trans b1, c.trans c1, d.trans d1⟩

theorem stream_create_mark_ok {α : Type} (s : stream_t α) (h : s.marks_idx < 127) :
    ∃ s1, stream_create_mark s = .ok s1 ∧ s1.tokens = s.tokens ∧ s1.tokens_len = s.tokens_len
      ∧ s1.marks = s.marks.set s.marks_idx s.tokens_idx ∧ s1.marks_idx = s.marks_idx + 1 := by
  have hlt : ¬ s.marks_idx ≥ 127 := by omega
  exact ⟨{ s with marks := s.marks.set s.marks_idx s.tokens_idx, marks_idx := s.marks_idx + 1 },
    by rw [stream_create_mark, if_neg hlt], rfl, rfl, rfl, rfl⟩

theorem stream_mark_restore_ok {α : Type} (s : stream_t α) (h : s.marks_idx ≠ 0) :
    ∃ s1, stream_mark_restore s = .ok s1
      ∧ s1.tokens_idx = s.marks.getD (s.marks_idx - 1) 0
      ∧ s1.look0 = (if s.tokens_len > s.marks.getD (s.marks_idx - 1) 0
          then rb_ary_entry s.tokens (s.marks.getD (s.marks_idx - 1) 0) else none)
      ∧ s1.look1 = (if s.tokens_len > s.marks.getD (s.marks_idx - 1) 0 + 1
          then rb_ary_entry s.tokens (s.marks.getD (s.marks_idx - 1) 0 + 1) else none)
      ∧ s1.marks_idx = s.marks_idx - 1 :=
  ⟨{ s with
      tokens_idx := s.marks.getD (s.marks_idx - 1) 0
      look0 := if s.tokens_len > s.marks.getD (s.marks_idx - 1) 0
        then rb_ary_entry s.tokens (s.marks.getD (s.marks_idx - 1) 0) else none
      look1 := if s.tokens_len > s.marks.getD (s.marks_idx - 1) 0 + 1
        then rb_ary_entry s.tokens (s.marks.getD (s.marks_idx - 1) 0 + 1) else none
      marks_idx := s.marks_idx - 1 },
    by rw [stream_mark_restore, if_neg h], rfl, rfl, rfl, rfl⟩

theorem stream_mark_pop_ok {α : Type} (s s1 : stream_t α) (h : stream_mark_pop s = .ok s1) :
    s1.tokens = s.tokens ∧ s1.tokens_len = s.tokens_len ∧ s1.tokens_idx = s.tokens_idx
      ∧ s1.look0 = s.look0 ∧ s1.look1 = s.look1 ∧ s1.marks = s.marks
      ∧ s1.marks_idx + 1 = s.marks_idx := by
  rw [stream_mark_pop] at h
  split at h
  · cases h
  · obtain rfl := Except.ok.inj h
    exact ⟨rfl, rfl, rfl, rfl, rfl, rfl, by simp only; omega⟩

theorem stream_mark_pop_returns {α : Type} (s : stream_t α) (h : 0 < s.marks_idx) :
    ∃ s1, stream_mark_pop s = .ok s1 := by
  have hne : ¬ s.marks_idx = 0 := by omega
  exact ⟨_, by rw [stream_mark_pop, if_neg hne]⟩

theorem room_of_two_marks {α : Type} (s : stream_t α)
    (h : ∃ s2, stream_mark_n 2 s = .ok s2) : s.marks_idx + 2 ≤ 127 := by
  obtain ⟨s2, h⟩ := h
  by_cases h1 : s.marks_idx ≥ 127
  · simp [stream_mark_n, stream_create_mark, h1] at h
  · by_cases h2 : s.marks_idx + 1 ≥ 127
    · simp [stream_mark_n, stream_create_mark, h1, h2] at h
    · omega

/-- The nested sequence on a state whose lookahead mirrors the tokens at the cursor. -/
theorem stream_nested_marks_restores {α : Type} (L : List α) (s : stream_t α)
    (k : StreamInv L s) (hl : s.look0 = L.get? s.tokens_idx ∧ s.look1 = L.get? (s.tokens_idx + 1))
    (hroom : s.marks_idx + 2 ≤ 127) (a b : Nat) :
    ∃ s1, stream_nested_marks a b s = .ok s1 ∧ s1.tokens_idx = s.tokens_idx
      ∧ s1.look0 = s.look0 ∧ s1.look1 = s.look1 ∧ s1.marks_idx = s.marks_idx := by
  obtain ⟨s1, e1, t1, n1, m1, d1⟩ := stream_create_mark_ok s (by omega)
  obtain ⟨ta, na, ma, da⟩ := stream_advance_frame a s1
  obtain ⟨s2, e2, t2, n2, m2, d2⟩ := stream_create_mark_ok (stream_advance a s1)
    (by rw [da, d1]; omega)
  obtain ⟨tb, nb, mb, db⟩ := stream_advance_frame b s2
  obtain ⟨s3, e3⟩ := stream_mark_pop_returns (stream_advance b s2) (by rw [db, d2]; omega)
  obtain ⟨t3, n3, _, _, _, m3, d3⟩ := stream_mark_pop_ok _ _ e3
  have hd3 : s3.marks_idx = s.marks_idx + 1 := by rw [db, d2, da, d1] at d3; omega
  have hne : ¬ s3.marks_idx = 0 := by omega
  have hlen : s.marks_idx < (s.marks.set s.marks_idx s.tokens_idx).length := by
    rw [List.length_set, k.marks_len]; omega
  have hmark : s3.marks.getD (s3.marks_idx - 1) 0 = s.tokens_idx := by
    rw [hd3, m3, mb, m2, ma, m1, da, d1, Nat.add_sub_cancel, List.getD_eq_getElem?_getD,
      List.getElem?_set_ne (by omega), List.getElem?_eq_getElem hlen, List.getElem_set_self]
    rfl
  have ht3 : s3.tokens = L := by rw [t3, tb, t2, ta, t1, k.tokens]
  have hn3 : s3.tokens_len = L.length := by rw [n3, nb, n2, na, n1, k.len]
  obtain ⟨s4, e4, i4, l4, r4, d4⟩ := stream_mark_restore_ok s3 hne
  rw [hmark, ht3, hn3] at l4 r4
  refine ⟨s4, ?_, i4.trans hmark, ?_, ?_, ?_⟩
  · simp only [stream_nested_marks, e1, e2, e3]
    exact e4
  · rw [l4, hl.1]; exact get?_of_guard L _
  · rw [r4, hl.2]; exact get?_of_guard L _
  · rw [d4, hd3]; omega

/-- Claim C22. In every reachable state `s` of a stream: `pop()`, when it returns, leaves
the cursor index and both lookahead slots unchanged and lowers the mark depth by one, and
it returns whenever a mark is outstanding; and if `s` is not empty and has room for two
more marks (two `mark()` calls in a row succeed), the sequence `mark()`, `a` calls of
`consume`/`discard`, `mark()`, `b` such calls, `pop()`, `restore()` returns and leaves the
cursor index, both lookahead slots and the mark depth as they were in `s`. -/
theorem stream_marks_lifo (α : Type) (L : List α) (s : stream_t α) (h : Reachable L s) :
    (∀ s1, stream_mark_pop s = .ok s1 →
        s1.tokens_idx = s.tokens_idx ∧ stream_peek s1 = stream_peek s
          ∧ stream_peek1 s1 = stream_peek1 s ∧ s1.marks_idx + 1 = s.marks_idx)
      ∧ (0 < s.marks_idx → ∃ s1, stream_mark_pop s = .ok s1)
      ∧ (stream_is_empty s = false → (∃ s2, stream_mark_n 2 s = .ok s2) →
          ∀ a b, ∃ s1, stream_nested_marks a b s = .ok s1
            ∧ s1.tokens_idx = s.tokens_idx ∧ stream_peek s1 = stream_peek s
            ∧ stream_peek1 s1 = stream_peek1 s ∧ s1.marks_idx = s.marks_idx) := by
  have k := StreamInv_of_Reachable h
  refine ⟨fun s1 h1 => ?_, stream_mark_pop_returns s, fun he hroom a b => ?_⟩
  · obtain ⟨_, _, a, b, c, _, d⟩ := stream_mark_pop_ok s s1 h1
    exact ⟨a, b, c, d⟩
  · have hl : s.look0 = L.get? s.tokens_idx ∧ s.look1 = L.get? (s.tokens_idx + 1) := by
      rcases k.look with hl | ⟨e, _⟩
      · exact hl
      · simp [stream_is_empty, e] at he
    exact stream_nested_marks_restores L s k hl (room_of_two_marks s hroom) a b

/-- Witness for C22: the stream over three tokens after one `consume` and one `mark`,
with `a = 2` and `b = 1` (the inner run exhausts the stream). -/
theorem stream_marks_lifo_witness :
    ∃ s : stream_t Nat, Reachable [7, 8, 9] s ∧ stream_is_empty s = false
      ∧ (∃ s2, stream_mark_n 2 s = .ok s2)
      ∧ ∃ s1, stream_nested_marks 2 1 s = .ok s1
          ∧ s1.tokens_idx = s.tokens_idx ∧ stream_peek s1 = stream_peek s
          ∧ stream_peek1 s1 = stream_peek1 s ∧ s1.marks_idx = s.marks_idx :=
  ⟨_, Reachable.mark _ _ (Reachable.consume _ Reachable.init) rfl, rfl, ⟨_, rfl⟩,
    (stream_marks_lifo Nat [7, 8, 9] _
      (Reachable.mark _ _ (Reachable.consume _ Reachable.init) rfl)).2.2 rfl ⟨_, rfl⟩ 2 1⟩

/-! ### End of input in the decoder -/

/-- Claim C21 (failing input). On the bytes `F0 61 62` the decoder called at cursor `0`
returns `EOF_CP` with the cursor at `1`, short of the end `3`; the next call, from that
cursor, returns `0x61`, not `EOF_CP`. So `scanner_initialize` fills the lookahead with
`EOF, 'a', 'b', EOF`: slot 0 holds the sentinel and slots 1 and 2 do not, `at_eof` is true
although two more code points are decodable, and `tokenize` returns no token and no
error for this input. -/
theorem next_utf8_cp_eof_not_final :
    next_utf8_cp (memOf [0xF0, 0x61, 0x62]) 0 3 = ⟨EOF_CP, 1, [0]⟩
      ∧ next_utf8_cp (memOf [0xF0, 0x61, 0x62]) 1 3 = ⟨0x61, 2, [1]⟩
      ∧ (( scanner_initialize [0xF0, 0x61, 0x62]).look0,
          ( scanner_initialize [0xF0, 0x61, 0x62]).look1,
          ( scanner_initialize [0xF0, 0x61, 0x62]).look2,
          ( scanner_initialize [0xF0, 0x61, 0x62]).look3) = (EOF, 0x61, 0x62, EOF)
      ∧ scanner_at_eof ( scanner_initialize [0xF0, 0x61, 0x62]) = true
      ∧ tokens_of (scanner_tokenize 5 [0xFFFD, 0x61, 0x62]
          ( scanner_initialize [0xF0, 0x61, 0x62])) = some []
      ∧ errors_of (scanner_tokenize 5 [0xFFFD, 0x61, 0x62]
          ( scanner_initialize [0xF0, 0x61, 0x62])) = some [] := by
  refine ⟨?_, ?_, ?_, ?_, ?_, ?_⟩ <;> decide

/-! ### The error list of a scan -/

theorem ErrorsAre_same {t t1 : scanner_t} {ws : List String} (h : ErrorsAre t ws)
    (he : t1.errors = t.errors) (h0 : t1.look0 = t.look0) (hl : t1.line = t.line)
    (hc : t1.col = t.col) (hi : t1.idx_cp = t.idx_cp) : ErrorsAre t1 ws := by
  refine ⟨?_, fun hne => h0.trans (h.2 hne)⟩
  rw [he, h.1]
  simp only [errStr, hl, hc, hi]

theorem ErrorsAre_consume {t : scanner_t} {ws : List String} (h : ErrorsAre t ws) :
    ErrorsAre (scanner_consume t) ws := by
  rcases ws with _ | ⟨w, ws⟩
  · exact ⟨by rw [(scanner_consume_Keeps t).errors]; exact h.1, fun hne => absurd rfl hne⟩
  · rw [scanner_consume_eof t (h.2 (List.cons_ne_nil _ _))]; exact h

theorem ErrorsAre_start_token {t : scanner_t} {ws : List String} (h : ErrorsAre t ws) :
    ErrorsAre (scanner_start_token t) ws := ErrorsAre_same h rfl rfl rfl rfl rfl

theorem ErrorsAre_push {t : scanner_t} {ws : List String} (h : ErrorsAre t ws) (kind : Kind) :
    ErrorsAre (scanner_push_token_simple t kind) ws := ErrorsAre_same h rfl rfl rfl rfl rfl

theorem ErrorsAre_quote {t : scanner_t} {ws : List String} (h : ErrorsAre t ws) (q : Int) :
    ErrorsAre (scanner_set_string_quote_value t q) ws := ErrorsAre_same h rfl rfl rfl rfl rfl

theorem ErrorsAre_amend {t : scanner_t} {ws : List String} (h : ErrorsAre t ws) (kind : Kind) :
    ErrorsAre (scanner_amend_last_token_kind t kind) ws := ErrorsAre_same h rfl rfl rfl rfl rfl

theorem ErrorsAre_push_error {t : scanner_t} {ws : List String} (h : ErrorsAre t ws)
    (h0 : t.look0 = EOF_CP) (w : String) : ErrorsAre (scanner_push_error t w) (ws ++ [w]) := by
  refine ⟨?_, fun _ => h0⟩
  simp only [scanner_push_error, h.1, List.map_append, List.map_cons, List.map_nil]
  rfl

theorem ErrShape_of {t : scanner_t} {ws : List String} (hm : ws ∈ error_runs)
    (h : ErrorsAre t ws) : ErrShape t := ⟨ws, hm, h⟩

theorem consume_while_Errors (P : Int → Bool) {ws : List String} :
    ∀ (fuel : Nat) (t t1 : scanner_t), consume_while P fuel t = some t1 → ErrorsAre t ws →
      ErrorsAre t1 ws := by
  intro fuel
  induction fuel with
  | zero => intro t t1 h; simp [consume_while] at h
  | succ n ih =>
    intro t t1 h he
    rw [consume_while] at h
    split at h
    · exact ih _ _ h (ErrorsAre_consume he)
    · obtain rfl := Option.some.inj h
      exact he

theorem scanner_consume_unquoted_attr_value_Errors {ws : List String} (fuel : Nat)
    (t t1 : scanner_t) (h : scanner_consume_unquoted_attr_value fuel t = some t1)
    (he : ErrorsAre t ws) : ErrorsAre t1 ws := by
  have loop : ∀ (fuel : Nat) (b : Bool) (t : scanner_t) (r : Bool × scanner_t),
      scanner_consume_unquoted_attr_value_loop fuel b t = some r → ErrorsAre t ws →
        ErrorsAre r.2 ws := by
    intro fuel
    induction fuel with
    | zero => intro b t r h; simp [scanner_consume_unquoted_attr_value_loop] at h
    | succ n ih =>
      intro b t r h he
      rw [scanner_consume_unquoted_attr_value_loop] at h
      split at h
      · exact ih _ _ _ h (ErrorsAre_consume he)
      · obtain rfl := Option.some.inj h
        exact he
  rw [scanner_consume_unquoted_attr_value, Option.map_eq_some'] at h
  obtain ⟨r, hr, e⟩ := h
  have k := loop fuel false t r hr he
  split at e
  · rw [← e]; exact ErrorsAre_push k _
  · rw [← e]; exact k

theorem scanner_consume_literal_Errors {ws : List String} (fuel : Nat) (t t1 : scanner_t)
    (h : scanner_consume_literal fuel t = some t1) (he : ErrorsAre t ws) : ErrorsAre t1 ws := by
  have loop : ∀ (fuel : Nat) (t u : scanner_t),
      scanner_consume_literal_loop fuel t = some u → ErrorsAre t ws → ErrorsAre u ws := by
    intro fuel
    induction fuel with
    | zero => intro t u h; cases h
    | succ n ih =>
      intro t u h he
      rw [scanner_consume_literal_loop] at h
      split at h
      · obtain rfl := Option.some.inj h; exact he
      · split at h
        · split at h
          · obtain rfl := Option.some.inj h; exact he
          · exact ih _ _ h (ErrorsAre_consume he)
        · split at h
          · obtain rfl := Option.some.inj h; exact he
          · exact ih _ _ h (ErrorsAre_consume he)
  rw [scanner_consume_literal, Option.map_eq_some'] at h
  obtain ⟨u, hu, e⟩ := h
  rw [← e]
  exact ErrorsAre_push (loop fuel _ u hu (ErrorsAre_start_token he)) _

theorem scanner_consume_executable_loop_Errors :
    ∀ (fuel : Nat) (lvl : Int) (t t1 : scanner_t),
      scanner_consume_executable_loop fuel lvl t = some t1 → ErrorsAre t [] →
        ErrorsAre t1 [] ∨ ErrorsAre t1 ["Unmatched \x7b\x7b block"] := by
  intro fuel
  induction fuel with
  | zero => intro lvl t t1 h; cases h
  | succ n ih =>
    intro lvl t t1 h he
    rw [scanner_consume_executable_loop] at h
    by_cases h0 : t.look0 ≠ EOF_CP
    · rw [if_pos h0] at h
      split at h
      · obtain rfl := Option.some.inj h
        exact Or.inl (ErrorsAre_consume (ErrorsAre_consume (ErrorsAre_push he _)))
      · exact ih _ _ _ h (ErrorsAre_consume he)
    · rw [if_neg h0] at h
      obtain rfl := Option.some.inj h
      exact Or.inr (ErrorsAre_push_error he (not_not.mp h0) _)

theorem scanner_consume_executable_Errors (fuel : Nat) (t t1 : scanner_t)
    (h : scanner_consume_executable fuel t = some t1) (he : ErrorsAre t []) :
    ErrorsAre t1 [] ∨ ErrorsAre t1 ["Unmatched \x7b\x7b block"] :=
  scanner_consume_executable_loop_Errors fuel 0 _ t1 h
    (ErrorsAre_start_token (ErrorsAre_consume (ErrorsAre_consume he)))

/-- The string loop entered at end of input records its error and returns. -/
theorem scanner_consume_string_loop_Errors_eof (q : Int) {ws : List String} (fuel : Nat)
    (t t1 : scanner_t) (h : scanner_consume_string_loop q fuel t = some t1)
    (he : ErrorsAre t ws) (h0 : t.look0 = EOF_CP) :
    ErrorsAre t1 (ws ++ ["Unterminated string value"]) := by
  cases fuel with
  | zero => cases h
  | succ n =>
    have g : ¬ t.look0 ≠ EOF := not_not.mpr h0
    rw [scanner_consume_string_loop, if_neg g] at h
    obtain rfl := Option.some.inj h
    exact ErrorsAre_quote (ErrorsAre_push (ErrorsAre_push_error he h0 _) _) _

theorem scanner_consume_string_loop_Errors (q : Int) :
    ∀ (fuel : Nat) (t t1 : scanner_t),
      scanner_consume_string_loop q fuel t = some t1 → ErrorsAre t [] →
        ErrorsAre t1 [] ∨ ErrorsAre t1 ["Unterminated string value"]
          ∨ ErrorsAre t1 ["Unmatched \x7b\x7b block", "Unterminated string value"] := by
  intro fuel
  induction fuel with
  | zero => intro t t1 h; cases h
  | succ n ih =>
    intro t t1 h he
    by_cases h0 : t.look0 ≠ EOF
    · rw [scanner_consume_string_loop, if_pos h0] at h
      split at h
      · exact ih _ _ h (ErrorsAre_consume (ErrorsAre_consume he))
      · split at h
        · obtain rfl := Option.some.inj h
          exact Or.inl (ErrorsAre_consume (ErrorsAre_quote (ErrorsAre_push he _) _))
        · split at h
          · rw [Option.bind_eq_some] at h
            obtain ⟨t3, h3, h4⟩ := h
            rcases scanner_consume_executable_Errors n _ t3 h3
              (ErrorsAre_quote (ErrorsAre_push he _) _) with k | k
            · exact ih _ _ h4 (ErrorsAre_start_token (ErrorsAre_amend k _))
            · exact Or.inr (Or.inr (scanner_consume_string_loop_Errors_eof q n _ t1 h4
                (ErrorsAre_start_token (ErrorsAre_amend k _)) (k.2 (List.cons_ne_nil _ _))))
          · exact ih _ _ h (ErrorsAre_consume he)
    · exact Or.inr (Or.inl (scanner_consume_string_loop_Errors_eof q (n + 1) t t1 h he
        (not_not.mp h0)))

theorem scanner_consume_string_Errors (fuel : Nat) (t t1 : scanner_t)
    (h : scanner_consume_string fuel t = some t1) (he : ErrorsAre t []) :
    ErrorsAre t1 [] ∨ ErrorsAre t1 ["Unterminated string value"]
      ∨ ErrorsAre t1 ["Unmatched \x7b\x7b block", "Unterminated string value"] :=
  scanner_consume_string_loop_Errors _ fuel _ t1 h (ErrorsAre_start_token (ErrorsAre_consume he))

theorem scanner_consume_attr_Errors (fuel : Nat) (t t1 : scanner_t)
    (h : scanner_consume_attr fuel t = some t1) (he : ErrorsAre t []) : ErrShape t1 := by
  rw [scanner_consume_attr, Option.bind_eq_some] at h
  obtain ⟨u1, h1, h⟩ := h
  rw [Option.bind_eq_some] at h
  obtain ⟨u2, h2, h⟩ := h
  rw [scanner_consume_attr_name_eq] at h1
  rw [scanner_consume_spaces_eq] at h2
  have e1 := consume_while_Errors _ fuel _ u1 h1 (ErrorsAre_start_token he)
  have e2 := consume_while_Errors _ fuel _ u2 h2 (ErrorsAre_push e1 _)
  split at h
  · rw [Option.bind_eq_some] at h
    obtain ⟨u3, h3, h⟩ := h
    rw [scanner_consume_spaces_eq] at h3
    have e3 := consume_while_Errors _ fuel _ u3 h3
      (ErrorsAre_push (ErrorsAre_consume (ErrorsAre_start_token e2)) _)
    split at h
    · rcases scanner_consume_string_Errors fuel u3 t1 h e3 with k | k | k
      · exact ErrShape_of (by decide) k
      · exact ErrShape_of (by decide) k
      · exact ErrShape_of (by decide) k
    · split at h
      · rcases scanner_consume_executable_Errors fuel u3 t1 h e3 with k | k
        · exact ErrShape_of (by decide) k
        · exact ErrShape_of (by decide) k
      · exact ErrShape_of (by decide)
          (scanner_consume_unquoted_attr_value_Errors fuel _ t1 h (ErrorsAre_start_token e3))
  · obtain rfl := Option.some.inj h
    exact ErrShape_of (by decide) e2

theorem scanner_consume_comment_tag_Errors :
    ∀ (fuel : Nat) (t t1 : scanner_t),
      scanner_consume_comment_tag fuel t = some t1 → ErrorsAre t [] →
        ErrorsAre t1 [] ∨ ErrorsAre t1 ["Unterminated comment tag"] := by
  intro fuel
  induction fuel with
  | zero => intro t t1 h; cases h
  | succ n ih =>
    intro t t1 h he
    by_cases h0 : t.look0 ≠ EOF
    · rw [scanner_consume_comment_tag, if_pos h0] at h
      split at h
      · obtain rfl := Option.some.inj h
        exact Or.inl (ErrorsAre_push
          (ErrorsAre_consume (ErrorsAre_consume (ErrorsAre_consume he))) _)
      · exact ih _ _ h (ErrorsAre_consume he)
    · rw [scanner_consume_comment_tag, if_neg h0] at h
      obtain rfl := Option.some.inj h
      exact Or.inr (ErrorsAre_push (ErrorsAre_push_error he (not_not.mp h0) _) _)

theorem scanner_scan_open_tag_attrs_Errors :
    ∀ (fuel : Nat) (t t1 : scanner_t),
      scanner_scan_open_tag_attrs fuel t = some t1 → ErrShape t → ErrShape t1 := by
  intro fuel
  induction fuel with
  | zero => intro t t1 h; cases h
  | succ n ih =>
    intro t t1 h he
    rw [scanner_scan_open_tag_attrs] at h
    split at h
    · rename_i hl
      obtain ⟨ws, _, k⟩ := he
      rcases ws with _ | ⟨w, ws⟩
      · rw [Option.bind_eq_some] at h
        obtain ⟨u1, h1, h⟩ := h
        rw [Option.bind_eq_some] at h
        obtain ⟨u2, h2, h⟩ := h
        obtain ⟨ws1, m1, k1⟩ := scanner_consume_attr_Errors n t u1 h1 k
        rw [scanner_consume_spaces_eq] at h2
        exact ih _ _ h ⟨ws1, m1, consume_while_Errors _ n _ u2 h2 k1⟩
      · rw [k.2 (List.cons_ne_nil _ _)] at hl
        exact absurd hl (by decide)
    · obtain rfl := Option.some.inj h
      exact he

theorem scanner_scan_closing_tag_attrs_Errors :
    ∀ (fuel : Nat) (t t1 : scanner_t),
      scanner_scan_closing_tag_attrs fuel t = some t1 → ErrShape t → ErrShape t1 := by
  intro fuel
  induction fuel with
  | zero => intro t t1 h; cases h
  | succ n ih =>
    intro t t1 h he
    rw [scanner_scan_closing_tag_attrs] at h
    split at h
    · rename_i hl
      obtain ⟨ws, _, k⟩ := he
      rcases ws with _ | ⟨w, ws⟩
      · rw [Option.bind_eq_some] at h
        obtain ⟨u1, h1, h⟩ := h
        rw [Option.bind_eq_some] at h
        obtain ⟨u2, h2, h⟩ := h
        obtain ⟨ws1, m1, k1⟩ := scanner_consume_attr_Errors n t u1 h1 k
        rw [scanner_consume_spaces_eq] at h2
        exact ih _ _ h ⟨ws1, m1, consume_while_Errors _ n _ u2 h2 k1⟩
      · rw [k.2 (List.cons_ne_nil _ _)] at hl
        exact absurd hl (by decide)
    · obtain rfl := Option.some.inj h
      exact he

theorem scanner_scan_open_tag_Errors (fuel : Nat) (t t1 : scanner_t)
    (h : scanner_scan_open_tag fuel t = some t1) (he : ErrorsAre t []) : ErrShape t1 := by
  rw [scanner_scan_open_tag] at h
  have e0 := ErrorsAre_start_token he
  split at h
  · rcases scanner_consume_comment_tag_Errors fuel _ t1 h
      (ErrorsAre_push (ErrorsAre_consume (ErrorsAre_consume (ErrorsAre_consume
        (ErrorsAre_consume e0)))) _) with k | k
    · exact ErrShape_of (by decide) k
    · exact ErrShape_of (by decide) k
  · split at h
    · rw [Option.bind_eq_some] at h
      obtain ⟨u1, h1, h⟩ := h
      rw [Option.bind_eq_some] at h
      obtain ⟨u2, h2, h⟩ := h
      rw [scanner_consume_tag_ident_eq] at h1
      rw [scanner_consume_spaces_eq] at h2
      have e1 := consume_while_Errors _ fuel _ u1 h1 (ErrorsAre_consume e0)
      have e2 := consume_while_Errors _ fuel _ u2 h2 (ErrorsAre_push e1 _)
      exact scanner_scan_open_tag_attrs_Errors fuel u2 t1 h (ErrShape_of (by decide) e2)
    · split at h
      · rw [Option.bind_eq_some] at h
        obtain ⟨u1, h1, h⟩ := h
        rw [Option.bind_eq_some] at h
        obtain ⟨u2, h2, h⟩ := h
        rw [Option.bind_eq_some] at h
        obtain ⟨u3, h3, h⟩ := h
        rw [Option.bind_eq_some] at h
        obtain ⟨u4, h4, h⟩ := h
        have b0 := ErrorsAre_consume (ErrorsAre_consume e0)
        have e1 : ErrorsAre u1 [] := by
          simp only at h1
          split at h1
          · rw [scanner_consume_tag_ident_eq] at h1
            exact consume_while_Errors _ fuel _ u1 h1 b0
          · obtain rfl := Option.some.inj h1
            exact b0
        rw [scanner_consume_spaces_eq] at h2 h4
        have e2 := consume_while_Errors _ fuel _ u2 h2 (ErrorsAre_push e1 _)
        obtain ⟨ws, m3, e3⟩ := scanner_scan_closing_tag_attrs_Errors fuel u2 u3 h3
          (ErrShape_of (by decide) e2)
        have e4 := consume_while_Errors _ fuel _ u4 h4 e3
        split at h
        · obtain rfl := Option.some.inj h
          exact ⟨ws, m3, ErrorsAre_push (ErrorsAre_consume (ErrorsAre_start_token e4)) _⟩
        · obtain rfl := Option.some.inj h
          exact ⟨ws, m3, e4⟩
      · obtain rfl := Option.some.inj h
        exact ErrShape_of (by decide) he

theorem scanner_scan_token_Errors (fuel : Nat) (t t1 : scanner_t)
    (h : scanner_scan_token fuel t = some t1) (he : ErrorsAre t []) : ErrShape t1 := by
  rw [scanner_scan_token] at h
  have e0 := ErrorsAre_start_token he
  split at h
  · exact scanner_scan_open_tag_Errors fuel t t1 h he
  · split at h
    · obtain rfl := Option.some.inj h
      exact ErrShape_of (by decide) (ErrorsAre_push (ErrorsAre_consume e0) _)
    · split at h
      · split at h
        · obtain rfl := Option.some.inj h
          exact ErrShape_of (by decide)
            (ErrorsAre_push (ErrorsAre_consume (ErrorsAre_consume e0)) _)
        · exact ErrShape_of (by decide) (scanner_consume_literal_Errors fuel t t1 h he)
      · split at h
        · split at h
          · rcases scanner_consume_executable_Errors fuel t t1 h he with k | k
            · exact ErrShape_of (by decide) k
            · exact ErrShape_of (by decide) k
          · exact ErrShape_of (by decide) (scanner_consume_literal_Errors fuel t t1 h he)
        · split at h
          · obtain rfl := Option.some.inj h
            exact ErrShape_of (by decide) he
          · exact ErrShape_of (by decide) (scanner_consume_literal_Errors fuel t t1 h he)

theorem scanner_tokenize_loop_Errors :
    ∀ (fuel : Nat) (t t1 : scanner_t),
      scanner_tokenize_loop fuel t = some t1 → ErrShape t → ErrShape t1 := by
  intro fuel
  induction fuel with
  | zero => intro t t1 h; cases h
  | succ n ih =>
    intro t t1 h he
    rw [scanner_tokenize_loop] at h
    split at h
    · rename_i h0
      obtain ⟨ws, _, k⟩ := he
      rcases ws with _ | ⟨w, ws⟩
      · rw [Option.bind_eq_some] at h
        obtain ⟨u, hu, h⟩ := h
        exact ih _ _ h (scanner_scan_token_Errors n t u hu k)
      · exact absurd (k.2 (List.cons_ne_nil _ _)) h0
    · obtain rfl := Option.some.inj h
      exact he

/-- Claim C23. For every byte string on which `tokenize` returns, the error list is one
of five runs: empty, one "Unmatched {{ block", one "Unterminated string value", one
"Unterminated comment tag", or "Unmatched {{ block" followed by "Unterminated string
value". So at most two errors are recorded, two only in the last case; every message is
the one `scanner_push_error` formats from the line, column and offset of the final state
(what `stats` returns); and when an error was recorded the scan is at end of input. -/
theorem tokenize_errors_at_end (str chars : List Nat) (fuel : Nat) (t : scanner_t)
    (h : scanner_tokenize fuel chars ( scanner_initialize str) = some (.ok t)) :
    (∃ whats, whats ∈ error_runs
        ∧ scanner_errors t = whats.map (fun w => errStr w t)
        ∧ (whats ≠ [] → scanner_at_eof t = true))
      ∧ (scanner_errors t).length ≤ 2
      ∧ ((scanner_errors t).length = 2 →
          scanner_errors t = [errStr "Unmatched \x7b\x7b block" t,
            errStr "Unterminated string value" t]) := by
  rw [scanner_tokenize, Option.map_eq_some'] at h
  obtain ⟨t0, h0, e⟩ := h
  have hinit : ErrShape ( scanner_initialize str) := ⟨[], by decide, rfl, fun hne => absurd rfl hne⟩
  obtain ⟨ws, hm, k⟩ := scanner_tokenize_loop_Errors fuel _ t0 h0 hinit
  have hy : ∃ toks, t = { t0 with tokens := toks } := by
    cases hh : scanner_hydrate_tokens chars t0.tokens with
    | error x => rw [hh] at e; cases e
    | ok toks => rw [hh] at e; exact ⟨toks, (Except.ok.inj e).symm⟩
  obtain ⟨toks, rfl⟩ := hy
  have k1 : ErrorsAre { t0 with tokens := toks } ws := ErrorsAre_same k rfl rfl rfl rfl rfl
  have hat : ws ≠ [] → scanner_at_eof { t0 with tokens := toks } = true := by
    intro hne
    have hl : t0.look0 = EOF_CP := k.2 hne
    show (t0.look0 == EOF) = true
    rw [hl]
    rfl
  have he : scanner_errors { t0 with tokens := toks }
      = ws.map (fun w => errStr w { t0 with tokens := toks }) := k1.1
  refine ⟨⟨ws, hm, he, hat⟩, ?_, ?_⟩
  · rw [he, List.length_map]
    simp only [error_runs, List.mem_cons, List.mem_singleton, List.not_mem_nil, or_false] at hm
    rcases hm with rfl | rfl | rfl | rfl | rfl <;> simp
  · rw [he, List.length_map]
    simp only [error_runs, List.mem_cons, List.mem_singleton, List.not_mem_nil, or_false] at hm
    rcases hm with rfl | rfl | rfl | rfl | rfl <;> simp

/-- Witness for C23: the bytes of `<a b="x{{y`, on which two errors are recorded. -/
theorem tokenize_errors_at_end_witness :
    ∃ t, scanner_tokenize 30 (cps "<a b=\"x\x7b\x7by") ( scanner_initialize (cps "<a b=\"x\x7b\x7by"))
          = some (.ok t)
      ∧ (∃ whats, whats ∈ error_runs
          ∧ scanner_errors t = whats.map (fun w => errStr w t)
          ∧ (whats ≠ [] → scanner_at_eof t = true))
      ∧ (scanner_errors t).length ≤ 2
      ∧ ((scanner_errors t).length = 2 →
          scanner_errors t = [errStr "Unmatched \x7b\x7b block" t,
            errStr "Unterminated string value" t]) :=
  ⟨_, rfl, tokenize_errors_at_end (cps "<a b=\"x\x7b\x7by") (cps "<a b=\"x\x7b\x7by") 30 _ rfl⟩

end MiniHTML
